import Mathlib

/-!
Verification development for the FTC DSL Python-to-Java transpiler
(`src/ftc_transpiler.py`).

The transpiler walks a Python `ast` tree (produced by the external stdlib
front end `ast.parse`) and emits Java text lines.  We embed:

* the fragment of the Python `ast` node grammar that the visitor inspects
  (`PyConst`, `PyOp`, `PyCmpOp`, `PyExpr`/`PyArgs`, `PyStmt`/`PyBody`);
* the transpiler state (`TState`, mirroring the mutable fields of the
  `FTCTranspiler` instance);
* every visitor method as a function over that state.  Python exceptions
  (the `node.args[0]` index errors inside `visit_call_expression`, and
  front-end parse failures) are modelled with `Except String`.

Note on `ast` shapes: in Python's `ast` module a comparison such as
`a < b` is parsed as an `ast.Compare` node, not as an `ast.BinOp`;
`ast.BinOp` only carries arithmetic/bitwise operators.  The visitor has a
`BinOp` case but no `Compare` case, so `Compare` nodes fall through to the
final `return "/* UNKNOWN EXPRESSION */"` of `visit_expression`.  Both node
kinds are embedded faithfully below.
-/

set_option maxRecDepth 10000

/-- The opening-brace character, written by code point to keep brace
characters out of string literals. -/
def lbrace : Char := Char.ofNat 123

/-- The closing-brace character. -/
def rbrace : Char := Char.ofNat 125

/-- The one-character string holding an opening brace. -/
def lb : String := String.mk [lbrace]

/-- The one-character string holding a closing brace. -/
def rb : String := String.mk [rbrace]

/-- A Python constant (`ast.Constant.value`) as the transpiler observes it:
either a string, or any other constant (number, boolean, `None`) carrying
its Python `str()` rendering together with its Python truthiness.  The
transpiler only ever applies `isinstance(•, str)`, `str(•)`, equality with
string keys, and truthiness to constant values, so this is a faithful
interface. -/
inductive PyConst
  | pstr (s : String)
  | onum (rep : String) (truthy : Bool)
deriving DecidableEq, Repr

/-- Python `str()` of a constant value (used by f-string interpolation). -/
def PyConst.pyStr : PyConst → String
  | .pstr s => s
  | .onum r _ => r

/-- Python truthiness of a constant value. -/
def PyConst.pyTruthy : PyConst → Bool
  | .pstr s => !(s == "")
  | .onum _ t => t

/-- Binary operator kinds carried by `ast.BinOp` nodes, plus the comparison
operator classes that `convert_binary_op` also tests for (`ast.parse` never
places those on a `BinOp`, but the method checks them).  `modOp`, `powOp`
and `floorDiv` stand for the arithmetic operators the table does not map. -/
inductive PyOp
  | add | sub | mult | div | lt | gt | ltE | gtE | eq | notEq
  | modOp | powOp | floorDiv
deriving DecidableEq, Repr

/-- Comparison operator kinds carried by `ast.Compare` nodes. -/
inductive PyCmpOp
  | lt | gt | ltE | gtE | eq | notEq
deriving DecidableEq, Repr

mutual
/-- The expression grammar of the Python `ast` fragment the visitor
inspects.  `attr` is `ast.Attribute`, `usub` is `ast.UnaryOp` with
`ast.USub`, `unaryOther` stands for the remaining unary operators,
`compare` is `ast.Compare` (no visitor case), and `otherExpr` stands for
every further expression form (lists, dicts, lambdas, ...), none of which
has a visitor case. -/
inductive PyExpr
  | constE (c : PyConst)
  | nameE (id : String)
  | attr (value : PyExpr) (attrName : String)
  | usub (operand : PyExpr)
  | unaryOther (operand : PyExpr)
  | binOp (left : PyExpr) (op : PyOp) (right : PyExpr)
  | compare (left : PyExpr) (op : PyCmpOp) (right : PyExpr)
  | callE (func : PyExpr) (args : PyArgs)
  | otherExpr
/-- The positional-argument list of an `ast.Call` node. -/
inductive PyArgs
  | nil
  | cons (a : PyExpr) (rest : PyArgs)
end

/-- `len(args)` of a call's positional-argument list. -/
def PyArgs.len : PyArgs → Nat
  | .nil => 0
  | .cons _ rest => rest.len + 1

/-- `args[i]` of a call's positional-argument list, when in range. -/
def PyArgs.get? : PyArgs → Nat → Option PyExpr
  | .nil, _ => none
  | .cons a _, 0 => some a
  | .cons _ rest, n + 1 => rest.get? n

/-- Python `sep.join(parts)`. -/
def pyJoin (sep : String) : List String → String
  | [] => ""
  | [x] => x
  | x :: y :: rest => x ++ sep ++ pyJoin sep (y :: rest)

/-- `self.hardware_types`: hardware-kind name to Java device type. -/
def hardware_types : List (String × String) :=
  [("motor", "DcMotor"),
   ("servo", "Servo"),
   ("color_sensor", "ColorSensor"),
   ("distance_sensor", "DistanceSensor"),
   ("gyro", "GyroSensor"),
   ("touch_sensor", "TouchSensor"),
   ("light_sensor", "LightSensor"),
   ("imu", "IMU")]

/-- `self.motor_directions`: direction token to Java constant. -/
def motor_directions : List (String × String) :=
  [("forward", "DcMotor.Direction.FORWARD"),
   ("reverse", "DcMotor.Direction.REVERSE")]

/-- `self.motor_modes`: run-mode token to Java constant. -/
def motor_modes : List (String × String) :=
  [("run_using_encoder", "DcMotor.RunMode.RUN_USING_ENCODER"),
   ("run_without_encoder", "DcMotor.RunMode.RUN_WITHOUT_ENCODER"),
   ("run_to_position", "DcMotor.RunMode.RUN_TO_POSITION"),
   ("stop_and_reset_encoder", "DcMotor.RunMode.STOP_AND_RESET_ENCODER")]

/-- `self.standard_imports`: the fixed framework import set, written here
in the source's literal order. -/
def standard_imports : List String :=
  ["com.qualcomm.robotcore.eventloop.opmode.LinearOpMode",
   "com.qualcomm.robotcore.eventloop.opmode.TeleOp",
   "com.qualcomm.robotcore.eventloop.opmode.Autonomous",
   "com.qualcomm.robotcore.hardware.DcMotor",
   "com.qualcomm.robotcore.hardware.Servo",
   "com.qualcomm.robotcore.hardware.ColorSensor",
   "com.qualcomm.robotcore.hardware.DistanceSensor",
   "com.qualcomm.robotcore.hardware.TouchSensor",
   "com.qualcomm.robotcore.hardware.LightSensor",
   "com.qualcomm.robotcore.hardware.IMU",
   "org.firstinspires.ftc.robotcore.external.navigation.DistanceUnit",
   "org.firstinspires.ftc.robotcore.external.navigation.AngleUnit"]

/-- Code-point lexicographic order on character lists (Python's string
comparison). -/
def charListLe : List Char → List Char → Bool
  | [], _ => true
  | _ :: _, [] => false
  | c :: cs, d :: ds =>
      if c.toNat < d.toNat then true
      else if d.toNat < c.toNat then false
      else charListLe cs ds

/-- Python string comparison `x <= y`. -/
def strLe (x y : String) : Bool := charListLe x.data y.data

/-- Insert a string into an ascending list (helper for `sortedStrings`,
modelling Python's `sorted`). -/
def insertSorted (x : String) : List String → List String
  | [] => [x]
  | y :: ys => if strLe x y then x :: y :: ys else y :: insertSorted x ys

/-- Python `sorted(...)` on a set of distinct strings: ascending
code-point order. -/
def sortedStrings (l : List String) : List String :=
  l.foldr insertSorted []

/-- `self.gamepad_mappings` inside `convert_gamepad_attr`. -/
def gamepad_mappings : List (String × String) :=
  [("left_stick_y", "left_stick_y"),
   ("right_stick_x", "right_stick_x"),
   ("left_stick_x", "left_stick_x"),
   ("right_stick_y", "right_stick_y"),
   ("a_button", "a"),
   ("b_button", "b"),
   ("x_button", "x"),
   ("y_button", "y"),
   ("dpad_up", "dpad_up"),
   ("dpad_down", "dpad_down"),
   ("dpad_left", "dpad_left"),
   ("dpad_right", "dpad_right"),
   ("left_bumper", "left_bumper"),
   ("right_bumper", "right_bumper"),
   ("left_trigger", "left_trigger"),
   ("right_trigger", "right_trigger")]

/-- `convert_gamepad_attr`: `gamepad_mappings.get(attr, attr)`. -/
def convert_gamepad_attr (a : String) : String :=
  ((gamepad_mappings.lookup a).getD a)

/-- `convert_binary_op`: the fixed operator table; every operator class not
tested for falls through to `"?"`. -/
def convert_binary_op : PyOp → String
  | .add => "+"
  | .sub => "-"
  | .mult => "*"
  | .div => "/"
  | .lt => "<"
  | .gt => ">"
  | .ltE => "<="
  | .gtE => ">="
  | .eq => "=="
  | .notEq => "!="
  | _ => "?"

/-- `get_string_arg(call_node, index, default)` for a non-`None` default:
returns `args[index].value` when that argument exists and is an
`ast.Constant`, else the default. -/
def get_string_arg (args : PyArgs) (index : Nat) (default : PyConst) : PyConst :=
  match args.get? index with
  | some (.constE c) => c
  | _ => default

/-- `get_string_arg(call_node, index, None)`: the same lookup with the
`None` default modelled as `Option.none`. -/
def get_string_arg? (args : PyArgs) (index : Nat) : Option PyConst :=
  match args.get? index with
  | some (.constE c) => some c
  | _ => none

/-- Python `"..."\.strip('"')`: drop every leading and trailing
double-quote character. -/
def stripQuotes (s : String) : String :=
  String.mk (((s.data.dropWhile (· == '"')).reverse.dropWhile (· == '"')).reverse)

/-- The Python `str(e)` of the `IndexError` raised by `node.args[0]` on an
empty argument list. -/
def indexErrorMsg : String := "list index out of range"

/-- `visit_expression`, with the body of `visit_call_expression` inlined at
the `ast.Call` case (the source's `visit_expression` delegates every call
node to `visit_call_expression`; inlining keeps the recursion structural).
Unsupported forms return the `/* UNKNOWN EXPRESSION */` or
`/* UNKNOWN CALL */` marker; an out-of-range `node.args[0]` inside a known
method call raises an index error (modelled as `.error`).  The receiver
text `obj` of a method call is computed before the method-name dispatch,
exactly as in the source, so a raising receiver raises even for unknown
methods. -/
def visit_expression : PyExpr → Except String String
  | .constE (.pstr s) => pure ("\"" ++ s ++ "\"")
  | .constE (.onum r _) => pure r
  | .nameE id => pure id
  | .attr (.nameE vid) a =>
      if vid == "gamepad1" then pure ("gamepad1." ++ convert_gamepad_attr a)
      else if vid == "gamepad2" then pure ("gamepad2." ++ convert_gamepad_attr a)
      else pure (vid ++ "." ++ a)
  | .usub operand => do
      let o ← visit_expression operand
      pure ("-" ++ o)
  | .binOp l op r => do
      let left ← visit_expression l
      let right ← visit_expression r
      pure (left ++ " " ++ convert_binary_op op ++ " " ++ right)
  | .callE (.attr fval method) args => do
      let obj ← visit_expression fval
      if method == "set_power" then
        match args with
        | .cons a _ => do
            let arg ← visit_expression a
            pure (obj ++ ".setPower(" ++ arg ++ ")")
        | .nil => Except.error indexErrorMsg
      else if method == "set_position" then
        match args with
        | .cons a _ => do
            let arg ← visit_expression a
            pure (obj ++ ".setPosition(" ++ arg ++ ")")
        | .nil => Except.error indexErrorMsg
      else if method == "get_distance" then
        pure (obj ++ ".getDistance(DistanceUnit.CM)")
      else if method == "is_pressed" then
        pure (obj ++ ".isPressed()")
      else if method == "get_current_position" then
        pure (obj ++ ".getCurrentPosition()")
      else if method == "set_target_position" then
        match args with
        | .cons a _ => do
            let arg ← visit_expression a
            pure (obj ++ ".setTargetPosition(" ++ arg ++ ")")
        | .nil => Except.error indexErrorMsg
      else if method == "set_mode" then
        match args with
        | .cons a _ => do
            let mode_arg ← visit_expression a
            match motor_modes.lookup (stripQuotes mode_arg) with
            | some java_mode => pure (obj ++ ".setMode(" ++ java_mode ++ ")")
            | none => pure (obj ++ ".setMode(/* UNKNOWN MODE */)")
        | .nil => pure (obj ++ ".setMode(/* UNKNOWN MODE */)")
      else
        pure "/* UNKNOWN CALL */"
  | .callE (.nameE fid) args =>
      if fid == "telemetry_add" then
        match args with
        | .cons k (.cons v _) => do
            let key ← visit_expression k
            let value ← visit_expression v
            pure ("telemetry.addData(" ++ key ++ ", " ++ value ++ ")")
        | _ => pure "/* UNKNOWN CALL */"
      else if fid == "sleep" then
        match args with
        | .cons t _ => do
            let time_ms ← visit_expression t
            pure ("sleep(" ++ time_ms ++ ")")
        | .nil => pure "/* UNKNOWN CALL */"
      else
        pure "/* UNKNOWN CALL */"
  | .callE _ _ => pure "/* UNKNOWN CALL */"
  | _ => pure "/* UNKNOWN EXPRESSION */"

/-- `visit_call_expression(node)` on a call node with function part `func`
and arguments `args` (the source's `visit_expression` forwards call nodes
to it unchanged, so it coincides with `visit_expression` on the call). -/
def visit_call_expression (func : PyExpr) (args : PyArgs) : Except String String :=
  visit_expression (.callE func args)

example : visit_expression (.binOp (.nameE "a") .add (.nameE "b")) = .ok ("a + b") := by rfl

example : visit_expression (.compare (.nameE "count") .lt (.constE (.onum "10" true)))
    = .ok ("/* UNKNOWN EXPRESSION */") := by rfl

example : visit_call_expression (.attr (.attr (.nameE "self") "m") "set_power")
    (.cons (.constE (.onum "0.5" true)) .nil) = .ok ("self.m.setPower(0.5)") := by rfl

example : visit_call_expression (.attr (.nameE "x") "set_power") .nil
    = .error indexErrorMsg := by rfl

mutual
/-- Statement grammar of the embedded `ast` fragment: class definitions
(with their decorator list), routine definitions (argument names include
the receiver when written), assignments (full target list), expression
statements, `if`/`while`, and `pass` (which the visitor's `generic_visit`
ignores). -/
inductive PyStmt
  | classDef (name : String) (decorator_list : List PyExpr) (body : PyBody)
  | functionDef (name : String) (args : List String) (body : PyBody)
  | assign (targets : List PyExpr) (value : PyExpr)
  | exprStmt (value : PyExpr)
  | ifStmt (test : PyExpr) (body : PyBody) (orelse : PyBody)
  | whileStmt (test : PyExpr) (body : PyBody)
  | passStmt
/-- A statement list (`body`, `orelse`, module body). -/
inductive PyBody
  | nil
  | cons (s : PyStmt) (rest : PyBody)
end

/-- Python list truthiness test for a statement list (`if node.orelse:`). -/
def PyBody.isNil : PyBody → Bool
  | .nil => true
  | .cons _ _ => false

/-- Concatenation of statement lists (used to state decomposition
theorems). -/
def PyBody.append : PyBody → PyBody → PyBody
  | .nil, b => b
  | .cons s rest, b => .cons s (rest.append b)

/-- `OpModeType`: the enum of OpMode kinds. -/
inductive OpModeType
  | teleop | autonomous | disabled
deriving DecidableEq, Repr

/-- `OpModeType.value`, the annotation keyword. -/
def OpModeType.value : OpModeType → String
  | .teleop => "TeleOp"
  | .autonomous => "Autonomous"
  | .disabled => "Disabled"

/-- The `HardwareComponent` record built by the registry pre-scan. -/
structure HardwareComponent where
  name : String
  type : String
  config_name : PyConst
  direction : Option PyConst
deriving DecidableEq, Repr

/-- The `OpModeInfo` record built from class decorators. -/
structure OpModeInfo where
  name : PyConst
  group : PyConst
  omtype : OpModeType
deriving DecidableEq, Repr

/-- The mutable state of an `FTCTranspiler` instance: the emitted lines,
the hardware dictionary (insertion-ordered, as a key-value list), the
OpMode metadata, the current class name and the indentation level.
`min_indent` is a ghost observation recording the minimum value the
indentation level ever takes (at every assignment to `indent_level` and at
every emitted line); it mirrors no source variable and exists only so the
depth invariant can be stated. -/
structure TState where
  java_code : List String
  hardware_components : List (String × HardwareComponent)
  opmode_info : Option OpModeInfo
  class_name : String
  indent_level : Int
  min_indent : Int
deriving DecidableEq, Repr

/-- String repetition (`s * n` in Python). -/
def repeatStr (s : String) : Nat → String
  | 0 => ""
  | n + 1 => s ++ repeatStr s n

/-- `"    " * indent_level` (Python string repetition: empty for
non-positive counts). -/
def indentStr (lvl : Int) : String :=
  repeatStr ("    ") lvl.toNat

/-- `self.indent()`. -/
def TState.indent (st : TState) : String := indentStr st.indent_level

/-- `self.add_line(line)`: append one indented line. -/
def add_line (st : TState) (line : String) : TState :=
  ⟨st.java_code ++ [st.indent ++ line], st.hardware_components, st.opmode_info,
   st.class_name, st.indent_level, min st.min_indent st.indent_level⟩

/-- `self.indent_level += 1`. -/
def incIndent (st : TState) : TState :=
  ⟨st.java_code, st.hardware_components, st.opmode_info, st.class_name,
   st.indent_level + 1, min st.min_indent (st.indent_level + 1)⟩

/-- `self.indent_level -= 1`. -/
def decIndent (st : TState) : TState :=
  ⟨st.java_code, st.hardware_components, st.opmode_info, st.class_name,
   st.indent_level - 1, min st.min_indent (st.indent_level - 1)⟩

/-- `self.class_name = name`. -/
def setClassName (st : TState) (n : String) : TState :=
  ⟨st.java_code, st.hardware_components, st.opmode_info, n, st.indent_level,
   st.min_indent⟩

/-- `self.opmode_info = info`. -/
def setOpMode (st : TState) (o : Option OpModeInfo) : TState :=
  ⟨st.java_code, st.hardware_components, o, st.class_name, st.indent_level,
   st.min_indent⟩

/-- `self.hardware_components = hc` (the scan loop's net effect). -/
def setComponents (st : TState) (hc : List (String × HardwareComponent)) : TState :=
  ⟨st.java_code, hc, st.opmode_info, st.class_name, st.indent_level,
   st.min_indent⟩

/-- Python `list.insert(-1, x)`: insert right before the final element
(`insert` clamps the index, so on an empty list the element lands at the
front). -/
def insertBeforeLast : List String → String → List String
  | [], x => [x]
  | [y], x => [x, y]
  | y :: z :: rest, x => y :: insertBeforeLast (z :: rest) x

/-- `self.java_code.insert(-1, self.indent() + line)` as used by
`visit_ClassDef`'s post-scan declaration block. -/
def insertLine (st : TState) (line : String) : TState :=
  ⟨insertBeforeLast st.java_code (st.indent ++ line), st.hardware_components,
   st.opmode_info, st.class_name, st.indent_level, st.min_indent⟩

/-- Python `dict` insertion on the insertion-ordered hardware dictionary:
overwriting an existing key keeps its position, a fresh key goes to the
end. -/
def dictInsert (d : List (String × HardwareComponent)) (k : String)
    (v : HardwareComponent) : List (String × HardwareComponent) :=
  if d.any (fun p => p.1 == k) then
    d.map (fun p => if p.1 == k then (k, v) else p)
  else d ++ [(k, v)]

/-- One step of `scan_hardware_components`: the statement pattern that
registers a hardware component. -/
def scan_stmt (hc : List (String × HardwareComponent)) :
    PyStmt → List (String × HardwareComponent)
  | .assign [.attr (.nameE "self") a] (.callE (.nameE fn) args) =>
      match hardware_types.lookup fn with
      | some ty =>
          dictInsert hc a ⟨a, ty, get_string_arg args 0 (.pstr a), get_string_arg? args 1⟩
      | none => hc
  | _ => hc

/-- `scan_hardware_components(node)`: fold the registering step over the
initializer routine's direct statements. -/
def scan_hardware_components : PyBody → List (String × HardwareComponent) →
    List (String × HardwareComponent)
  | .nil, hc => hc
  | .cons s rest, hc => scan_hardware_components rest (scan_stmt hc s)

/-- The `visit_ClassDef` loop that scans every `init_hardware` routine of
the class body. -/
def classScan : PyBody → List (String × HardwareComponent) →
    List (String × HardwareComponent)
  | .nil, hc => hc
  | .cons (.functionDef n _ b) rest, hc =>
      if n == "init_hardware" then classScan rest (scan_hardware_components b hc)
      else classScan rest hc
  | .cons _ rest, hc => classScan rest hc

/-- The decorator loop of `visit_ClassDef`: each recognized OpMode
decorator call overwrites `self.opmode_info` (last one wins). -/
def process_decorators (cname : String) :
    List PyExpr → Option OpModeInfo → Option OpModeInfo
  | [], acc => acc
  | d :: rest, acc =>
      match d with
      | .callE (.nameE fid) args =>
          if fid == "teleop" then
            process_decorators cname rest
              (some ⟨get_string_arg args 0 (.pstr cname),
                     get_string_arg args 1 (.pstr "Linear Opmode"), .teleop⟩)
          else if fid == "autonomous" then
            process_decorators cname rest
              (some ⟨get_string_arg args 0 (.pstr cname),
                     get_string_arg args 1 (.pstr "Linear Opmode"), .autonomous⟩)
          else process_decorators cname rest acc
      | _ => process_decorators cname rest acc

/-- `self.motor_directions.get(direction, direction)` followed by the
f-string's `str()`: a recognized string direction maps to its Java
constant, anything else renders as itself. -/
def motor_directions_get (d : PyConst) : String :=
  match d with
  | .pstr s => ((motor_directions.lookup s).getD s)
  | .onum r _ => r

/-- `visit_Assign`.  A single receiver-attribute target whose value is a
call to a recognized hardware-kind name emits the hardware lookup (plus,
for a truthy direction on the `motor` kind, the direction-set line); a
call to an unrecognized bare name emits nothing; any other value emits a
plain attribute assignment.  A single bare-name target declares a `double`
local.  Every other target shape emits nothing. -/
def visit_Assign (targets : List PyExpr) (value : PyExpr) (st : TState) :
    Except String TState :=
  match targets with
  | [.attr (.nameE "self") a] =>
      match value with
      | .callE (.nameE fn) args =>
          match hardware_types.lookup fn with
          | some ty =>
              let config_name := get_string_arg args 0 (.pstr a)
              let direction := get_string_arg? args 1
              let st := add_line st
                (a ++ " = hardwareMap.get(" ++ ty ++ ".class, \"" ++
                 config_name.pyStr ++ "\");")
              match direction with
              | some d =>
                  if d.pyTruthy && fn == "motor" then
                    pure (add_line st (a ++ ".setDirection(" ++ motor_directions_get d ++ ");"))
                  else pure st
              | none => pure st
          | none => pure st
      | _ => do
          let v ← visit_expression value
          pure (add_line st (a ++ " = " ++ v ++ ";"))
  | [.nameE var] => do
      let v ← visit_expression value
      pure (add_line st ("double " ++ var ++ " = " ++ v ++ ";"))
  | _ => pure st

/-- Python `call_str.startswith("/*")`, computed on character lists so
that it evaluates inside the kernel. -/
def pyStartsWith (s pre : String) : Bool := pre.data.isPrefixOf s.data

/-- `visit_Expr`: a statement-level call is emitted with `;` unless its
translation starts with a marker comment, in which case nothing is
emitted; a non-call expression statement emits nothing. -/
def visit_Expr (value : PyExpr) (st : TState) : Except String TState :=
  match value with
  | .callE f args => do
      let call_str ← visit_call_expression f args
      if pyStartsWith call_str ("/*") then pure st
      else pure (add_line st (call_str ++ ";"))
  | _ => pure st

/-- The annotation line emitted for recognized OpMode metadata. -/
def annotationLine (info : OpModeInfo) : String :=
  "@" ++ info.omtype.value ++ "(name=\"" ++ info.name.pyStr ++ "\", group=\"" ++
    info.group.pyStr ++ "\")"

/-- The annotation-line block (empty without metadata). -/
def omLines (ind : String) : Option OpModeInfo → List String
  | some info => [ind ++ annotationLine info]
  | none => []

/-- One hardware field-declaration line body. -/
def hwDecl (p : String × HardwareComponent) : String :=
  "private " ++ p.2.type ++ " " ++ p.1 ++ " = null;"

/-- The hardware declaration block (comment line, declarations, blank
line), empty when no components are registered. -/
def hwLines (ind : String) (comps : List (String × HardwareComponent)) : List String :=
  if comps.isEmpty then []
  else (ind ++ "// Hardware components") :: comps.map (fun p => ind ++ hwDecl p) ++ [ind ++ ""]

/-- The class header line. -/
def headerLine (n : String) : String :=
  "public class " ++ n ++ " extends LinearOpMode " ++ lb

/-- Lines 120-121 of `visit_ClassDef`: emit the annotation line when
OpMode metadata is present. -/
def annBlock (st : TState) : TState :=
  match st.opmode_info with
  | some info => add_line st (annotationLine info)
  | none => st

/-- Lines 127-131 of `visit_ClassDef`: the pre-scan declaration block
(appended; only reachable with components left over from an earlier
unit). -/
def hwAppendBlock (st : TState) : TState :=
  if st.hardware_components.isEmpty then st
  else
    let st := add_line st ("// Hardware components")
    let st := st.hardware_components.foldl (fun s p => add_line s (hwDecl p)) st
    add_line st ("")

/-- Lines 139-143 of `visit_ClassDef`: the post-scan declaration block,
each line inserted with `java_code.insert(-1, ...)`. -/
def hwInsertBlock (st : TState) : TState :=
  if st.hardware_components.isEmpty then st
  else
    let st := insertLine st ("// Hardware components")
    let st := st.hardware_components.foldl (fun s p => insertLine s (hwDecl p)) st
    insertLine st ("")

/-- The part of `visit_ClassDef` that runs before the class body is
visited: record the class name, process decorators, emit the annotation
line (when metadata was found) and the class header, increment the
indentation, emit the pre-scan declaration block (only reachable when a
previous unit in the same module left components behind), run the
`init_hardware` scan loop, and emit the post-scan declaration block via
`java_code.insert(-1, ...)`. -/
def classPrelude (name : String) (decorator_list : List PyExpr) (body : PyBody)
    (st : TState) : TState :=
  let st := setClassName st name
  let st := setOpMode st (process_decorators name decorator_list st.opmode_info)
  let st := annBlock st
  let st := add_line st (headerLine name)
  let st := incIndent st
  let st := hwAppendBlock st
  let st := setComponents st (classScan body st.hardware_components)
  hwInsertBlock st

mutual
/-- The `ast.NodeVisitor` dispatch over one statement, with each
`visit_*` statement method's body inlined as its case (`visit_Assign` and
`visit_Expr` are non-recursive and defined above; named wrappers for the
routine generators follow below). -/
def visit : PyStmt → TState → Except String TState
  | .classDef name decorator_list body, st => do
      let st ← visitB body (classPrelude name decorator_list body st)
      let st := decIndent st
      pure (add_line st rb)
  | .functionDef name args body, st =>
      if name == "init_hardware" then do
        let st := add_line st ("private void initHardware() " ++ lb)
        let st := incIndent st
        let st ← visitB body st
        let st := decIndent st
        let st := add_line st rb
        pure (add_line st (""))
      else if name == "run" then do
        let st := add_line st ("@Override")
        let st := add_line st ("public void runOpMode() " ++ lb)
        let st := incIndent st
        let st := add_line st ("initHardware();")
        let st := add_line st ("")
        let st := add_line st ("telemetry.addData(\"Status\", \"Initialized\");")
        let st := add_line st ("telemetry.update();")
        let st := add_line st ("")
        let st := add_line st ("waitForStart();")
        let st := add_line st ("")
        let st ← visitB body st
        let st := decIndent st
        pure (add_line st rb)
      else if name == "loop" then do
        let st := add_line st ("while (opModeIsActive()) " ++ lb)
        let st := incIndent st
        let st ← visitB body st
        let st := add_line st ("telemetry.update();")
        let st := decIndent st
        pure (add_line st rb)
      else do
        let params := pyJoin (", ")
          ((args.filter (fun a => !(a == "self"))).map (fun a => "double " ++ a))
        let st := add_line st ("private void " ++ name ++ "(" ++ params ++ ") " ++ lb)
        let st := incIndent st
        let st ← visitB body st
        let st := decIndent st
        let st := add_line st rb
        pure (add_line st (""))
  | .assign targets value, st => visit_Assign targets value st
  | .exprStmt value, st => visit_Expr value st
  | .ifStmt test body orelse, st => do
      let condition ← visit_expression test
      let st := add_line st ("if (" ++ condition ++ ") " ++ lb)
      let st := incIndent st
      let st ← visitB body st
      let st := decIndent st
      if orelse.isNil then pure (add_line st rb)
      else do
        let st := add_line st (rb ++ " else " ++ lb)
        let st := incIndent st
        let st ← visitB orelse st
        let st := decIndent st
        pure (add_line st rb)
  | .whileStmt test body, st => do
      let condition ← visit_expression test
      let st := add_line st ("while (" ++ condition ++ ") " ++ lb)
      let st := incIndent st
      let st ← visitB body st
      let st := decIndent st
      pure (add_line st rb)
  | .passStmt, st => pure st

/-- Visiting a statement list in order (the `for stmt in node.body:
self.visit(stmt)` loops, and `generic_visit` on `ast.Module`). -/
def visitB : PyBody → TState → Except String TState
  | .nil, st => pure st
  | .cons s rest, st => do
      let st ← visit s st
      visitB rest st
end

/-- `visit_ClassDef` as a named entry point. -/
def visit_ClassDef (name : String) (decorator_list : List PyExpr) (body : PyBody)
    (st : TState) : Except String TState :=
  visit (.classDef name decorator_list body) st

/-- `generate_loop_method` as a named entry point (`visit_FunctionDef` on a
routine literally named `"loop"`). -/
def generate_loop_method (args : List String) (body : PyBody) (st : TState) :
    Except String TState :=
  visit (.functionDef "loop" args body) st

/-- `visit_If` as a named entry point. -/
def visit_If (test : PyExpr) (body orelse : PyBody) (st : TState) :
    Except String TState :=
  visit (.ifStmt test body orelse) st

/-- The fresh transpiler state built by `FTCTranspiler.__init__`. -/
def initTranspiler : TState := ⟨[], [], none, "", 0, 0⟩

/-- `generate_java_code`: the sorted fixed import block, a blank line, then
the emitted class lines. -/
def generate_java_code (st : TState) : String :=
  pyJoin "\n"
      ((sortedStrings standard_imports).map (fun imp => "import " ++ imp ++ ";"))
    ++ "\n\n" ++ pyJoin "\n" st.java_code

/-- The fallback text built by the entry point's exception handler. -/
def fallbackText (msg python_code : String) : String :=
  "// Transpilation error: " ++ msg ++ "\n// Original Python code:\n/*\n" ++
    python_code ++ "\n*/"

/-- `transpile_ftc_python_to_java`, parameterized by the external front end
(`ast.parse`), which either returns a module body or raises a syntax
error. -/
def transpile_ftc_python_to_java (parse : String → Except String PyBody)
    (python_code : String) : String :=
  match (do
      let tree ← parse python_code
      let st ← visitB tree initTranspiler
      pure (generate_java_code st) : Except String String) with
  | .ok java => java
  | .error e => fallbackText e python_code

/-! ### Observation functions over the emitted text -/

/-- Number of occurrences of a character in a string. -/
def charCount (c : Char) (s : String) : Nat :=
  (s.data.filter (fun d => d == c)).length

/-- Number of occurrences of a character over a list of lines. -/
def charCountL (c : Char) (l : List String) : Nat :=
  (l.map (charCount c)).sum

/-- Substring search over character lists (occurrences at any position). -/
def strHasL (pat : List Char) : List Char → Bool
  | [] => pat.isEmpty
  | c :: rest => pat.isPrefixOf (c :: rest) || strHasL pat rest

/-- Substring search over strings. -/
def strHas (pat s : String) : Bool := strHasL pat.data s.data

/-- Does this output line contain an `UNKNOWN` marker? All three inline
markers of the transpiler (`/* UNKNOWN EXPRESSION */`, `/* UNKNOWN CALL */`,
`/* UNKNOWN MODE */`) contain the word `UNKNOWN`, and no fixed output text
of the transpiler does. -/
def isMarkerLine (l : String) : Bool := strHas ("UNKNOWN") l

/-- Number of output lines carrying an inline marker. -/
def markerLineCount (code : List String) : Nat :=
  (code.filter isMarkerLine).length

/-- `true` when the string avoids the capital letter `K` — the character
that distinguishes the `UNKNOWN` markers from every fixed string the
transpiler can emit. -/
def noKStr (s : String) : Bool := !(s.data.any (fun c => c == 'K'))

/-- `noKStr` on a constant's `str()` rendering. -/
def PyConst.noK : PyConst → Bool
  | .pstr s => noKStr s
  | .onum r _ => noKStr r

/-! ### The marker-free supported fragment -/

/-- Does the first `set_mode` argument render to a recognized motor-mode
token? -/
def modeOk (a : PyExpr) : Bool :=
  match visit_expression a with
  | .ok r => (motor_modes.lookup (stripQuotes r)).isSome
  | .error _ => false

/-- The supported expression fragment: expressions whose translation
succeeds, produces no inline marker, and contains no capital `K` (so that
marker counting over the produced text is exact).  The cases mirror the
forms `visit_expression` renders without falling through to a marker. -/
def cleanE : PyExpr → Bool
  | .constE (.pstr s) => noKStr s
  | .constE (.onum r _) => noKStr r
  | .nameE id => noKStr id
  | .attr (.nameE v) a => noKStr v && noKStr a
  | .usub e => cleanE e
  | .binOp l _ r => cleanE l && cleanE r
  | .callE (.attr fval method) args =>
      cleanE fval &&
      (if method == "set_power" then
        (match args with | .cons a _ => cleanE a | .nil => false)
      else if method == "set_position" then
        (match args with | .cons a _ => cleanE a | .nil => false)
      else if method == "get_distance" then true
      else if method == "is_pressed" then true
      else if method == "get_current_position" then true
      else if method == "set_target_position" then
        (match args with | .cons a _ => cleanE a | .nil => false)
      else if method == "set_mode" then
        (match args with
         | .cons a _ => cleanE a && modeOk a
         | .nil => false)
      else false)
  | .callE (.nameE fid) args =>
      if fid == "telemetry_add" then
        (match args with
         | .cons k (.cons v _) => cleanE k && cleanE v
         | _ => false)
      else if fid == "sleep" then
        (match args with | .cons t _ => cleanE t | .nil => false)
      else false
  | _ => false

/-- The marker-exactness condition on a registering assignment: the
attribute, the config argument and the direction argument (when present)
are capital-`K`-free (vacuous for an unrecognized kind, whose assignment
is silently dropped). -/
def hwRegNoK (a fn : String) (args : PyArgs) : Bool :=
  match hardware_types.lookup fn with
  | some _ =>
      noKStr a && (get_string_arg args 0 (.pstr a)).noK &&
      (match get_string_arg? args 1 with
       | some d => PyConst.noK d
       | none => true)
  | none => true

mutual
/-- The supported statement fragment: statements whose emission succeeds
and emits only marker-free (capital-`K`-free) lines.  Nested class
definitions are excluded. -/
def cleanS : PyStmt → Bool
  | .assign [.attr (.nameE "self") a] (.callE (.nameE fn) args) =>
      hwRegNoK a fn args
  | .assign [.attr (.nameE "self") a] value => noKStr a && cleanE value
  | .assign [.nameE x] value => noKStr x && cleanE value
  | .assign _ _ => true
  | .exprStmt (.callE f args) => cleanE (.callE f args)
  | .exprStmt _ => true
  | .ifStmt t b e => cleanE t && cleanB b && cleanB e
  | .whileStmt t b => cleanE t && cleanB b
  | .passStmt => true
  | .functionDef n args b => noKStr n && args.all noKStr && cleanB b
  | .classDef _ _ _ => false
/-- `cleanS` over a statement list. -/
def cleanB : PyBody → Bool
  | .nil => true
  | .cons s rest => cleanS s && cleanB rest
end

/-! ### The brace-free input fragment -/

/-- `true` when the string avoids both brace characters. -/
def bfStr (s : String) : Bool :=
  !(s.data.any (fun c => c == lbrace)) && !(s.data.any (fun c => c == rbrace))

/-- `bfStr` on a constant's `str()` rendering. -/
def PyConst.bf : PyConst → Bool
  | .pstr s => bfStr s
  | .onum r _ => bfStr r

mutual
/-- Every identifier and literal inside the expression is brace-free (the
forms the translator renders as a fixed marker need no condition). -/
def bfE : PyExpr → Bool
  | .constE c => c.bf
  | .nameE id => bfStr id
  | .attr v a => bfE v && bfStr a
  | .usub e => bfE e
  | .unaryOther _ => true
  | .binOp l _ r => bfE l && bfE r
  | .compare _ _ _ => true
  | .callE f args => bfE f && bfArgs args
  | .otherExpr => true
/-- `bfE` over an argument list. -/
def bfArgs : PyArgs → Bool
  | .nil => true
  | .cons a rest => bfE a && bfArgs rest
end

mutual
/-- Every identifier and literal inside the statement is brace-free. -/
def bfS : PyStmt → Bool
  | .classDef name decorator_list body =>
      bfStr name && (decorator_list.all bfE) && bfB body
  | .functionDef name args body => bfStr name && args.all bfStr && bfB body
  | .assign targets value => targets.all bfE && bfE value
  | .exprStmt value => bfE value
  | .ifStmt t b e => bfE t && bfB b && bfB e
  | .whileStmt t b => bfE t && bfB b
  | .passStmt => true
/-- `bfS` over a statement list. -/
def bfB : PyBody → Bool
  | .nil => true
  | .cons s rest => bfS s && bfB rest
end

/-- The canonical state used to read off the lines a statement list emits
on its own at a given indentation level. -/
def emptyStateAt (i : Int) : TState := ⟨[], [], none, "", i, i⟩

/-- The lines a statement list emits on its own at indentation level `i`
(empty when its emission raises). -/
def bodyLines (i : Int) (b : PyBody) : List String :=
  match visitB b (emptyStateAt i) with
  | .ok s => s.java_code
  | .error _ => []

/-- The lines a single statement emits on its own at indentation level
`i`. -/
def stmtLines (i : Int) (stmt : PyStmt) : List String :=
  match visit stmt (emptyStateAt i) with
  | .ok s => s.java_code
  | .error _ => []

/-- Shape relation between the state before and the state after a
successful visit: the emitted lines extend the old ones, the indentation
level is restored, and the ghost minimum stays between
`min min_indent indent_level` and its old value. -/
def ShapeOK (s s' : TState) : Prop :=
  (∃ Δ, s'.java_code = s.java_code ++ Δ) ∧ s'.indent_level = s.indent_level ∧
  s'.min_indent ≤ s.min_indent ∧ min s.min_indent s.indent_level ≤ s'.min_indent

/-- Is this expression an `ast.Call` node? -/
def PyExpr.isCall : PyExpr → Bool
  | .callE _ _ => true
  | _ => false

/-- Assignment targets that `visit_Assign` matches no branch for: neither a
bare name nor a receiver (`self.`) attribute. -/
def targetUnhandled : PyExpr → Bool
  | .nameE _ => false
  | .attr (.nameE v) _ => !(v == "self")
  | _ => true

/-- Example unit: a class whose initializer declares one motor (used to
evaluate the emitted line order). -/
def exC2 : PyBody :=
  .cons (.classDef "TestBot" []
    (.cons (.functionDef "init_hardware" ["self"]
      (.cons (.assign [.attr (.nameE "self") "m"]
        (.callE (.nameE "motor")
          (.cons (.constE (.pstr "left")) (.cons (.constE (.pstr "forward")) .nil)))) .nil))
      .nil)) .nil

/-- Example routine body: a single telemetry statement (used to witness
the loop-method wrapper). -/
def exLoopBody : PyBody :=
  .cons (.exprStmt (.callE (.nameE "telemetry_add")
    (.cons (.constE (.pstr "A")) (.cons (.constE (.pstr "B")) .nil)))) .nil

/-- Example statement: an `if`/`elif` pair (`orelse` holding a single
nested `if`), used to evaluate the emitted chain shape. -/
def exElif : PyStmt :=
  .ifStmt (.nameE "a")
    (.cons (.assign [.nameE "x"] (.constE (.onum "1" true))) .nil)
    (.cons (.ifStmt (.nameE "b")
      (.cons (.assign [.nameE "y"] (.constE (.onum "2" true))) .nil) .nil) .nil)

/-- Is this decorator expression one of the two recognized OpMode
decorator calls? -/
def isOpModeDec : PyExpr → Bool
  | .callE (.nameE f) _ => f == "teleop" || f == "autonomous"
  | _ => false

/-- Example decorator arguments: a display name and a group. -/
def exTeleArgs : PyArgs :=
  .cons (.constE (.pstr "Test Robot")) (.cons (.constE (.pstr "Test Group")) .nil)

def bfComp (p : String × HardwareComponent) : Bool := bfStr p.1 && bfStr p.2.type

def bfInfo (i : OpModeInfo) : Bool := i.name.bf && i.group.bf

def bfState (s : TState) : Bool :=
  (match s.opmode_info with | some i => bfInfo i | none => true) &&
    s.hardware_components.all bfComp

/-- Net effect of an emission step on the brace counts: the left / right
brace totals grow by exactly `dl` / `dr`, and the registry and metadata
fields are untouched. -/
def Adds (s s' : TState) (dl dr : Nat) : Prop :=
  charCountL lbrace s'.java_code = charCountL lbrace s.java_code + dl ∧
  charCountL rbrace s'.java_code = charCountL rbrace s.java_code + dr ∧
  s'.hardware_components = s.hardware_components ∧
  s'.opmode_info = s.opmode_info

/-- Marker-count preservation across one state step. -/
def MEq (s s' : TState) : Prop :=
  markerLineCount s'.java_code = markerLineCount s.java_code

/-- The registering assignment statement shape `self.a = kind(args)`. -/
def hwAssign (a kind : String) (args : PyArgs) : PyStmt :=
  .assign [.attr (.nameE "self") a] (.callE (.nameE kind) args)

/-- The hardware lookup line body emitted by `visit_Assign` (line 252). -/
def lookupLine (a ty : String) (args : PyArgs) : String :=
  a ++ " = hardwareMap.get(" ++ ty ++ ".class, \"" ++
    (get_string_arg args 0 (.pstr a)).pyStr ++ "\");"

/-- The direction-set line body emitted by `visit_Assign` (line 259). -/
def directionLine (a : String) (d : PyConst) : String :=
  a ++ ".setDirection(" ++ motor_directions_get d ++ ");"

def exBrace : PyBody :=
  .cons (.classDef "B" []
    (.cons (.functionDef "m" ["self"]
      (.cons (.assign [.nameE "x"] (.constE (.pstr lb))) .nil)) .nil)) .nil

example : insertSorted "b" ["a"] = ["a", "b"] := by rfl

def exBal : PyBody :=
  .cons (.classDef "Bot"
    [.callE (.nameE "teleop")
      (.cons (.constE (.pstr "T")) (.cons (.constE (.pstr "G")) .nil))]
    (.cons (.functionDef "run" ["self"]
      (.cons (.ifStmt (.nameE "a")
        (.cons (.assign [.nameE "x"] (.constE (.onum "1" true))) .nil)
        (.cons (.assign [.nameE "y"] (.constE (.onum "2" true))) .nil)) .nil))
      .nil)) .nil

def exBalState : TState :=
  ⟨["@TeleOp(name=\"T\", group=\"G\")",
    "public class Bot extends LinearOpMode " ++ lb,
    "    @Override",
    "    public void runOpMode() " ++ lb,
    "        initHardware();",
    "        ",
    "        telemetry.addData(\"Status\", \"Initialized\");",
    "        telemetry.update();",
    "        ",
    "        waitForStart();",
    "        ",
    "        if (a) " ++ lb,
    "            double x = 1;",
    "        " ++ rb ++ " else " ++ lb,
    "            double y = 2;",
    "        " ++ rb,
    "    " ++ rb,
    rb],
   [], some ⟨.pstr "T", .pstr "G", .teleop⟩, "Bot", 0, 0⟩

/-- A unit whose initializer registers `self.m` twice, with different
hardware kinds. -/
def exRedecl : PyBody := .cons (.classDef "Bot" []
  (.cons (.functionDef "init_hardware" ["self"]
    (.cons (hwAssign "m" "motor" (.cons (.constE (.pstr "a")) .nil))
    (.cons (hwAssign "m" "servo" (.cons (.constE (.pstr "b")) .nil))
    .nil))) .nil)) .nil

/-- The argument list of the witness assignment `motor("left", "forward")`. -/
def exMotorArgs : PyArgs :=
  .cons (.constE (.pstr "left")) (.cons (.constE (.pstr "forward")) .nil)

/-- The state produced by visiting the witness class. -/
def exHwState : TState :=
  ⟨["    // Hardware components",
    "    private DcMotor m = null;",
    "    ",
    "public class Bot extends LinearOpMode " ++ lb,
    "    private void initHardware() " ++ lb,
    "        m = hardwareMap.get(DcMotor.class, \"left\");",
    "        m.setDirection(DcMotor.Direction.FORWARD);",
    "    " ++ rb,
    "    ",
    rb],
   [("m", ⟨"m", "DcMotor", .pstr "left", some (.pstr "forward")⟩)],
   none, "Bot", 0, 0⟩

/-- A unit whose only unsupported site is a statement-level call
(`foo()`), alongside one supported telemetry statement. -/
def exDropCall : PyBody := .cons (.classDef "Bot" []
  (.cons (.functionDef "run" ["self"]
    (.cons (.exprStmt (.callE (.nameE "foo") .nil))
    (.cons (.exprStmt (.callE (.nameE "telemetry_add")
      (.cons (.constE (.pstr "A")) (.cons (.constE (.pstr "B")) .nil)))) .nil)))
  .nil)) .nil

/-- The clean prefix of the C3 witness: one supported `sleep` call. -/
def exCleanPre : PyBody :=
  .cons (.exprStmt (.callE (.nameE "sleep")
    (.cons (.constE (.onum "100" true)) .nil))) .nil

/-! ## Helper lemmas -/

theorem add_line_code (st : TState) (x : String) :
    (add_line st x).java_code = st.java_code ++ [st.indent ++ x] := rfl

theorem add_line_fields (st : TState) (x : String) :
    (add_line st x).hardware_components = st.hardware_components ∧
    (add_line st x).opmode_info = st.opmode_info ∧
    (add_line st x).class_name = st.class_name ∧
    (add_line st x).indent_level = st.indent_level ∧
    (add_line st x).min_indent = min st.min_indent st.indent_level :=
  ⟨rfl, rfl, rfl, rfl, rfl⟩

theorem bindOk {α β : Type} {e : Except String α} {f : α → Except String β} {y : β}
    (h : (e >>= f) = .ok y) : ∃ a, e = .ok a ∧ f a = .ok y := by
  cases e with
  | error msg => simp only [Bind.bind, Except.bind] at h; exact Except.noConfusion h
  | ok a => exact ⟨a, rfl, by simpa only [Bind.bind, Except.bind] using h⟩

theorem pureOk {α : Type} {a b : α} (h : (pure a : Except String α) = .ok b) :
    a = b := by
  simpa only [pure, Except.pure, Except.ok.injEq] using h

theorem insertBeforeLast_cons (y : String) (l : List String) (x : String)
    (h : l ≠ []) : insertBeforeLast (y :: l) x = y :: insertBeforeLast l x := by
  cases l with
  | nil => exact absurd rfl h
  | cons z zs => rfl

theorem insertBeforeLast_append (a Δ : List String) (x : String) (h : Δ ≠ []) :
    insertBeforeLast (a ++ Δ) x = a ++ insertBeforeLast Δ x := by
  induction a with
  | nil => simp
  | cons y ys ih =>
      have hne : ys ++ Δ ≠ [] := by
        intro hc
        rcases List.append_eq_nil.mp hc with ⟨_, h2⟩
        exact h h2
      simp only [List.cons_append]
      rw [insertBeforeLast_cons y (ys ++ Δ) x hne, ih]

theorem insertBeforeLast_snoc (front : List String) (last x : String) :
    insertBeforeLast (front ++ [last]) x = front ++ [x, last] := by
  rw [insertBeforeLast_append front [last] x (by simp)]
  rfl

theorem foldl_add_line_shape (f : (String × HardwareComponent) → String)
    (l : List (String × HardwareComponent)) (st : TState) :
    l.foldl (fun s p => add_line s (f p)) st =
      ⟨st.java_code ++ l.map (fun p => st.indent ++ f p), st.hardware_components,
       st.opmode_info, st.class_name, st.indent_level,
       if l.isEmpty then st.min_indent else min st.min_indent st.indent_level⟩ := by
  induction l generalizing st with
  | nil => simp
  | cons p ps ih =>
      simp only [List.foldl_cons, ih (add_line st (f p)), List.isEmpty_cons]
      simp only [add_line, TState.indent]
      cases ps with
      | nil => simp
      | cons q qs => simp [min_assoc]

theorem foldl_insertLine_shape (f : (String × HardwareComponent) → String)
    (l : List (String × HardwareComponent)) (st : TState)
    (front : List String) (last : String) (h : st.java_code = front ++ [last]) :
    l.foldl (fun s p => insertLine s (f p)) st =
      ⟨front ++ l.map (fun p => st.indent ++ f p) ++ [last],
       st.hardware_components, st.opmode_info, st.class_name, st.indent_level,
       st.min_indent⟩ := by
  induction l generalizing st front with
  | nil => cases st; simp_all
  | cons p ps ih =>
      simp only [List.foldl_cons]
      have hstep : insertLine st (f p) =
          ⟨(front ++ [st.indent ++ f p]) ++ [last], st.hardware_components,
           st.opmode_info, st.class_name, st.indent_level, st.min_indent⟩ := by
        simp only [insertLine, h, insertBeforeLast_snoc]
        simp
      rw [hstep, ih _ (front ++ [st.indent ++ f p]) rfl]
      simp [insertLine, TState.indent]


theorem annBlock_shape (st : TState) :
    annBlock st =
      ⟨st.java_code ++ omLines st.indent st.opmode_info, st.hardware_components,
       st.opmode_info, st.class_name, st.indent_level,
       if st.opmode_info.isSome then min st.min_indent st.indent_level
       else st.min_indent⟩ := by
  cases st with
  | mk jc hc om cn il mi =>
      cases om with
      | none => simp [annBlock, omLines]
      | some info => simp [annBlock, omLines, add_line, TState.indent]

theorem hwInsertBlock_shape (st : TState) (front : List String) (last : String)
    (h : st.java_code = front ++ [last]) :
    hwInsertBlock st =
      ⟨front ++ hwLines st.indent st.hardware_components ++ [last],
       st.hardware_components, st.opmode_info, st.class_name, st.indent_level,
       st.min_indent⟩ := by
  cases st with
  | mk jc hc om cn il mi =>
      simp only [TState.java_code] at h
      subst h
      cases hcs : hc.isEmpty with
      | true =>
          have hnil : hc = [] := by
            cases hc with
            | nil => rfl
            | cons p ps => simp at hcs
          subst hnil
          simp [hwInsertBlock, hwLines]
      | false =>
          simp only [hwInsertBlock, hcs, Bool.false_eq_true, if_false]
          have h1 : insertLine ⟨front ++ [last], hc, om, cn, il, mi⟩
              ("// Hardware components") =
              ⟨(front ++ [indentStr il ++ "// Hardware components"]) ++ [last],
               hc, om, cn, il, mi⟩ := by
            simp [insertLine, TState.indent, insertBeforeLast_snoc]
          rw [h1, foldl_insertLine_shape hwDecl hc _
              (front ++ [indentStr il ++ "// Hardware components"]) last rfl]
          simp only [TState.indent, TState.java_code, TState.indent_level]
          have h2 : insertLine
              ⟨(front ++ [indentStr il ++ "// Hardware components"]) ++
                 hc.map (fun p => indentStr il ++ hwDecl p) ++ [last],
               hc, om, cn, il, mi⟩ ("") =
              ⟨((front ++ [indentStr il ++ "// Hardware components"]) ++
                 hc.map (fun p => indentStr il ++ hwDecl p) ++ [indentStr il ++ ""]) ++ [last],
               hc, om, cn, il, mi⟩ := by
            rw [insertLine]
            simp only [TState.indent, TState.indent_level, TState.java_code]
            rw [insertBeforeLast_snoc]
            simp [List.append_assoc]
          rw [h2]
          simp [hwLines, hcs, List.append_assoc]

theorem classPrelude_shape (n : String) (d : List PyExpr) (b : PyBody) (s : TState)
    (h : s.hardware_components = []) :
    classPrelude n d b s =
      ⟨s.java_code ++ omLines s.indent (process_decorators n d s.opmode_info) ++
         hwLines (indentStr (s.indent_level + 1)) (classScan b []) ++
         [s.indent ++ headerLine n],
       classScan b [], process_decorators n d s.opmode_info, n,
       s.indent_level + 1, min s.min_indent s.indent_level⟩ := by
  obtain ⟨jc, hc, om, cn, il, mi⟩ := s
  simp only [TState.hardware_components] at h
  subst h
  simp only [classPrelude, setClassName, setOpMode, TState.opmode_info]
  rw [annBlock_shape]
  simp only [TState.java_code, TState.indent, TState.indent_level,
             TState.opmode_info, TState.hardware_components, TState.class_name,
             TState.min_indent, add_line, incIndent]
  have hmin1 : min (if (process_decorators n d om).isSome then min mi il else mi) il
      = min mi il := by
    split
    · rw [min_assoc, min_self]
    · rfl
  have hmin2 : min (min mi il) (il + 1) = min mi il := by omega
  simp only [hmin1, hmin2]
  have happ : hwAppendBlock
      ⟨jc ++ omLines (indentStr il) (process_decorators n d om) ++
         [indentStr il ++ headerLine n],
       [], process_decorators n d om, n, il + 1, min mi il⟩ =
      ⟨jc ++ omLines (indentStr il) (process_decorators n d om) ++
         [indentStr il ++ headerLine n],
       [], process_decorators n d om, n, il + 1, min mi il⟩ := by
    simp [hwAppendBlock]
  rw [happ]
  simp only [setComponents, TState.hardware_components]
  rw [hwInsertBlock_shape _
       (jc ++ omLines (indentStr il) (process_decorators n d om))
       (indentStr il ++ headerLine n) rfl]
  simp [TState.indent, List.append_assoc]

theorem hwAppendBlock_shape (st : TState) :
    hwAppendBlock st =
      ⟨st.java_code ++ hwLines st.indent st.hardware_components,
       st.hardware_components, st.opmode_info, st.class_name, st.indent_level,
       if st.hardware_components.isEmpty then st.min_indent
       else min st.min_indent st.indent_level⟩ := by
  cases st with
  | mk jc hc om cn il mi =>
      cases hcs : hc.isEmpty with
      | true =>
          have hnil : hc = [] := by
            cases hc with
            | nil => rfl
            | cons p ps => simp at hcs
          subst hnil
          simp [hwAppendBlock, hwLines]
      | false =>
          simp only [hwAppendBlock, hcs, Bool.false_eq_true, if_false]
          rw [foldl_add_line_shape]
          simp only [add_line, TState.indent, TState.java_code, TState.indent_level,
                     TState.min_indent, TState.hardware_components, TState.opmode_info,
                     TState.class_name, hcs]
          simp [hwLines, hcs, List.append_assoc, min_assoc]


theorem shapeOK_refl (s : TState) : ShapeOK s s :=
  ⟨⟨[], by simp⟩, rfl, le_refl _, min_le_left _ _⟩

theorem shapeOK_trans {a b c : TState} (h1 : ShapeOK a b) (h2 : ShapeOK b c) :
    ShapeOK a c := by
  obtain ⟨⟨Δ1, hΔ1⟩, hl1, hu1, hb1⟩ := h1
  obtain ⟨⟨Δ2, hΔ2⟩, hl2, hu2, hb2⟩ := h2
  refine ⟨⟨Δ1 ++ Δ2, by rw [hΔ2, hΔ1, List.append_assoc]⟩, by omega, by omega, ?_⟩
  rw [hl1] at hb2
  omega

theorem shapeOK_add_line (s : TState) (x : String) : ShapeOK s (add_line s x) :=
  ⟨⟨[s.indent ++ x], rfl⟩, rfl, min_le_left _ _, le_refl _⟩

theorem shapeOK_add_line_right {a b : TState} (h : ShapeOK a b) (x : String) :
    ShapeOK a (add_line b x) :=
  shapeOK_trans h (shapeOK_add_line b x)

theorem shape_inc_dec {s t : TState} (h : ShapeOK (incIndent s) t) :
    ShapeOK s (decIndent t) := by
  obtain ⟨⟨Δ, hΔ⟩, hlvl, hub, hlb⟩ := h
  simp only [incIndent, TState.java_code, TState.indent_level,
             TState.min_indent] at hΔ hlvl hub hlb
  refine ⟨⟨Δ, by simpa [decIndent] using hΔ⟩, ?_, ?_, ?_⟩ <;>
    simp only [decIndent, TState.indent_level, TState.min_indent] <;> omega

theorem visit_Assign_shape {targets : List PyExpr} {value : PyExpr} {st s' : TState}
    (h : visit_Assign targets value st = .ok s') : ShapeOK st s' := by
  simp only [visit_Assign] at h
  repeat split at h
  all_goals first
    | (rcases bindOk h with ⟨v, hv, h2⟩
       have h3 := pureOk h2
       subst h3
       exact shapeOK_add_line _ _)
    | (have h3 := pureOk h
       subst h3
       first
         | exact shapeOK_refl _
         | exact shapeOK_add_line _ _
         | exact shapeOK_add_line_right (shapeOK_add_line _ _) _)

theorem visit_Expr_shape {value : PyExpr} {st s' : TState}
    (h : visit_Expr value st = .ok s') : ShapeOK st s' := by
  simp only [visit_Expr] at h
  split at h
  · rcases bindOk h with ⟨v, hv, h2⟩
    split at h2 <;>
      (have h3 := pureOk h2
       subst h3
       first
         | exact shapeOK_refl _
         | exact shapeOK_add_line _ _)
  · have h3 := pureOk h
    subst h3
    exact shapeOK_refl _

theorem dropLast_append_left (a b : List String) (h : b ≠ []) :
    (a ++ b).dropLast = a ++ b.dropLast := by
  calc (a ++ b).dropLast
      = ((a ++ b.dropLast) ++ [b.getLast h]).dropLast := by
        rw [List.append_assoc, List.dropLast_append_getLast]
    _ = a ++ b.dropLast := by rw [List.dropLast_concat]

theorem classPrelude_mono (n : String) (d : List PyExpr) (b : PyBody) (s : TState) :
    ∃ Δ, classPrelude n d b s =
      ⟨s.java_code ++ Δ, classScan b s.hardware_components,
       process_decorators n d s.opmode_info, n, s.indent_level + 1,
       min s.min_indent s.indent_level⟩ := by
  obtain ⟨jc, hc, om, cn, il, mi⟩ := s
  simp only [classPrelude, setClassName, setOpMode, TState.opmode_info,
             TState.hardware_components, TState.java_code, TState.indent_level,
             TState.min_indent]
  rw [annBlock_shape]
  simp only [add_line, incIndent, TState.java_code, TState.indent, TState.indent_level,
             TState.opmode_info, TState.hardware_components, TState.class_name,
             TState.min_indent]
  have hmin1 : min (if (process_decorators n d om).isSome then min mi il else mi) il
      = min mi il := by split <;> omega
  have hmin2 : min (min mi il) (il + 1) = min mi il := by omega
  rw [hmin1, hmin2]
  rw [hwAppendBlock_shape]
  simp only [setComponents, TState.java_code, TState.indent, TState.indent_level,
             TState.opmode_info, TState.hardware_components, TState.class_name,
             TState.min_indent]
  have hmin3 : (if hc.isEmpty then min mi il else min (min mi il) (il + 1)) = min mi il := by
    split <;> omega
  rw [hmin3]
  have hrest : (omLines (indentStr il) (process_decorators n d om) ++
      [indentStr il ++ headerLine n]) ++ hwLines (indentStr (il + 1)) hc ≠ [] := by
    simp
  have hC : jc ++ omLines (indentStr il) (process_decorators n d om) ++
      [indentStr il ++ headerLine n] ++ hwLines (indentStr (il + 1)) hc =
      jc ++ ((omLines (indentStr il) (process_decorators n d om) ++
        [indentStr il ++ headerLine n]) ++ hwLines (indentStr (il + 1)) hc) := by
    simp [List.append_assoc]
  set rest := (omLines (indentStr il) (process_decorators n d om) ++
      [indentStr il ++ headerLine n]) ++ hwLines (indentStr (il + 1)) hc with hrestdef
  have hne2 : jc ++ rest ≠ [] := by
    simp only [ne_eq, List.append_eq_nil]
    intro hcon
    exact hrest hcon.2
  refine ⟨rest.dropLast ++
      hwLines (indentStr (il + 1)) (classScan b hc) ++ [(jc ++ rest).getLast hne2], ?_⟩
  rw [hC, hwInsertBlock_shape _ ((jc ++ rest).dropLast) ((jc ++ rest).getLast hne2)
      (List.dropLast_append_getLast hne2).symm]
  simp only [TState.indent, TState.indent_level, TState.hardware_components,
             TState.opmode_info, TState.class_name, TState.min_indent, TState.java_code]
  rw [dropLast_append_left jc rest hrest]
  simp [List.append_assoc]


theorem shapeOK_through {s X t : TState}
    (hXc : ∃ Δ, X.java_code = s.java_code ++ Δ)
    (hXl : X.indent_level = s.indent_level + 1)
    (hXmu : X.min_indent ≤ s.min_indent)
    (hXml : min s.min_indent s.indent_level ≤ X.min_indent)
    (ht : ShapeOK X t) : ShapeOK s (decIndent t) := by
  obtain ⟨Δ0, hΔ0⟩ := hXc
  obtain ⟨⟨Δ, hΔ⟩, hlvl, hub, hlb⟩ := ht
  refine ⟨⟨Δ0 ++ Δ, ?_⟩, ?_, ?_, ?_⟩
  · simp only [decIndent, TState.java_code]
    rw [hΔ, hΔ0, List.append_assoc]
  · simp only [decIndent, TState.indent_level]; omega
  · simp only [decIndent, TState.min_indent]; omega
  · simp only [decIndent, TState.min_indent]; omega

mutual
theorem visit_shape (stmt : PyStmt) (s s' : TState) (h : visit stmt s = .ok s') :
    ShapeOK s s' := by
  cases stmt with
  | classDef n d b =>
      simp only [visit] at h
      rcases bindOk h with ⟨t, hb, h2⟩
      have h3 := pureOk h2
      subst h3
      obtain ⟨Δ, hP⟩ := classPrelude_mono n d b s
      rw [hP] at hb
      have hsh := visitB_shape b _ t hb
      refine shapeOK_add_line_right (shapeOK_through ?_ ?_ ?_ ?_ hsh) _
      · exact ⟨Δ, rfl⟩
      · rfl
      · simp only [TState.min_indent]; omega
      · simp only [TState.min_indent]; omega
  | functionDef name args b =>
      simp only [visit] at h
      split at h
      · rcases bindOk h with ⟨t, hb, h2⟩
        have h3 := pureOk h2
        subst h3
        have hsh := visitB_shape b _ t hb
        refine shapeOK_add_line_right (shapeOK_add_line_right
          (shapeOK_through ?_ ?_ ?_ ?_ hsh) _) _ <;>
          simp [add_line, incIndent] <;> omega
      · split at h
        · rcases bindOk h with ⟨t, hb, h2⟩
          have h3 := pureOk h2
          subst h3
          have hsh := visitB_shape b _ t hb
          refine shapeOK_add_line_right (shapeOK_through ?_ ?_ ?_ ?_ hsh) _ <;>
            simp [add_line, incIndent] <;> omega
        · split at h
          · rcases bindOk h with ⟨t, hb, h2⟩
            have h3 := pureOk h2
            subst h3
            have hsh := shapeOK_add_line_right (visitB_shape b _ t hb) ("telemetry.update();")
            refine shapeOK_add_line_right (shapeOK_through ?_ ?_ ?_ ?_ hsh) _ <;>
              simp [add_line, incIndent] <;> omega
          · rcases bindOk h with ⟨t, hb, h2⟩
            have h3 := pureOk h2
            subst h3
            have hsh := visitB_shape b _ t hb
            refine shapeOK_add_line_right (shapeOK_add_line_right
              (shapeOK_through ?_ ?_ ?_ ?_ hsh) _) _ <;>
              simp [add_line, incIndent] <;> omega
  | assign targets value =>
      simp only [visit] at h
      exact visit_Assign_shape h
  | exprStmt value =>
      simp only [visit] at h
      exact visit_Expr_shape h
  | ifStmt test b e =>
      simp only [visit] at h
      rcases bindOk h with ⟨c, hc, h2⟩
      rcases bindOk h2 with ⟨t, hb, h3⟩
      have hsh := visitB_shape b _ t hb
      split at h3
      · have h4 := pureOk h3
        subst h4
        refine shapeOK_add_line_right (shapeOK_through ?_ ?_ ?_ ?_ hsh) _ <;>
          simp [add_line, incIndent] <;> omega
      · rcases bindOk h3 with ⟨u, hu, h5⟩
        have h6 := pureOk h5
        subst h6
        have hsh2 := visitB_shape e _ u hu
        obtain ⟨⟨Δt, hΔt⟩, hlt, hut, hbt⟩ := hsh
        simp only [add_line, incIndent, TState.java_code, TState.indent_level,
                   TState.min_indent] at hΔt hlt hut hbt
        refine shapeOK_add_line_right (shapeOK_through ?_ ?_ ?_ ?_ hsh2) _
        · refine ⟨[s.indent ++ ("if (" ++ c ++ ") " ++ lb)] ++ Δt ++
            [(decIndent t).indent ++ (rb ++ " else " ++ lb)], ?_⟩
          simp only [incIndent, add_line, decIndent, TState.java_code]
          rw [hΔt]
          simp [List.append_assoc]
        · simp only [incIndent, add_line, decIndent, TState.indent_level]; omega
        · simp only [incIndent, add_line, decIndent, TState.min_indent]; omega
        · simp only [incIndent, add_line, decIndent, TState.min_indent]; omega
  | whileStmt test b =>
      simp only [visit] at h
      rcases bindOk h with ⟨c, hc, h2⟩
      rcases bindOk h2 with ⟨t, hb, h3⟩
      have h4 := pureOk h3
      subst h4
      have hsh := visitB_shape b _ t hb
      refine shapeOK_add_line_right (shapeOK_through ?_ ?_ ?_ ?_ hsh) _ <;>
        simp [add_line, incIndent] <;> omega
  | passStmt =>
      simp only [visit] at h
      have h2 := pureOk h
      subst h2
      exact shapeOK_refl _

theorem visitB_shape (b : PyBody) (s s' : TState) (h : visitB b s = .ok s') :
    ShapeOK s s' := by
  cases b with
  | nil =>
      simp only [visitB] at h
      have h2 := pureOk h
      subst h2
      exact shapeOK_refl _
  | cons st rest =>
      simp only [visitB] at h
      rcases bindOk h with ⟨t, h1, h2⟩
      exact shapeOK_trans (visit_shape st s t h1) (visitB_shape rest t s' h2)
end

theorem visitB_append (a b : PyBody) (s : TState) :
    visitB (a.append b) s = (visitB a s) >>= visitB b := by
  cases a with
  | nil => simp [PyBody.append, visitB, Bind.bind, Except.bind, pure, Except.pure]
  | cons st rest =>
      simp only [PyBody.append, visitB]
      cases hv : visit st s with
      | error msg => simp [Bind.bind, Except.bind, hv]
      | ok t => simp [Bind.bind, Except.bind, hv, visitB_append rest b t]

/-! ## Claim theorems -/

/-- C1: for every front end outcome and every input string, the public
entry point returns text and never raises: either the pipeline succeeded
and the output is the generated Java code, or some internal stage raised
with message `msg` and the output is exactly the comment-delimited block
holding the literal error message followed by the original input
verbatim. -/
theorem transpile_total_or_fallback (parse : String → Except String PyBody)
    (code : String) :
    (∃ tree st, parse code = .ok tree ∧ visitB tree initTranspiler = .ok st ∧
       transpile_ftc_python_to_java parse code = generate_java_code st) ∨
    (∃ msg, transpile_ftc_python_to_java parse code =
        "// Transpilation error: " ++ msg ++ "\n// Original Python code:\n/*\n" ++
          code ++ "\n*/" ∧
      (parse code = .error msg ∨
       ∃ tree, parse code = .ok tree ∧ visitB tree initTranspiler = .error msg)) := by
  unfold transpile_ftc_python_to_java fallbackText
  cases hp : parse code with
  | error msg =>
      right
      exact ⟨msg, by simp [hp, Bind.bind, Except.bind], Or.inl rfl⟩
  | ok tree =>
      cases hv : visitB tree initTranspiler with
      | error msg =>
          right
          exact ⟨msg, by simp [hp, hv, Bind.bind, Except.bind], Or.inr ⟨tree, rfl, hv⟩⟩
      | ok st =>
          left
          exact ⟨tree, st, rfl, hv, by simp [hp, hv, Bind.bind, Except.bind, pure, Except.pure]⟩

/-- C2: evaluating the visitor on a unit whose initializer declares one
motor shows the emitted line order: the hardware declaration block
(inserted with `java_code.insert(-1, ...)`) lands BEFORE the
`public class ... extends LinearOpMode` header line, not after it —
`insert(-1, x)` inserts before the list's last element, which at that
moment is the just-emitted class header. -/
theorem hardware_decls_precede_header_eval :
    (visitB exC2 initTranspiler).map TState.java_code = .ok
      [ "    // Hardware components",
        "    private DcMotor m = null;",
        "    ",
        "public class TestBot extends LinearOpMode " ++ lb,
        "    private void initHardware() " ++ lb,
        "        m = hardwareMap.get(DcMotor.class, \"left\");",
        "        m.setDirection(DcMotor.Direction.FORWARD);",
        "    " ++ rb,
        "    ",
        rb ] := by rfl

/-- C4: a comparison written in the surface syntax reaches the translator
as an `ast.Compare` node and falls through to the unknown-expression
marker, even though `convert_binary_op` maps every comparison operator;
arithmetic `ast.BinOp` nodes translate to `left OP right`, and an operator
missing from the table (for example `%`) renders as the `?`
placeholder. -/
theorem compare_yields_marker_eval :
    visit_expression (.compare (.nameE "count") .lt (.constE (.onum "10" true)))
        = .ok ("/* UNKNOWN EXPRESSION */") ∧
    convert_binary_op .lt = "<" ∧
    visit_expression (.binOp (.nameE "a") .add (.nameE "b")) = .ok ("a + b") ∧
    visit_expression (.binOp (.nameE "a") .modOp (.nameE "b")) = .ok ("a ? b") :=
  ⟨rfl, rfl, rfl, rfl⟩

/-- C10: statements outside the handled shapes emit nothing at all: an
expression statement whose value is not a call, a statement-level call
whose translation starts with a marker comment, an assignment with several
targets, and an assignment to a target that is neither a bare name nor a
receiver attribute all leave the state untouched. -/
theorem unhandled_statements_emit_nothing :
    (∀ (st : TState) (v : PyExpr), v.isCall = false →
       visit (.exprStmt v) st = .ok st) ∧
    (∀ (st : TState) (f : PyExpr) (args : PyArgs) (r : String),
       visit_call_expression f args = .ok r → pyStartsWith r ("/*") = true →
       visit (.exprStmt (.callE f args)) st = .ok st) ∧
    (∀ (st : TState) (t1 t2 : PyExpr) (ts : List PyExpr) (v : PyExpr),
       visit (.assign (t1 :: t2 :: ts) v) st = .ok st) ∧
    (∀ (st : TState) (t v : PyExpr), targetUnhandled t = true →
       visit (.assign [t] v) st = .ok st) := by
  refine ⟨?_, ?_, ?_, ?_⟩
  · intro st v hv
    cases v <;> simp_all [visit, visit_Expr, PyExpr.isCall, pure, Except.pure]
  · intro st f args r hr hpre
    simp only [visit, visit_Expr, visit_call_expression] at *
    rw [hr]
    simp [Bind.bind, Except.bind, hpre, pure, Except.pure]
  · intro st t1 t2 ts v
    simp [visit, visit_Assign, pure, Except.pure]
  · intro st t v ht
    simp only [visit, visit_Assign]
    split
    · rename_i a heq
      simp only [List.cons.injEq, and_true] at heq
      rw [heq] at ht
      simp [targetUnhandled] at ht
    · rename_i var heq
      simp only [List.cons.injEq, and_true] at heq
      rw [heq] at ht
      simp [targetUnhandled] at ht
    · rfl

/-- C10 witness: concrete instances of each unhandled shape — a docstring
statement, a statement-level unknown call, a two-target assignment, and an
assignment to a non-receiver attribute. -/
theorem unhandled_statements_emit_nothing_witness :
    visit (.exprStmt (.constE (.pstr "docstring"))) initTranspiler = .ok initTranspiler ∧
    visit (.exprStmt (.callE (.nameE "foo") .nil)) initTranspiler = .ok initTranspiler ∧
    visit (.assign [.nameE "x", .nameE "y"] (.constE (.onum "1" true))) initTranspiler
      = .ok initTranspiler ∧
    visit (.assign [.attr (.nameE "robot") "x"] (.constE (.onum "1" true))) initTranspiler
      = .ok initTranspiler :=
  ⟨unhandled_statements_emit_nothing.1 initTranspiler _ rfl,
   unhandled_statements_emit_nothing.2.1 initTranspiler _ _ ("/* UNKNOWN CALL */") rfl rfl,
   unhandled_statements_emit_nothing.2.2.1 initTranspiler _ _ [] _,
   unhandled_statements_emit_nothing.2.2.2 initTranspiler _ _ rfl⟩

/-- C7: a routine literally named `loop` emits, in order: the
`while (opModeIsActive())` header at the current level, the translated
body lines, a `telemetry.update();` line one level deeper (inside the
loop), and the closing brace back at the current level. -/
theorem loop_method_wraps_body (args : List String) (body : PyBody) (s s' : TState)
    (h : visit (.functionDef "loop" args body) s = .ok s') :
    ∃ t Δ,
      visitB body (incIndent (add_line s ("while (opModeIsActive()) " ++ lb))) = .ok t ∧
      t.java_code = s.java_code ++ [s.indent ++ ("while (opModeIsActive()) " ++ lb)] ++ Δ ∧
      s'.java_code = s.java_code ++ [s.indent ++ ("while (opModeIsActive()) " ++ lb)] ++ Δ ++
        [indentStr (s.indent_level + 1) ++ "telemetry.update();", s.indent ++ rb] := by
  simp only [visit] at h
  rw [if_neg (by decide), if_neg (by decide), if_pos (by decide)] at h
  rcases bindOk h with ⟨t, hb, h2⟩
  have h3 := pureOk h2
  subst h3
  obtain ⟨⟨Δ, hΔ⟩, hlvl, _, _⟩ := visitB_shape body _ t hb
  simp only [incIndent, add_line, TState.java_code, TState.indent_level] at hΔ hlvl
  refine ⟨t, Δ, hb, by simp [hΔ, List.append_assoc], ?_⟩
  simp only [add_line, decIndent, TState.java_code, TState.indent, TState.indent_level]
  rw [hΔ, hlvl]
  have he : s.indent_level + 1 - 1 = s.indent_level := by omega
  rw [he]
  simp [List.append_assoc, TState.indent]

/-- C7 witness: the loop wrapper evaluated on a concrete one-statement
body. -/
theorem loop_method_wraps_body_witness :
    ∃ t Δ,
      visitB exLoopBody (incIndent (add_line initTranspiler
        ("while (opModeIsActive()) " ++ lb))) = .ok t ∧
      t.java_code = initTranspiler.java_code ++
        [initTranspiler.indent ++ ("while (opModeIsActive()) " ++ lb)] ++ Δ ∧
      (⟨["while (opModeIsActive()) " ++ lb,
         "    telemetry.addData(\"A\", \"B\");",
         "    telemetry.update();", rb], [], none, "", 0, 0⟩ : TState).java_code =
        initTranspiler.java_code ++
        [initTranspiler.indent ++ ("while (opModeIsActive()) " ++ lb)] ++ Δ ++
        [indentStr (initTranspiler.indent_level + 1) ++ "telemetry.update();",
         initTranspiler.indent ++ rb] :=
  loop_method_wraps_body ["self"] exLoopBody initTranspiler _ (by rfl)


/-- C8: the `elif` chain of a concrete two-branch conditional renders as a
nested block — a bare `} else {` line followed by a deeper-indented `if`
line and an extra closing brace — and no output line carries the fused
`} else if` form the claim (and the repository's tests) describe. -/
theorem elif_no_else_if_eval :
    (visit exElif initTranspiler).map TState.java_code = .ok
      [ "if (a) " ++ lb,
        "    double x = 1;",
        rb ++ " else " ++ lb,
        "    if (b) " ++ lb,
        "        double y = 2;",
        "    " ++ rb,
        rb ] ∧
    (visit exElif initTranspiler).map
      (fun st => st.java_code.all (fun l => !(strHas (rb ++ " else if") l))) = .ok true :=
  ⟨rfl, rfl⟩


theorem visit_if_first_line (t2 : PyExpr) (b2 e2 : PyBody) (X u : TState)
    (h : visit (.ifStmt t2 b2 e2) X = .ok u) :
    ∃ c2 Δ, visit_expression t2 = .ok c2 ∧
      u.java_code = X.java_code ++ [X.indent ++ ("if (" ++ c2 ++ ") " ++ lb)] ++ Δ := by
  simp only [visit] at h
  rcases bindOk h with ⟨c2, hc2, h2⟩
  rcases bindOk h2 with ⟨t, hb, h3⟩
  obtain ⟨⟨Δb, hΔb⟩, hlt, _, _⟩ := visitB_shape b2 _ t hb
  simp only [incIndent, add_line, TState.java_code] at hΔb
  split at h3
  · have h4 := pureOk h3
    subst h4
    exact ⟨c2, Δb ++ [(decIndent t).indent ++ rb], hc2,
      by simp [add_line, decIndent, TState.indent, hΔb, List.append_assoc]⟩
  · rcases bindOk h3 with ⟨u2, hu2, h5⟩
    have h6 := pureOk h5
    subst h6
    obtain ⟨⟨Δe, hΔe⟩, _, _, _⟩ := visitB_shape e2 _ u2 hu2
    simp only [incIndent, add_line, decIndent, TState.java_code] at hΔe
    refine ⟨c2, Δb ++ [(decIndent t).indent ++ (rb ++ " else " ++ lb)] ++ Δe ++
      [(decIndent u2).indent ++ rb], hc2, ?_⟩
    simp only [add_line, decIndent, TState.java_code, TState.indent, TState.indent_level]
    rw [hΔe, hΔb]
    simp [List.append_assoc, decIndent, TState.indent, TState.indent_level]

theorem elif_renders_nested_else (test t2 : PyExpr) (b b2 e2 : PyBody) (s s' : TState)
    (h : visit (.ifStmt test b (.cons (.ifStmt t2 b2 e2) .nil)) s = .ok s') :
    ∃ c c2 Δ1 Δ2,
      visit_expression test = .ok c ∧ visit_expression t2 = .ok c2 ∧
      s'.java_code = s.java_code ++ [s.indent ++ ("if (" ++ c ++ ") " ++ lb)] ++ Δ1 ++
        [s.indent ++ (rb ++ " else " ++ lb)] ++
        [indentStr (s.indent_level + 1) ++ ("if (" ++ c2 ++ ") " ++ lb)] ++ Δ2 ++
        [s.indent ++ rb] := by
  simp only [visit] at h
  rcases bindOk h with ⟨c, hc, h2⟩
  rcases bindOk h2 with ⟨t, hb, h3⟩
  rw [if_neg (by simp [PyBody.isNil])] at h3
  rcases bindOk h3 with ⟨u, hu, h4⟩
  have h5 := pureOk h4
  subst h5
  obtain ⟨⟨Δ1, hΔ1⟩, hlt, _, _⟩ := visitB_shape b _ t hb
  simp only [incIndent, add_line, TState.java_code, TState.indent_level] at hΔ1 hlt
  simp only [visitB] at hu
  rcases bindOk hu with ⟨u1, hu1, hu2⟩
  have hu3 : u1 = u := by
    first
      | exact pureOk hu2
      | (simp only [visitB] at hu2; exact pureOk hu2)
  subst hu3
  obtain ⟨hinlvl1, hinlvl2⟩ := And.intro (visit_shape _ _ _ hu1).2.1 True.intro
  obtain ⟨c2, Δ2, hc2, hcode⟩ := visit_if_first_line t2 b2 e2 _ _ hu1
  refine ⟨c, c2, Δ1, Δ2, hc, hc2, ?_⟩
  simp only [add_line, decIndent, incIndent, TState.java_code, TState.indent,
             TState.indent_level] at hcode hinlvl1 ⊢
  rw [hlt] at hinlvl1 hcode
  rw [hcode, hΔ1]
  have he : s.indent_level + 1 - 1 = s.indent_level := by omega
  have he3 : u1.indent_level - 1 = s.indent_level := by omega
  rw [he3]
  simp only [he]
  simp [List.append_assoc, TState.indent]

/-- C8 witness: the nested-else rendering instantiated on the concrete
`if a: x = 1 elif b: y = 2` statement. -/
theorem elif_renders_nested_else_witness :
    ∃ c c2 Δ1 Δ2,
      visit_expression (.nameE "a") = .ok c ∧ visit_expression (.nameE "b") = .ok c2 ∧
      (⟨["if (a) " ++ lb, "    double x = 1;", rb ++ " else " ++ lb,
         "    if (b) " ++ lb, "        double y = 2;", "    " ++ rb, rb],
        [], none, "", 0, 0⟩ : TState).java_code =
        initTranspiler.java_code ++
        [initTranspiler.indent ++ ("if (" ++ c ++ ") " ++ lb)] ++ Δ1 ++
        [initTranspiler.indent ++ (rb ++ " else " ++ lb)] ++
        [indentStr (initTranspiler.indent_level + 1) ++ ("if (" ++ c2 ++ ") " ++ lb)] ++
        Δ2 ++ [initTranspiler.indent ++ rb] :=
  elif_renders_nested_else (.nameE "a") (.nameE "b")
    (.cons (.assign [.nameE "x"] (.constE (.onum "1" true))) .nil)
    (.cons (.assign [.nameE "y"] (.constE (.onum "2" true))) .nil) .nil
    initTranspiler _ (by rfl)


theorem process_decorators_append (cname : String) (l1 l2 : List PyExpr)
    (acc : Option OpModeInfo) :
    process_decorators cname (l1 ++ l2) acc =
      process_decorators cname l2 (process_decorators cname l1 acc) := by
  induction l1 generalizing acc with
  | nil => rfl
  | cons d rest ih =>
      cases d with
      | callE f args =>
          cases f with
          | nameE fid =>
              simp only [List.cons_append, process_decorators]
              by_cases h1 : fid == "teleop"
              · simp [h1, ih]
              · by_cases h2 : fid == "autonomous"
                · simp [h1, h2, ih]
                · simp [h1, h2, ih]
          | _ => simp only [List.cons_append, process_decorators]; exact ih _
      | _ => simp only [List.cons_append, process_decorators]; exact ih _

theorem process_decorators_skip (cname : String) (l : List PyExpr)
    (acc : Option OpModeInfo) (h : l.all (fun dd => !(isOpModeDec dd)) = true) :
    process_decorators cname l acc = acc := by
  induction l with
  | nil => rfl
  | cons d rest ih =>
      simp only [List.all_cons, Bool.and_eq_true] at h
      cases d with
      | callE f args =>
          cases f with
          | nameE fid =>
              simp only [isOpModeDec, Bool.not_eq_true', Bool.or_eq_false_iff] at h
              simp only [process_decorators]
              rw [if_neg (by simp [h.1.1]), if_neg (by simp [h.1.2])]
              exact ih h.2
          | _ => simp only [process_decorators]; exact ih h.2
      | _ => simp only [process_decorators]; exact ih h.2

theorem mem_insertBeforeLast (x : String) (l : List String) (y : String)
    (h : x ∈ l) : x ∈ insertBeforeLast l y := by
  induction l with
  | nil => cases h
  | cons z zs ih =>
      cases zs with
      | nil =>
          simp only [insertBeforeLast]
          simp only [List.mem_singleton] at h
          simp [h]
      | cons w ws =>
          rw [insertBeforeLast]
          rcases List.mem_cons.mp h with h1 | h2
          · exact List.mem_cons.mpr (Or.inl h1)
          · exact List.mem_cons.mpr (Or.inr (ih h2))

theorem mem_insertLine (st : TState) (x y : String) (h : x ∈ st.java_code) :
    x ∈ (insertLine st y).java_code :=
  mem_insertBeforeLast x st.java_code (st.indent ++ y) h

theorem mem_foldl_insertLine (f : (String × HardwareComponent) → String)
    (l : List (String × HardwareComponent)) (st : TState) (x : String)
    (h : x ∈ st.java_code) :
    x ∈ (l.foldl (fun s p => insertLine s (f p)) st).java_code := by
  induction l generalizing st with
  | nil => exact h
  | cons p ps ih => exact ih _ (mem_insertLine st x (f p) h)

theorem mem_hwInsertBlock (st : TState) (x : String) (h : x ∈ st.java_code) :
    x ∈ (hwInsertBlock st).java_code := by
  rw [hwInsertBlock]
  split
  · exact h
  · exact mem_insertLine _ x ""
      (mem_foldl_insertLine hwDecl _ _ x (mem_insertLine st x _ h))

theorem classPrelude_mem_ann (n : String) (d : List PyExpr) (b : PyBody)
    (s : TState) (info : OpModeInfo)
    (hom : process_decorators n d s.opmode_info = some info) :
    (s.indent ++ annotationLine info) ∈ (classPrelude n d b s).java_code := by
  rw [classPrelude]
  apply mem_hwInsertBlock
  simp only [setComponents, TState.java_code]
  rw [hwAppendBlock_shape]
  simp only [TState.java_code]
  apply List.mem_append_left
  rw [annBlock_shape]
  simp only [add_line, incIndent, TState.java_code, setClassName, setOpMode,
             TState.opmode_info, TState.indent, TState.indent_level]
  rw [hom]
  simp only [omLines]
  apply List.mem_append_left
  apply List.mem_append_right
  simp [setClassName, setOpMode, TState.indent, TState.indent_level]

/-- C9: a unit carrying a `teleop` (resp. `autonomous`) decorator call —
with no later OpMode decorator overriding it — emits an annotation line
holding the keyword, the display name (first literal argument, defaulting
to the class name) and the group (second literal argument, defaulting to
`"Linear Opmode"`); the line appears in the emitted code. -/
theorem opmode_annotation_line (cname : String) (dpre dpost : List PyExpr)
    (args : PyArgs) (body : PyBody) (fid : String) (omt : OpModeType)
    (s s' : TState)
    (hkind : (fid = "teleop" ∧ omt = OpModeType.teleop) ∨
             (fid = "autonomous" ∧ omt = OpModeType.autonomous))
    (hpost : dpost.all (fun dd => !(isOpModeDec dd)) = true)
    (h : visit (.classDef cname (dpre ++ [.callE (.nameE fid) args] ++ dpost) body) s
          = .ok s') :
    (s.indent ++ annotationLine
       ⟨get_string_arg args 0 (.pstr cname),
        get_string_arg args 1 (.pstr "Linear Opmode"), omt⟩) ∈ s'.java_code ∧
    (args = PyArgs.nil →
       get_string_arg args 0 (.pstr cname) = .pstr cname ∧
       get_string_arg args 1 (.pstr "Linear Opmode") = .pstr "Linear Opmode") := by
  have hpd : process_decorators cname
      (dpre ++ [.callE (.nameE fid) args] ++ dpost) s.opmode_info =
      some ⟨get_string_arg args 0 (.pstr cname),
            get_string_arg args 1 (.pstr "Linear Opmode"), omt⟩ := by
    rw [process_decorators_append cname
          (dpre ++ [PyExpr.callE (PyExpr.nameE fid) args]) dpost,
        process_decorators_append cname dpre [PyExpr.callE (PyExpr.nameE fid) args],
        process_decorators_skip cname dpost _ hpost]
    rcases hkind with ⟨h1, h2⟩ | ⟨h1, h2⟩ <;> subst h1 <;> subst h2 <;> rfl
  refine ⟨?_, fun harg => by subst harg; exact ⟨rfl, rfl⟩⟩
  simp only [visit] at h
  rcases bindOk h with ⟨t, hb, h2⟩
  have h3 := pureOk h2
  subst h3
  have hmem := classPrelude_mem_ann cname _ body s _ hpd
  obtain ⟨⟨Δ, hΔ⟩, _, _, _⟩ := visitB_shape body _ t hb
  simp only [add_line, decIndent, TState.java_code]
  apply List.mem_append_left
  rw [hΔ]
  exact List.mem_append_left _ hmem


/-- C9 witness: the annotation line for a concrete `teleop`-decorated
unit. -/
theorem opmode_annotation_line_witness :
    (initTranspiler.indent ++ annotationLine
       ⟨get_string_arg exTeleArgs 0 (.pstr "Bot"),
        get_string_arg exTeleArgs 1 (.pstr "Linear Opmode"), OpModeType.teleop⟩) ∈
      (⟨["@TeleOp(name=\"Test Robot\", group=\"Test Group\")",
         "public class Bot extends LinearOpMode " ++ lb, rb], [],
        some ⟨.pstr "Test Robot", .pstr "Test Group", .teleop⟩, "Bot", 0, 0⟩ :
        TState).java_code ∧
    (exTeleArgs = PyArgs.nil →
       get_string_arg exTeleArgs 0 (.pstr "Bot") = .pstr "Bot" ∧
       get_string_arg exTeleArgs 1 (.pstr "Linear Opmode") = .pstr "Linear Opmode") :=
  opmode_annotation_line "Bot" [] [] exTeleArgs .nil "teleop" OpModeType.teleop
    initTranspiler _ (Or.inl ⟨rfl, rfl⟩) rfl (by rfl)


/-- C6 counterexample: a parsed unit whose only statement assigns a string
literal holding an opening brace; the emitted text has three opening braces
but only two closing ones, so the structural-balance claim fails for this
valid input. -/
theorem brace_counts_eval :
    (visitB exBrace initTranspiler).map
      (fun st => (charCount lbrace (generate_java_code st),
                  charCount rbrace (generate_java_code st))) = .ok (3, 2) := by rfl
example : charCount lbrace ("a" ++ lb) = 1 := by rfl
example : Except.map (fun x => x + 1) (Except.ok 3 : Except String Nat) = .ok 4 := by rfl

theorem charCount_append (c : Char) (a b : String) :
    charCount c (a ++ b) = charCount c a + charCount c b := by
  simp [charCount, String.data_append]

theorem bfStr_append (a b : String) : bfStr (a ++ b) = (bfStr a && bfStr b) := by
  simp only [bfStr, String.data_append, List.any_append]
  generalize (a.data.any fun c => c == lbrace) = p
  generalize (b.data.any fun c => c == lbrace) = q
  generalize (a.data.any fun c => c == rbrace) = u
  generalize (b.data.any fun c => c == rbrace) = v
  cases p <;> cases q <;> cases u <;> cases v <;> rfl

theorem bfStr_charCount (s : String) (h : bfStr s = true) :
    charCount lbrace s = 0 ∧ charCount rbrace s = 0 := by
  simp only [bfStr, Bool.and_eq_true, Bool.not_eq_true', List.any_eq_false] at h
  constructor <;> simp only [charCount, List.length_eq_zero, List.filter_eq_nil]
  · intro c hc
    exact h.1 c hc
  · intro c hc
    exact h.2 c hc

theorem charCountL_append (c : Char) (a b : List String) :
    charCountL c (a ++ b) = charCountL c a + charCountL c b := by
  simp [charCountL]

theorem charCountL_insertBeforeLast (c : Char) (l : List String) (x : String) :
    charCountL c (insertBeforeLast l x) = charCountL c l + charCount c x := by
  induction l with
  | nil => simp [insertBeforeLast, charCountL]
  | cons y ys ih =>
      cases ys with
      | nil => simp [insertBeforeLast, charCountL]; omega
      | cons z zs =>
          rw [insertBeforeLast]
          simp only [charCountL, List.map_cons, List.sum_cons] at *
          omega

theorem bfStr_indentStr (i : Int) : bfStr (indentStr i) = true := by
  rw [indentStr]
  generalize i.toNat = n
  induction n with
  | zero => rfl
  | succ k ih =>
      rw [repeatStr, bfStr_append, ih]
      rfl

theorem lookup_val_bf (tbl : List (String × String))
    (htbl : tbl.all (fun p => bfStr p.2) = true) (k v : String)
    (h : tbl.lookup k = some v) : bfStr v = true := by
  induction tbl with
  | nil => simp [List.lookup] at h
  | cons p ps ih =>
      simp only [List.all_cons, Bool.and_eq_true] at htbl
      rw [List.lookup] at h
      split at h
      · cases h; exact htbl.1
      · exact ih htbl.2 h

theorem convert_gamepad_attr_bf (a : String) (h : bfStr a = true) :
    bfStr (convert_gamepad_attr a) = true := by
  rw [convert_gamepad_attr]
  cases hl : gamepad_mappings.lookup a with
  | none => simpa using h
  | some v =>
      simp only [Option.getD_some]
      exact lookup_val_bf gamepad_mappings (by decide) a v hl

theorem convert_binary_op_bf (op : PyOp) : bfStr (convert_binary_op op) = true := by
  cases op <;> decide

theorem okInj {α : Type} {a b : α} (h : (Except.ok a : Except String α) = .ok b) :
    a = b := by cases h; rfl

theorem ve_const_str (s : String) :
    visit_expression (.constE (.pstr s)) = .ok ("\"" ++ s ++ "\"") := rfl

theorem ve_const_num (r0 : String) (t0 : Bool) :
    visit_expression (.constE (.onum r0 t0)) = .ok r0 := rfl

theorem ve_name (id : String) : visit_expression (.nameE id) = .ok id := rfl

theorem ve_attr_name (vid a : String) :
    visit_expression (.attr (.nameE vid) a) =
      if vid == "gamepad1" then .ok ("gamepad1." ++ convert_gamepad_attr a)
      else if vid == "gamepad2" then .ok ("gamepad2." ++ convert_gamepad_attr a)
      else .ok (vid ++ "." ++ a) := rfl

theorem ve_attr_const (c : PyConst) (a : String) :
    visit_expression (.attr (.constE c) a) = .ok ("/* UNKNOWN EXPRESSION */") := rfl

theorem ve_attr_attr (v : PyExpr) (a2 a : String) :
    visit_expression (.attr (.attr v a2) a) = .ok ("/* UNKNOWN EXPRESSION */") := rfl

theorem ve_attr_usub (o : PyExpr) (a : String) :
    visit_expression (.attr (.usub o) a) = .ok ("/* UNKNOWN EXPRESSION */") := rfl

theorem ve_attr_unaryOther (o : PyExpr) (a : String) :
    visit_expression (.attr (.unaryOther o) a) = .ok ("/* UNKNOWN EXPRESSION */") := rfl

theorem ve_attr_binOp (l : PyExpr) (op : PyOp) (rr : PyExpr) (a : String) :
    visit_expression (.attr (.binOp l op rr) a) = .ok ("/* UNKNOWN EXPRESSION */") := rfl

theorem ve_attr_compare (l : PyExpr) (op : PyCmpOp) (rr : PyExpr) (a : String) :
    visit_expression (.attr (.compare l op rr) a) = .ok ("/* UNKNOWN EXPRESSION */") := rfl

theorem ve_attr_call (f : PyExpr) (ar : PyArgs) (a : String) :
    visit_expression (.attr (.callE f ar) a) = .ok ("/* UNKNOWN EXPRESSION */") := rfl

theorem ve_attr_other (a : String) :
    visit_expression (.attr .otherExpr a) = .ok ("/* UNKNOWN EXPRESSION */") := rfl

theorem ve_usub (o : PyExpr) : visit_expression (.usub o) =
    (do
      let r ← visit_expression o
      pure ("-" ++ r)) := rfl

theorem ve_unaryOther (o : PyExpr) :
    visit_expression (.unaryOther o) = .ok ("/* UNKNOWN EXPRESSION */") := rfl

theorem ve_binOp (l : PyExpr) (op : PyOp) (r : PyExpr) :
    visit_expression (.binOp l op r) =
    (do
      let ls ← visit_expression l
      let rs ← visit_expression r
      pure (ls ++ " " ++ convert_binary_op op ++ " " ++ rs)) := rfl

theorem ve_compare (l : PyExpr) (op : PyCmpOp) (r : PyExpr) :
    visit_expression (.compare l op r) = .ok ("/* UNKNOWN EXPRESSION */") := rfl

theorem ve_other : visit_expression .otherExpr = .ok ("/* UNKNOWN EXPRESSION */") := rfl

theorem ve_call_attr_nil (fval : PyExpr) (method : String) :
    visit_expression (.callE (.attr fval method) .nil) =
    (do
      let obj ← visit_expression fval
      if method == "set_power" then Except.error indexErrorMsg
      else if method == "set_position" then Except.error indexErrorMsg
      else if method == "get_distance" then pure (obj ++ ".getDistance(DistanceUnit.CM)")
      else if method == "is_pressed" then pure (obj ++ ".isPressed()")
      else if method == "get_current_position" then pure (obj ++ ".getCurrentPosition()")
      else if method == "set_target_position" then Except.error indexErrorMsg
      else if method == "set_mode" then pure (obj ++ ".setMode(/* UNKNOWN MODE */)")
      else pure ("/* UNKNOWN CALL */")) := by rfl

theorem ve_call_attr_cons (fval : PyExpr) (method : String) (a : PyExpr) (rest : PyArgs) :
    visit_expression (.callE (.attr fval method) (.cons a rest)) =
    (do
      let obj ← visit_expression fval
      if method == "set_power" then do
        let arg ← visit_expression a
        pure (obj ++ ".setPower(" ++ arg ++ ")")
      else if method == "set_position" then do
        let arg ← visit_expression a
        pure (obj ++ ".setPosition(" ++ arg ++ ")")
      else if method == "get_distance" then pure (obj ++ ".getDistance(DistanceUnit.CM)")
      else if method == "is_pressed" then pure (obj ++ ".isPressed()")
      else if method == "get_current_position" then pure (obj ++ ".getCurrentPosition()")
      else if method == "set_target_position" then do
        let arg ← visit_expression a
        pure (obj ++ ".setTargetPosition(" ++ arg ++ ")")
      else if method == "set_mode" then do
        let mode_arg ← visit_expression a
        match motor_modes.lookup (stripQuotes mode_arg) with
        | some java_mode => pure (obj ++ ".setMode(" ++ java_mode ++ ")")
        | none => pure (obj ++ ".setMode(/* UNKNOWN MODE */)")
      else pure ("/* UNKNOWN CALL */")) := by rfl

theorem ve_call_name_nil (fid : String) :
    visit_expression (.callE (.nameE fid) .nil) =
    (if fid == "telemetry_add" then pure ("/* UNKNOWN CALL */")
     else if fid == "sleep" then pure ("/* UNKNOWN CALL */")
     else pure ("/* UNKNOWN CALL */")) := by rfl

theorem ve_call_name_one (fid : String) (k : PyExpr) :
    visit_expression (.callE (.nameE fid) (.cons k .nil)) =
    (if fid == "telemetry_add" then pure ("/* UNKNOWN CALL */")
     else if fid == "sleep" then do
       let time_ms ← visit_expression k
       pure ("sleep(" ++ time_ms ++ ")")
     else pure ("/* UNKNOWN CALL */")) := by rfl

theorem ve_call_name_two (fid : String) (k v : PyExpr) (rest : PyArgs) :
    visit_expression (.callE (.nameE fid) (.cons k (.cons v rest))) =
    (if fid == "telemetry_add" then do
       let key ← visit_expression k
       let value ← visit_expression v
       pure ("telemetry.addData(" ++ key ++ ", " ++ value ++ ")")
     else if fid == "sleep" then do
       let time_ms ← visit_expression k
       pure ("sleep(" ++ time_ms ++ ")")
     else pure ("/* UNKNOWN CALL */")) := by rfl

theorem ve_call_const (c : PyConst) (args : PyArgs) :
    visit_expression (.callE (.constE c) args) = .ok ("/* UNKNOWN CALL */") := rfl

theorem ve_call_usub (o : PyExpr) (args : PyArgs) :
    visit_expression (.callE (.usub o) args) = .ok ("/* UNKNOWN CALL */") := rfl

theorem ve_call_unaryOther (o : PyExpr) (args : PyArgs) :
    visit_expression (.callE (.unaryOther o) args) = .ok ("/* UNKNOWN CALL */") := rfl

theorem ve_call_binOp (l : PyExpr) (op : PyOp) (rr : PyExpr) (args : PyArgs) :
    visit_expression (.callE (.binOp l op rr) args) = .ok ("/* UNKNOWN CALL */") := rfl

theorem ve_call_compare (l : PyExpr) (op : PyCmpOp) (rr : PyExpr) (args : PyArgs) :
    visit_expression (.callE (.compare l op rr) args) = .ok ("/* UNKNOWN CALL */") := rfl

theorem ve_call_call (f2 : PyExpr) (a2 args : PyArgs) :
    visit_expression (.callE (.callE f2 a2) args) = .ok ("/* UNKNOWN CALL */") := rfl

theorem ve_call_other (args : PyArgs) :
    visit_expression (.callE .otherExpr args) = .ok ("/* UNKNOWN CALL */") := rfl

theorem bfE_render (e : PyExpr) (hb : bfE e = true) (r : String)
    (h : visit_expression e = .ok r) : bfStr r = true := by
  cases e with
  | constE c =>
      cases c with
      | pstr s =>
          rw [ve_const_str] at h
          cases okInj h
          simp only [bfE, PyConst.bf] at hb
          rw [bfStr_append, bfStr_append, hb]
          decide
      | onum r0 t0 =>
          rw [ve_const_num] at h
          cases okInj h
          simpa only [bfE, PyConst.bf] using hb
  | nameE id =>
      rw [ve_name] at h
      cases okInj h
      simpa only [bfE] using hb
  | attr v a =>
      cases v with
      | nameE vid =>
          simp only [bfE, Bool.and_eq_true] at hb
          rw [ve_attr_name] at h
          by_cases h1 : vid == "gamepad1"
          · rw [if_pos h1] at h
            cases okInj h
            rw [bfStr_append, convert_gamepad_attr_bf a hb.2]
            decide
          · rw [if_neg h1] at h
            by_cases h2 : vid == "gamepad2"
            · rw [if_pos h2] at h
              cases okInj h
              rw [bfStr_append, convert_gamepad_attr_bf a hb.2]
              decide
            · rw [if_neg h2] at h
              cases okInj h
              rw [bfStr_append, bfStr_append, hb.1, hb.2]
              decide
      | constE c => rw [ve_attr_const] at h; cases okInj h; decide
      | attr v2 a2 => rw [ve_attr_attr] at h; cases okInj h; decide
      | usub o => rw [ve_attr_usub] at h; cases okInj h; decide
      | unaryOther o => rw [ve_attr_unaryOther] at h; cases okInj h; decide
      | binOp l op rr => rw [ve_attr_binOp] at h; cases okInj h; decide
      | compare l op rr => rw [ve_attr_compare] at h; cases okInj h; decide
      | callE f ar => rw [ve_attr_call] at h; cases okInj h; decide
      | otherExpr => rw [ve_attr_other] at h; cases okInj h; decide
  | usub operand =>
      simp only [bfE] at hb
      rw [ve_usub] at h
      rcases bindOk h with ⟨o, ho, h2⟩
      cases okInj h2
      rw [bfStr_append, bfE_render operand hb o ho]
      decide
  | unaryOther o => rw [ve_unaryOther] at h; cases okInj h; decide
  | binOp l op rr =>
      simp only [bfE, Bool.and_eq_true] at hb
      rw [ve_binOp] at h
      rcases bindOk h with ⟨ls, hl, h2⟩
      rcases bindOk h2 with ⟨rs, hr, h3⟩
      cases okInj h3
      simp only [bfStr_append]
      rw [bfE_render l hb.1 ls hl, bfE_render rr hb.2 rs hr, convert_binary_op_bf op]
      decide
  | compare l op rr => rw [ve_compare] at h; cases okInj h; decide
  | otherExpr => rw [ve_other] at h; cases okInj h; decide
  | callE f args =>
      cases f with
      | attr fval method =>
          simp only [bfE, Bool.and_eq_true] at hb
          obtain ⟨⟨hbf, hba⟩, hbargs⟩ := hb
          cases args with
          | nil =>
              rw [ve_call_attr_nil] at h
              rcases bindOk h with ⟨obj, hobj, h2⟩
              have hobjbf : bfStr obj = true := bfE_render fval hbf obj hobj
              by_cases hm1 : method == "set_power"
              · rw [if_pos hm1] at h2; exact Except.noConfusion h2
              · rw [if_neg hm1] at h2
                by_cases hm2 : method == "set_position"
                · rw [if_pos hm2] at h2; exact Except.noConfusion h2
                · rw [if_neg hm2] at h2
                  by_cases hm3 : method == "get_distance"
                  · rw [if_pos hm3] at h2
                    cases okInj h2
                    rw [bfStr_append, hobjbf]
                    decide
                  · rw [if_neg hm3] at h2
                    by_cases hm4 : method == "is_pressed"
                    · rw [if_pos hm4] at h2
                      cases okInj h2
                      rw [bfStr_append, hobjbf]
                      decide
                    · rw [if_neg hm4] at h2
                      by_cases hm5 : method == "get_current_position"
                      · rw [if_pos hm5] at h2
                        cases okInj h2
                        rw [bfStr_append, hobjbf]
                        decide
                      · rw [if_neg hm5] at h2
                        by_cases hm6 : method == "set_target_position"
                        · rw [if_pos hm6] at h2; exact Except.noConfusion h2
                        · rw [if_neg hm6] at h2
                          by_cases hm7 : method == "set_mode"
                          · rw [if_pos hm7] at h2
                            cases okInj h2
                            rw [bfStr_append, hobjbf]
                            decide
                          · rw [if_neg hm7] at h2
                            cases okInj h2
                            decide
          | cons a rest =>
              rw [ve_call_attr_cons] at h
              simp only [bfArgs, Bool.and_eq_true] at hbargs
              rcases bindOk h with ⟨obj, hobj, h2⟩
              have hobjbf : bfStr obj = true := bfE_render fval hbf obj hobj
              by_cases hm1 : method == "set_power"
              · rw [if_pos hm1] at h2
                rcases bindOk h2 with ⟨arg, harg, h3⟩
                cases okInj h3
                simp only [bfStr_append]
                rw [hobjbf, bfE_render a hbargs.1 arg harg]
                decide
              · rw [if_neg hm1] at h2
                by_cases hm2 : method == "set_position"
                · rw [if_pos hm2] at h2
                  rcases bindOk h2 with ⟨arg, harg, h3⟩
                  cases okInj h3
                  simp only [bfStr_append]
                  rw [hobjbf, bfE_render a hbargs.1 arg harg]
                  decide
                · rw [if_neg hm2] at h2
                  by_cases hm3 : method == "get_distance"
                  · rw [if_pos hm3] at h2
                    cases okInj h2
                    rw [bfStr_append, hobjbf]
                    decide
                  · rw [if_neg hm3] at h2
                    by_cases hm4 : method == "is_pressed"
                    · rw [if_pos hm4] at h2
                      cases okInj h2
                      rw [bfStr_append, hobjbf]
                      decide
                    · rw [if_neg hm4] at h2
                      by_cases hm5 : method == "get_current_position"
                      · rw [if_pos hm5] at h2
                        cases okInj h2
                        rw [bfStr_append, hobjbf]
                        decide
                      · rw [if_neg hm5] at h2
                        by_cases hm6 : method == "set_target_position"
                        · rw [if_pos hm6] at h2
                          rcases bindOk h2 with ⟨arg, harg, h3⟩
                          cases okInj h3
                          simp only [bfStr_append]
                          rw [hobjbf, bfE_render a hbargs.1 arg harg]
                          decide
                        · rw [if_neg hm6] at h2
                          by_cases hm7 : method == "set_mode"
                          · rw [if_pos hm7] at h2
                            rcases bindOk h2 with ⟨marg, hmarg, h3⟩
                            cases hlook : motor_modes.lookup (stripQuotes marg) with
                            | some jm =>
                                rw [hlook] at h3
                                cases okInj h3
                                simp only [bfStr_append]
                                rw [hobjbf,
                                    lookup_val_bf motor_modes (by decide) _ jm hlook]
                                decide
                            | none =>
                                rw [hlook] at h3
                                cases okInj h3
                                simp only [bfStr_append]
                                rw [hobjbf]
                                decide
                          · rw [if_neg hm7] at h2
                            cases okInj h2
                            decide
      | nameE fid =>
          simp only [bfE, Bool.and_eq_true] at hb
          obtain ⟨hbf, hbargs⟩ := hb
          cases args with
          | nil =>
              rw [ve_call_name_nil] at h
              by_cases hf1 : fid == "telemetry_add"
              · rw [if_pos hf1] at h; cases okInj h; decide
              · rw [if_neg hf1] at h
                by_cases hf2 : fid == "sleep"
                · rw [if_pos hf2] at h; cases okInj h; decide
                · rw [if_neg hf2] at h; cases okInj h; decide
          | cons k krest =>
              cases krest with
              | nil =>
                  rw [ve_call_name_one] at h
                  simp only [bfArgs, Bool.and_eq_true] at hbargs
                  by_cases hf1 : fid == "telemetry_add"
                  · rw [if_pos hf1] at h; cases okInj h; decide
                  · rw [if_neg hf1] at h
                    by_cases hf2 : fid == "sleep"
                    · rw [if_pos hf2] at h
                      rcases bindOk h with ⟨ts, ht, h2⟩
                      cases okInj h2
                      simp only [bfStr_append]
                      rw [bfE_render k hbargs.1 ts ht]
                      decide
                    · rw [if_neg hf2] at h; cases okInj h; decide
              | cons v rest =>
                  rw [ve_call_name_two] at h
                  simp only [bfArgs, Bool.and_eq_true] at hbargs
                  by_cases hf1 : fid == "telemetry_add"
                  · rw [if_pos hf1] at h
                    rcases bindOk h with ⟨ks, hk, h2⟩
                    rcases bindOk h2 with ⟨vs, hv, h3⟩
                    cases okInj h3
                    simp only [bfStr_append]
                    rw [bfE_render k hbargs.1 ks hk, bfE_render v hbargs.2.1 vs hv]
                    decide
                  · rw [if_neg hf1] at h
                    by_cases hf2 : fid == "sleep"
                    · rw [if_pos hf2] at h
                      rcases bindOk h with ⟨ts, ht, h2⟩
                      cases okInj h2
                      simp only [bfStr_append]
                      rw [bfE_render k hbargs.1 ts ht]
                      decide
                    · rw [if_neg hf2] at h; cases okInj h; decide
      | constE c => rw [ve_call_const] at h; cases okInj h; decide
      | usub o => rw [ve_call_usub] at h; cases okInj h; decide
      | unaryOther o => rw [ve_call_unaryOther] at h; cases okInj h; decide
      | binOp l op rr => rw [ve_call_binOp] at h; cases okInj h; decide
      | compare l op rr => rw [ve_call_compare] at h; cases okInj h; decide
      | callE f2 a2 => rw [ve_call_call] at h; cases okInj h; decide
      | otherExpr => rw [ve_call_other] at h; cases okInj h; decide


theorem bfE_const (c : PyConst) : bfE (.constE c) = c.bf := by cases c <;> rfl

theorem bfArgs_get? (args : PyArgs) (i : Nat) (e : PyExpr)
    (hargs : bfArgs args = true) (h : args.get? i = some e) : bfE e = true := by
  cases args with
  | nil => simp [PyArgs.get?] at h
  | cons a rest =>
      simp only [bfArgs, Bool.and_eq_true] at hargs
      cases i with
      | zero => simp only [PyArgs.get?] at h; cases h; exact hargs.1
      | succ n => exact bfArgs_get? rest n e hargs.2 h

theorem get_string_arg_bf (args : PyArgs) (i : Nat) (d : PyConst)
    (hargs : bfArgs args = true) (hd : d.bf = true) :
    (get_string_arg args i d).bf = true := by
  rw [get_string_arg]
  cases hg : args.get? i with
  | none => exact hd
  | some e =>
      cases e with
      | constE c =>
          have := bfArgs_get? args i _ hargs hg
          rwa [bfE_const] at this
      | nameE id => exact hd
      | attr v a => exact hd
      | usub o => exact hd
      | unaryOther o => exact hd
      | binOp l op r => exact hd
      | compare l op r => exact hd
      | callE f ar => exact hd
      | otherExpr => exact hd

theorem get_string_arg?_bf (args : PyArgs) (i : Nat) (d : PyConst)
    (hargs : bfArgs args = true) (h : get_string_arg? args i = some d) :
    d.bf = true := by
  rw [get_string_arg?] at h
  cases hg : args.get? i with
  | none => rw [hg] at h; cases h
  | some e =>
      rw [hg] at h
      cases e with
      | constE c =>
          cases h
          have := bfArgs_get? args i _ hargs hg
          rwa [bfE_const] at this
      | nameE id => cases h
      | attr v a => cases h
      | usub o => cases h
      | unaryOther o => cases h
      | binOp l op r => cases h
      | compare l op r => cases h
      | callE f ar => cases h
      | otherExpr => cases h

theorem hardware_types_bf (fn ty : String) (h : hardware_types.lookup fn = some ty) :
    bfStr ty = true :=
  lookup_val_bf hardware_types (by decide) fn ty h

theorem motor_directions_get_bf (d : PyConst) (hd : d.bf = true) :
    bfStr (motor_directions_get d) = true := by
  cases d with
  | pstr s =>
      rw [motor_directions_get]
      cases hl : motor_directions.lookup s with
      | none => simpa using hd
      | some v =>
          simp only [Option.getD_some]
          exact lookup_val_bf motor_directions (by decide) s v hl
  | onum r t => exact hd

theorem dictInsert_bf (dd : List (String × HardwareComponent)) (k : String)
    (v : HardwareComponent) (hd : dd.all bfComp = true) (hv : bfComp (k, v) = true) :
    (dictInsert dd k v).all bfComp = true := by
  rw [dictInsert]
  split
  · simp only [List.all_eq_true] at hd ⊢
    intro p hp
    simp only [List.mem_map] at hp
    obtain ⟨q, hq, hqe⟩ := hp
    subst hqe
    by_cases hqk : q.1 == k
    · simp only [if_pos hqk]; exact hv
    · simp only [if_neg hqk]; exact hd q hq
  · simp [List.all_append, List.all_cons, hd, hv]

theorem bfS_assign_hw (a fn : String) (args : PyArgs)
    (h : bfS (.assign [.attr (.nameE "self") a] (.callE (.nameE fn) args)) = true) :
    bfStr a = true ∧ bfArgs args = true := by
  simp only [bfS, List.all_cons, List.all_nil, bfE, Bool.and_eq_true, and_true] at h
  exact ⟨by tauto, by tauto⟩

theorem scan_stmt_bf (hc : List (String × HardwareComponent)) (stmt : PyStmt)
    (hhc : hc.all bfComp = true) (hst : bfS stmt = true) :
    (scan_stmt hc stmt).all bfComp = true := by
  rw [scan_stmt.eq_def]
  split
  · rename_i a fn args
    cases hl : hardware_types.lookup fn with
    | none => exact hhc
    | some ty =>
        obtain ⟨ha, hargs⟩ := bfS_assign_hw a fn args hst
        exact dictInsert_bf hc a _ hhc (by
          simp only [bfComp, Bool.and_eq_true]
          exact ⟨ha, hardware_types_bf fn ty hl⟩)
  · exact hhc

theorem scan_hardware_components_bf (b : PyBody) (hc : List (String × HardwareComponent))
    (hhc : hc.all bfComp = true) (hb : bfB b = true) :
    (scan_hardware_components b hc).all bfComp = true := by
  cases b with
  | nil => exact hhc
  | cons s rest =>
      simp only [bfB, Bool.and_eq_true] at hb
      exact scan_hardware_components_bf rest _ (scan_stmt_bf hc s hhc hb.1) hb.2

theorem classScan_bf (b : PyBody) (hc : List (String × HardwareComponent))
    (hhc : hc.all bfComp = true) (hb : bfB b = true) :
    (classScan b hc).all bfComp = true := by
  cases b with
  | nil => exact hhc
  | cons s rest =>
      simp only [bfB, Bool.and_eq_true] at hb
      cases s with
      | functionDef n ar fb =>
          rw [classScan]
          split
          · refine classScan_bf rest _ ?_ hb.2
            apply scan_hardware_components_bf fb hc hhc
            have := hb.1
            simp only [bfS, Bool.and_eq_true] at this
            exact this.2
          · exact classScan_bf rest hc hhc hb.2
      | classDef n dl cb => exact classScan_bf rest hc hhc hb.2
      | assign t v => exact classScan_bf rest hc hhc hb.2
      | exprStmt v => exact classScan_bf rest hc hhc hb.2
      | ifStmt t bb e => exact classScan_bf rest hc hhc hb.2
      | whileStmt t bb => exact classScan_bf rest hc hhc hb.2
      | passStmt => exact classScan_bf rest hc hhc hb.2

theorem process_decorators_bf (cname : String) (l : List PyExpr)
    (acc : Option OpModeInfo) (hn : bfStr cname = true) (hl : l.all bfE = true)
    (hacc : (match acc with | some i => bfInfo i | none => true) = true) :
    (match process_decorators cname l acc with
     | some i => bfInfo i | none => true) = true := by
  induction l generalizing acc with
  | nil => exact hacc
  | cons d rest ih =>
      simp only [List.all_cons, Bool.and_eq_true] at hl
      cases d with
      | callE f args =>
          cases f with
          | nameE fid =>
              have hargs : bfArgs args = true := by
                have := hl.1
                simp only [bfE, Bool.and_eq_true] at this
                exact this.2
              simp only [process_decorators]
              by_cases h1 : fid == "teleop"
              · rw [if_pos h1]
                refine ih _ hl.2 ?_
                simp only [bfInfo, Bool.and_eq_true]
                exact ⟨get_string_arg_bf args 0 _ hargs hn,
                       get_string_arg_bf args 1 _ hargs (by decide)⟩
              · rw [if_neg h1]
                by_cases h2 : fid == "autonomous"
                · rw [if_pos h2]
                  refine ih _ hl.2 ?_
                  simp only [bfInfo, Bool.and_eq_true]
                  exact ⟨get_string_arg_bf args 0 _ hargs hn,
                         get_string_arg_bf args 1 _ hargs (by decide)⟩
                · rw [if_neg h2]
                  exact ih _ hl.2 hacc
          | constE c => simp only [process_decorators]; exact ih _ hl.2 hacc
          | attr v a => simp only [process_decorators]; exact ih _ hl.2 hacc
          | usub o => simp only [process_decorators]; exact ih _ hl.2 hacc
          | unaryOther o => simp only [process_decorators]; exact ih _ hl.2 hacc
          | binOp a op bb => simp only [process_decorators]; exact ih _ hl.2 hacc
          | compare a op bb => simp only [process_decorators]; exact ih _ hl.2 hacc
          | callE f2 a2 => simp only [process_decorators]; exact ih _ hl.2 hacc
          | otherExpr => simp only [process_decorators]; exact ih _ hl.2 hacc
      | constE c => simp only [process_decorators]; exact ih _ hl.2 hacc
      | nameE id => simp only [process_decorators]; exact ih _ hl.2 hacc
      | attr v a => simp only [process_decorators]; exact ih _ hl.2 hacc
      | usub o => simp only [process_decorators]; exact ih _ hl.2 hacc
      | unaryOther o => simp only [process_decorators]; exact ih _ hl.2 hacc
      | binOp a op bb => simp only [process_decorators]; exact ih _ hl.2 hacc
      | compare a op bb => simp only [process_decorators]; exact ih _ hl.2 hacc
      | otherExpr => simp only [process_decorators]; exact ih _ hl.2 hacc

theorem bf_pyJoin (sep : String) (l : List String) (hsep : bfStr sep = true)
    (hl : l.all bfStr = true) : bfStr (pyJoin sep l) = true := by
  match l with
  | [] => rfl
  | [x] => simpa using hl
  | x :: y :: rest =>
      simp only [List.all_cons, Bool.and_eq_true] at hl
      rw [pyJoin, bfStr_append, bfStr_append, hl.1, hsep,
          bf_pyJoin sep (y :: rest) hsep (by simp [hl.2.1, hl.2.2])]
      rfl

theorem bf_count_lines (l : List String) (hl : l.all bfStr = true) :
    charCountL lbrace l = 0 ∧ charCountL rbrace l = 0 := by
  induction l with
  | nil => exact ⟨rfl, rfl⟩
  | cons x xs ih =>
      simp only [List.all_cons, Bool.and_eq_true] at hl
      obtain ⟨h1, h2⟩ := bfStr_charCount x hl.1
      obtain ⟨h3, h4⟩ := ih hl.2
      simp only [charCountL, List.map_cons, List.sum_cons] at *
      omega

theorem hwLines_bf (ind : String) (comps : List (String × HardwareComponent))
    (hind : bfStr ind = true) (hcomp : comps.all bfComp = true) :
    (hwLines ind comps).all bfStr = true := by
  rw [hwLines]
  split
  · rfl
  · simp only [List.all_eq_true]
    intro x hx
    simp only [List.mem_cons, List.mem_append, List.mem_map, List.mem_singleton,
               List.not_mem_nil, or_false] at hx
    rcases hx with (rfl | ⟨p, hp, rfl⟩) | rfl
    · rw [bfStr_append, hind]; rfl
    · have hpc := List.all_eq_true.mp hcomp p hp
      simp only [bfComp, Bool.and_eq_true] at hpc
      rw [bfStr_append, hind, hwDecl, bfStr_append, bfStr_append, bfStr_append,
          bfStr_append, hpc.1, hpc.2]
      rfl
    · rw [bfStr_append, hind]; rfl

theorem bf_pyStr (c : PyConst) (h : c.bf = true) : bfStr c.pyStr = true := by
  cases c <;> exact h

theorem hwDecl_bf (p : String × HardwareComponent) (h : bfComp p = true) :
    bfStr (hwDecl p) = true := by
  simp only [bfComp, Bool.and_eq_true] at h
  rw [hwDecl, bfStr_append, bfStr_append, bfStr_append, bfStr_append, h.1, h.2]
  rfl

theorem annotationLine_bf (info : OpModeInfo) (h : bfInfo info = true) :
    bfStr (annotationLine info) = true := by
  simp only [bfInfo, Bool.and_eq_true] at h
  rw [annotationLine, bfStr_append, bfStr_append, bfStr_append, bfStr_append,
      bf_pyStr _ h.1, bf_pyStr _ h.2]
  cases info.omtype <;> rfl

theorem charCountL_addline (c : Char) (s : TState) (x : String) :
    charCountL c (add_line s x).java_code
      = charCountL c s.java_code + charCount c (s.indent ++ x) := by
  show charCountL c (s.java_code ++ [s.indent ++ x]) = _
  rw [charCountL_append]
  simp [charCountL]

theorem indent_charCount (s : TState) :
    charCount lbrace s.indent = 0 ∧ charCount rbrace s.indent = 0 :=
  bfStr_charCount _ (bfStr_indentStr s.indent_level)

theorem addline_bf (s : TState) (x : String) (hx : bfStr x = true) :
    charCountL lbrace (add_line s x).java_code = charCountL lbrace s.java_code ∧
    charCountL rbrace (add_line s x).java_code = charCountL rbrace s.java_code := by
  obtain ⟨h1, h2⟩ := indent_charCount s
  obtain ⟨h3, h4⟩ := bfStr_charCount x hx
  constructor <;> rw [charCountL_addline, charCount_append] <;> omega

theorem addline_open (s : TState) (x : String) (hx : bfStr x = true) :
    charCountL lbrace (add_line s (x ++ lb)).java_code
      = charCountL lbrace s.java_code + 1 ∧
    charCountL rbrace (add_line s (x ++ lb)).java_code
      = charCountL rbrace s.java_code := by
  obtain ⟨h1, h2⟩ := indent_charCount s
  obtain ⟨h3, h4⟩ := bfStr_charCount x hx
  have h5 : charCount lbrace lb = 1 := by decide
  have h6 : charCount rbrace lb = 0 := by decide
  constructor <;> rw [charCountL_addline, charCount_append, charCount_append] <;> omega

theorem addline_close (s : TState) :
    charCountL lbrace (add_line s rb).java_code = charCountL lbrace s.java_code ∧
    charCountL rbrace (add_line s rb).java_code
      = charCountL rbrace s.java_code + 1 := by
  obtain ⟨h1, h2⟩ := indent_charCount s
  have h5 : charCount lbrace rb = 0 := by decide
  have h6 : charCount rbrace rb = 1 := by decide
  constructor <;> rw [charCountL_addline, charCount_append] <;> omega

theorem addline_elseline (s : TState) :
    charCountL lbrace (add_line s (rb ++ " else " ++ lb)).java_code
      = charCountL lbrace s.java_code + 1 ∧
    charCountL rbrace (add_line s (rb ++ " else " ++ lb)).java_code
      = charCountL rbrace s.java_code + 1 := by
  obtain ⟨h1, h2⟩ := indent_charCount s
  have h5 : charCount lbrace rb = 0 := by decide
  have h6 : charCount rbrace rb = 1 := by decide
  have h7 : charCount lbrace lb = 1 := by decide
  have h8 : charCount rbrace lb = 0 := by decide
  have h9 : charCount lbrace (" else ") = 0 := by decide
  have h10 : charCount rbrace (" else ") = 0 := by decide
  constructor <;>
    rw [charCountL_addline, charCount_append, charCount_append, charCount_append] <;>
    omega

theorem charCountL_insertline (c : Char) (s : TState) (x : String) :
    charCountL c (insertLine s x).java_code
      = charCountL c s.java_code + charCount c (s.indent ++ x) := by
  show charCountL c (insertBeforeLast s.java_code (s.indent ++ x)) = _
  rw [charCountL_insertBeforeLast]

theorem insertline_bf (s : TState) (x : String) (hx : bfStr x = true) :
    charCountL lbrace (insertLine s x).java_code = charCountL lbrace s.java_code ∧
    charCountL rbrace (insertLine s x).java_code = charCountL rbrace s.java_code := by
  obtain ⟨h1, h2⟩ := indent_charCount s
  obtain ⟨h3, h4⟩ := bfStr_charCount x hx
  constructor <;> rw [charCountL_insertline, charCount_append] <;> omega

theorem foldl_addline_count (comps : List (String × HardwareComponent)) (s : TState)
    (h : ∀ p ∈ comps, bfStr (hwDecl p) = true) :
    charCountL lbrace (comps.foldl (fun t p => add_line t (hwDecl p)) s).java_code
      = charCountL lbrace s.java_code ∧
    charCountL rbrace (comps.foldl (fun t p => add_line t (hwDecl p)) s).java_code
      = charCountL rbrace s.java_code ∧
    (comps.foldl (fun t p => add_line t (hwDecl p)) s).hardware_components
      = s.hardware_components ∧
    (comps.foldl (fun t p => add_line t (hwDecl p)) s).opmode_info
      = s.opmode_info := by
  induction comps generalizing s with
  | nil => exact ⟨rfl, rfl, rfl, rfl⟩
  | cons p ps ih =>
      obtain ⟨a1, a2⟩ := addline_bf s (hwDecl p) (h p (List.mem_cons_self p ps))
      obtain ⟨b1, b2, b3, b4⟩ :=
        ih (add_line s (hwDecl p)) (fun q hq => h q (List.mem_cons_of_mem p hq))
      simp only [List.foldl_cons]
      exact ⟨by omega, by omega, b3, b4⟩

theorem foldl_insertline_count (comps : List (String × HardwareComponent)) (s : TState)
    (h : ∀ p ∈ comps, bfStr (hwDecl p) = true) :
    charCountL lbrace (comps.foldl (fun t p => insertLine t (hwDecl p)) s).java_code
      = charCountL lbrace s.java_code ∧
    charCountL rbrace (comps.foldl (fun t p => insertLine t (hwDecl p)) s).java_code
      = charCountL rbrace s.java_code ∧
    (comps.foldl (fun t p => insertLine t (hwDecl p)) s).hardware_components
      = s.hardware_components ∧
    (comps.foldl (fun t p => insertLine t (hwDecl p)) s).opmode_info
      = s.opmode_info := by
  induction comps generalizing s with
  | nil => exact ⟨rfl, rfl, rfl, rfl⟩
  | cons p ps ih =>
      obtain ⟨a1, a2⟩ := insertline_bf s (hwDecl p) (h p (List.mem_cons_self p ps))
      obtain ⟨b1, b2, b3, b4⟩ :=
        ih (insertLine s (hwDecl p)) (fun q hq => h q (List.mem_cons_of_mem p hq))
      simp only [List.foldl_cons]
      exact ⟨by omega, by omega, b3, b4⟩

theorem add_line_hw (s : TState) (x : String) :
    (add_line s x).hardware_components = s.hardware_components := rfl

theorem add_line_om (s : TState) (x : String) :
    (add_line s x).opmode_info = s.opmode_info := rfl

theorem insertLine_hw (s : TState) (x : String) :
    (insertLine s x).hardware_components = s.hardware_components := rfl

theorem insertLine_om (s : TState) (x : String) :
    (insertLine s x).opmode_info = s.opmode_info := rfl

theorem hwAppendBlock_count (s : TState)
    (h : s.hardware_components.all bfComp = true) :
    charCountL lbrace (hwAppendBlock s).java_code = charCountL lbrace s.java_code ∧
    charCountL rbrace (hwAppendBlock s).java_code = charCountL rbrace s.java_code ∧
    (hwAppendBlock s).hardware_components = s.hardware_components ∧
    (hwAppendBlock s).opmode_info = s.opmode_info := by
  simp only [hwAppendBlock]
  split
  · exact ⟨rfl, rfl, rfl, rfl⟩
  · obtain ⟨a1, a2⟩ := addline_bf s ("// Hardware components") (by decide)
    obtain ⟨b1, b2, b3, b4⟩ := foldl_addline_count
      (add_line s ("// Hardware components")).hardware_components
      (add_line s ("// Hardware components"))
      (fun p hp => hwDecl_bf p (List.all_eq_true.mp h p hp))
    obtain ⟨c1, c2⟩ := addline_bf
      (List.foldl (fun t p => add_line t (hwDecl p))
        (add_line s ("// Hardware components"))
        (add_line s ("// Hardware components")).hardware_components)
      ("") (by decide)
    refine ⟨by omega, by omega, ?_, ?_⟩
    · rw [add_line_hw, b3, add_line_hw]
    · rw [add_line_om, b4, add_line_om]

theorem hwInsertBlock_count (s : TState)
    (h : s.hardware_components.all bfComp = true) :
    charCountL lbrace (hwInsertBlock s).java_code = charCountL lbrace s.java_code ∧
    charCountL rbrace (hwInsertBlock s).java_code = charCountL rbrace s.java_code ∧
    (hwInsertBlock s).hardware_components = s.hardware_components ∧
    (hwInsertBlock s).opmode_info = s.opmode_info := by
  simp only [hwInsertBlock]
  split
  · exact ⟨rfl, rfl, rfl, rfl⟩
  · obtain ⟨a1, a2⟩ := insertline_bf s ("// Hardware components") (by decide)
    obtain ⟨b1, b2, b3, b4⟩ := foldl_insertline_count
      (insertLine s ("// Hardware components")).hardware_components
      (insertLine s ("// Hardware components"))
      (fun p hp => hwDecl_bf p (List.all_eq_true.mp h p hp))
    obtain ⟨c1, c2⟩ := insertline_bf
      (List.foldl (fun t p => insertLine t (hwDecl p))
        (insertLine s ("// Hardware components"))
        (insertLine s ("// Hardware components")).hardware_components)
      ("") (by decide)
    refine ⟨by omega, by omega, ?_, ?_⟩
    · rw [insertLine_hw, b3, insertLine_hw]
    · rw [insertLine_om, b4, insertLine_om]

theorem annBlock_hw (s : TState) :
    (annBlock s).hardware_components = s.hardware_components := by
  rw [annBlock]
  cases s.opmode_info <;> rfl

theorem annBlock_om (s : TState) :
    (annBlock s).opmode_info = s.opmode_info := by
  rw [annBlock]
  cases ho : s.opmode_info <;> exact ho

theorem annBlock_count (s : TState)
    (h : (match s.opmode_info with | some i => bfInfo i | none => true) = true) :
    charCountL lbrace (annBlock s).java_code = charCountL lbrace s.java_code ∧
    charCountL rbrace (annBlock s).java_code = charCountL rbrace s.java_code := by
  cases ho : s.opmode_info with
  | none => rw [annBlock, ho]; exact ⟨rfl, rfl⟩
  | some info =>
      rw [ho] at h
      rw [annBlock, ho]
      exact addline_bf s (annotationLine info) (annotationLine_bf info h)

theorem classPrelude_count (name : String) (dl : List PyExpr) (body : PyBody)
    (s : TState) (hn : bfStr name = true) (hdl : dl.all bfE = true)
    (hb : bfB body = true) (hst : bfState s = true) :
    charCountL lbrace (classPrelude name dl body s).java_code
      = charCountL lbrace s.java_code + 1 ∧
    charCountL rbrace (classPrelude name dl body s).java_code
      = charCountL rbrace s.java_code ∧
    bfState (classPrelude name dl body s) = true := by
  simp only [bfState, Bool.and_eq_true] at hst
  obtain ⟨hom, hhw⟩ := hst
  simp only [classPrelude, headerLine]
  set s1 := setClassName s name with hs1
  set s2 := setOpMode s1 (process_decorators name dl s1.opmode_info) with hs2
  set s3 := annBlock s2 with hs3
  set s4 := add_line s3 ("public class " ++ name ++ " extends LinearOpMode " ++ lb)
    with hs4
  set s5 := incIndent s4 with hs5
  set s6 := hwAppendBlock s5 with hs6
  set s7 := setComponents s6 (classScan body s6.hardware_components) with hs7
  have e2c : s2.java_code = s.java_code := by rw [hs2, hs1]; rfl
  have e2om : s2.opmode_info = process_decorators name dl s.opmode_info := by
    rw [hs2, hs1]; rfl
  have e2hw : s2.hardware_components = s.hardware_components := by rw [hs2, hs1]; rfl
  have h2om : (match s2.opmode_info with | some i => bfInfo i | none => true)
      = true := by
    rw [e2om]
    exact process_decorators_bf name dl s.opmode_info hn hdl hom
  obtain ⟨a31, a32⟩ := annBlock_count s2 h2om
  have a3hw := annBlock_hw s2
  have a3om := annBlock_om s2
  have hx : bfStr ("public class " ++ name ++ " extends LinearOpMode ") = true := by
    rw [bfStr_append, bfStr_append, hn]
    decide
  obtain ⟨a41, a42⟩ := addline_open s3 ("public class " ++ name ++
    " extends LinearOpMode ") hx
  have e5c : s5.java_code = s4.java_code := by rw [hs5]; rfl
  have e5hw : s5.hardware_components = s4.hardware_components := by rw [hs5]; rfl
  have e5om : s5.opmode_info = s4.opmode_info := by rw [hs5]; rfl
  have e4hw : s4.hardware_components = s3.hardware_components := by rw [hs4]; rfl
  have e4om : s4.opmode_info = s3.opmode_info := by rw [hs4]; rfl
  have h5hw : s5.hardware_components.all bfComp = true := by
    rw [e5hw, e4hw, a3hw, e2hw]
    exact hhw
  obtain ⟨a61, a62, a6hw, a6om⟩ := hwAppendBlock_count s5 h5hw
  have e7c : s7.java_code = s6.java_code := by rw [hs7]; rfl
  have e7om : s7.opmode_info = s6.opmode_info := by rw [hs7]; rfl
  have e7hw : s7.hardware_components = classScan body s6.hardware_components := by
    rw [hs7]; rfl
  have h7hw : s7.hardware_components.all bfComp = true := by
    rw [e7hw]
    refine classScan_bf body s6.hardware_components ?_ hb
    rw [a6hw, h5hw]
  obtain ⟨a81, a82, a8hw, a8om⟩ := hwInsertBlock_count s7 h7hw
  refine ⟨?_, ?_, ?_⟩
  · rw [a81, e7c, hs6, a61, e5c, hs4, a41, hs3, a31, e2c]
  · rw [a82, e7c, hs6, a62, e5c, hs4, a42, hs3, a32, e2c]
  · simp only [bfState, Bool.and_eq_true]
    constructor
    · rw [a8om, e7om, hs6, a6om, e5om, e4om, hs3, a3om, e2om]
      exact process_decorators_bf name dl s.opmode_info hn hdl hom
    · rw [a8hw]
      exact h7hw


theorem adds_refl (s : TState) : Adds s s 0 0 := ⟨rfl, rfl, rfl, rfl⟩

theorem adds_trans {s t u : TState} {a b c d : Nat} (h1 : Adds s t a b)
    (h2 : Adds t u c d) : Adds s u (a + c) (b + d) := by
  obtain ⟨x1, x2, x3, x4⟩ := h1
  obtain ⟨y1, y2, y3, y4⟩ := h2
  exact ⟨by omega, by omega, y3.trans x3, y4.trans x4⟩

theorem adds_inc (s : TState) : Adds s (incIndent s) 0 0 := ⟨rfl, rfl, rfl, rfl⟩

theorem adds_dec (s : TState) : Adds s (decIndent s) 0 0 := ⟨rfl, rfl, rfl, rfl⟩

theorem adds_addline_bf (s : TState) (x : String) (hx : bfStr x = true) :
    Adds s (add_line s x) 0 0 := by
  obtain ⟨h1, h2⟩ := addline_bf s x hx
  exact ⟨by omega, by omega, rfl, rfl⟩

theorem adds_addline_open (s : TState) (x : String) (hx : bfStr x = true) :
    Adds s (add_line s (x ++ lb)) 1 0 := by
  obtain ⟨h1, h2⟩ := addline_open s x hx
  exact ⟨by omega, by omega, rfl, rfl⟩

theorem adds_addline_close (s : TState) : Adds s (add_line s rb) 0 1 := by
  obtain ⟨h1, h2⟩ := addline_close s
  exact ⟨by omega, by omega, rfl, rfl⟩

theorem adds_addline_else (s : TState) :
    Adds s (add_line s (rb ++ " else " ++ lb)) 1 1 := by
  obtain ⟨h1, h2⟩ := addline_elseline s
  exact ⟨by omega, by omega, rfl, rfl⟩

theorem bfState_congr (s s' : TState)
    (h1 : s'.hardware_components = s.hardware_components)
    (h2 : s'.opmode_info = s.opmode_info) : bfState s' = bfState s := by
  simp only [bfState]
  rw [h1, h2]

theorem visit_Assign_count {targets : List PyExpr} {value : PyExpr} {st s' : TState}
    (ht : targets.all bfE = true) (hv : bfE value = true)
    (h : visit_Assign targets value st = .ok s') : Adds st s' 0 0 := by
  simp only [visit_Assign] at h
  split at h
  · rename_i a
    have ha : bfStr a = true := by
      simp only [List.all_cons, List.all_nil, bfE, Bool.and_eq_true] at ht
      exact ht.1.2
    split at h
    · rename_i fn args
      have hargs : bfArgs args = true := by
        simp only [bfE, Bool.and_eq_true] at hv
        exact hv.2
      split at h
      · rename_i ty hty
        have hbty : bfStr ty = true := hardware_types_bf _ _ hty
        have hcn : bfStr (get_string_arg args 0 (.pstr a)).pyStr = true :=
          bf_pyStr _ (get_string_arg_bf args 0 (.pstr a) hargs ha)
        have hline : bfStr (a ++ " = hardwareMap.get(" ++ ty ++ ".class, \"" ++
            (get_string_arg args 0 (.pstr a)).pyStr ++ "\");") = true := by
          rw [bfStr_append, bfStr_append, bfStr_append, bfStr_append, bfStr_append,
              ha, hbty, hcn]
          decide
        split at h
        · rename_i d hd
          have hbd : d.bf = true := get_string_arg?_bf args 1 d hargs hd
          split at h
          · have h3 := pureOk h
            subst h3
            refine adds_trans (adds_addline_bf st _ hline) (adds_addline_bf _ _ ?_)
            rw [bfStr_append, bfStr_append, bfStr_append, ha,
                motor_directions_get_bf d hbd]
            decide
          · have h3 := pureOk h
            subst h3
            exact adds_addline_bf st _ hline
        · have h3 := pureOk h
          subst h3
          exact adds_addline_bf st _ hline
      · have h3 := pureOk h
        subst h3
        exact adds_refl st
    · rcases bindOk h with ⟨v, hvv, h2⟩
      have h3 := pureOk h2
      subst h3
      have hbv : bfStr v = true := bfE_render _ hv v hvv
      refine adds_addline_bf st _ ?_
      rw [bfStr_append, bfStr_append, bfStr_append, ha, hbv]
      decide
  · rename_i var
    rcases bindOk h with ⟨v, hvv, h2⟩
    have h3 := pureOk h2
    subst h3
    have hbv : bfStr v = true := bfE_render _ hv v hvv
    have hvar : bfStr var = true := by
      simp only [List.all_cons, List.all_nil, bfE, Bool.and_eq_true] at ht
      exact ht.1
    refine adds_addline_bf st _ ?_
    rw [bfStr_append, bfStr_append, bfStr_append, bfStr_append, hvar, hbv]
    decide
  · have h3 := pureOk h
    subst h3
    exact adds_refl st

theorem visit_Expr_count {value : PyExpr} {st s' : TState}
    (hv : bfE value = true) (h : visit_Expr value st = .ok s') :
    Adds st s' 0 0 := by
  simp only [visit_Expr] at h
  split at h
  · rename_i f args
    rcases bindOk h with ⟨c, hc, h2⟩
    simp only [visit_call_expression] at hc
    have hbc : bfStr c = true := bfE_render _ hv c hc
    split at h2
    · have h3 := pureOk h2
      subst h3
      exact adds_refl st
    · have h3 := pureOk h2
      subst h3
      refine adds_addline_bf st _ ?_
      rw [bfStr_append, hbc]
      decide
  · have h3 := pureOk h
    subst h3
    exact adds_refl st

mutual
theorem visit_count (stmt : PyStmt) (s s' : TState) (hbf : bfS stmt = true)
    (hst : bfState s = true) (h : visit stmt s = .ok s') :
    bfState s' = true ∧
    charCountL lbrace s'.java_code + charCountL rbrace s.java_code
      = charCountL rbrace s'.java_code + charCountL lbrace s.java_code := by
  cases stmt with
  | classDef n d b =>
      simp only [bfS, Bool.and_eq_true] at hbf
      obtain ⟨⟨hn, hd⟩, hbb⟩ := hbf
      simp only [visit] at h
      rcases bindOk h with ⟨t, hb, h2⟩
      have h3 := pureOk h2
      subst h3
      obtain ⟨p1, p2, p3⟩ := classPrelude_count n d b s hn hd hbb hst
      obtain ⟨iha, ihb⟩ := visitB_count b _ t hbb p3 hb
      have hpost := adds_trans (adds_dec t) (adds_addline_close _)
      obtain ⟨q1, q2, qhw, qom⟩ := hpost
      exact ⟨(bfState_congr _ _ qhw qom).trans iha, by omega⟩
  | functionDef name args b =>
      simp only [bfS, Bool.and_eq_true] at hbf
      obtain ⟨⟨hn, hargs⟩, hbb⟩ := hbf
      simp only [visit] at h
      split at h
      · rcases bindOk h with ⟨t, hb, h2⟩
        have h3 := pureOk h2
        subst h3
        have hpre := adds_trans
          (adds_addline_open s ("private void initHardware() ") (by decide))
          (adds_inc _)
        obtain ⟨a1, a2, ahw, aom⟩ := hpre
        obtain ⟨iha, ihb⟩ := visitB_count b _ t hbb
          ((bfState_congr _ _ ahw aom).trans hst) hb
        have hpost := adds_trans (adds_trans (adds_dec t) (adds_addline_close _))
          (adds_addline_bf _ ("") (by decide))
        obtain ⟨q1, q2, qhw, qom⟩ := hpost
        exact ⟨(bfState_congr _ _ qhw qom).trans iha, by omega⟩
      · split at h
        · rcases bindOk h with ⟨t, hb, h2⟩
          have h3 := pureOk h2
          subst h3
          have hpre := adds_trans (adds_addline_bf s ("@Override") (by decide))
            (adds_trans
              (adds_addline_open _ ("public void runOpMode() ") (by decide))
            (adds_trans (adds_inc _)
            (adds_trans (adds_addline_bf _ ("initHardware();") (by decide))
            (adds_trans (adds_addline_bf _ ("") (by decide))
            (adds_trans (adds_addline_bf _
              ("telemetry.addData(\"Status\", \"Initialized\");") (by decide))
            (adds_trans (adds_addline_bf _ ("telemetry.update();") (by decide))
            (adds_trans (adds_addline_bf _ ("") (by decide))
            (adds_trans (adds_addline_bf _ ("waitForStart();") (by decide))
              (adds_addline_bf _ ("") (by decide))))))))))
          obtain ⟨a1, a2, ahw, aom⟩ := hpre
          obtain ⟨iha, ihb⟩ := visitB_count b _ t hbb
            ((bfState_congr _ _ ahw aom).trans hst) hb
          have hpost := adds_trans (adds_dec t) (adds_addline_close _)
          obtain ⟨q1, q2, qhw, qom⟩ := hpost
          exact ⟨(bfState_congr _ _ qhw qom).trans iha, by omega⟩
        · split at h
          · rcases bindOk h with ⟨t, hb, h2⟩
            have h3 := pureOk h2
            subst h3
            have hpre := adds_trans
              (adds_addline_open s ("while (opModeIsActive()) ") (by decide))
              (adds_inc _)
            obtain ⟨a1, a2, ahw, aom⟩ := hpre
            obtain ⟨iha, ihb⟩ := visitB_count b _ t hbb
              ((bfState_congr _ _ ahw aom).trans hst) hb
            have hpost := adds_trans
              (adds_trans (adds_addline_bf t ("telemetry.update();") (by decide))
                (adds_dec _))
              (adds_addline_close _)
            obtain ⟨q1, q2, qhw, qom⟩ := hpost
            exact ⟨(bfState_congr _ _ qhw qom).trans iha, by omega⟩
          · rcases bindOk h with ⟨t, hb, h2⟩
            have h3 := pureOk h2
            subst h3
            have hparams : bfStr (pyJoin (", ")
                ((args.filter (fun a => !(a == "self"))).map
                  (fun a => "double " ++ a))) = true := by
              refine bf_pyJoin _ _ (by decide) ?_
              simp only [List.all_eq_true] at hargs ⊢
              intro x hx
              rcases List.mem_map.mp hx with ⟨a, ha, rfl⟩
              rw [bfStr_append, hargs a (List.mem_of_mem_filter ha)]
              decide
            have hpre := adds_trans
              (adds_addline_open s ("private void " ++ name ++ "(" ++
                (pyJoin (", ") ((args.filter (fun a => !(a == "self"))).map
                  (fun a => "double " ++ a))) ++ ") ")
                (by rw [bfStr_append, bfStr_append, bfStr_append, bfStr_append,
                        hn, hparams]
                    decide))
              (adds_inc _)
            obtain ⟨a1, a2, ahw, aom⟩ := hpre
            obtain ⟨iha, ihb⟩ := visitB_count b _ t hbb
              ((bfState_congr _ _ ahw aom).trans hst) hb
            have hpost := adds_trans
              (adds_trans (adds_dec t) (adds_addline_close _))
              (adds_addline_bf _ ("") (by decide))
            obtain ⟨q1, q2, qhw, qom⟩ := hpost
            exact ⟨(bfState_congr _ _ qhw qom).trans iha, by omega⟩
  | assign targets value =>
      simp only [bfS, Bool.and_eq_true] at hbf
      obtain ⟨ht, hv⟩ := hbf
      simp only [visit] at h
      have ha := visit_Assign_count ht hv h
      obtain ⟨a1, a2, ahw, aom⟩ := ha
      exact ⟨(bfState_congr _ _ ahw aom).trans hst, by omega⟩
  | exprStmt value =>
      simp only [bfS] at hbf
      simp only [visit] at h
      have ha := visit_Expr_count hbf h
      obtain ⟨a1, a2, ahw, aom⟩ := ha
      exact ⟨(bfState_congr _ _ ahw aom).trans hst, by omega⟩
  | ifStmt test b e =>
      simp only [bfS, Bool.and_eq_true] at hbf
      obtain ⟨⟨htest, hbb⟩, hee⟩ := hbf
      simp only [visit] at h
      rcases bindOk h with ⟨c, hc, h2⟩
      have hbc : bfStr c = true := bfE_render _ htest c hc
      rcases bindOk h2 with ⟨t, hb, h3⟩
      have hpre := adds_trans
        (adds_addline_open s ("if (" ++ c ++ ") ")
          (by rw [bfStr_append, bfStr_append, hbc]; decide))
        (adds_inc _)
      obtain ⟨a1, a2, ahw, aom⟩ := hpre
      obtain ⟨iha, ihb⟩ := visitB_count b _ t hbb
        ((bfState_congr _ _ ahw aom).trans hst) hb
      split at h3
      · have h4 := pureOk h3
        subst h4
        have hpost := adds_trans (adds_dec t) (adds_addline_close _)
        obtain ⟨q1, q2, qhw, qom⟩ := hpost
        exact ⟨(bfState_congr _ _ qhw qom).trans iha, by omega⟩
      · rcases bindOk h3 with ⟨u, hor, h5⟩
        have h6 := pureOk h5
        subst h6
        have hmid := adds_trans
          (adds_trans (adds_dec t) (adds_addline_else _)) (adds_inc _)
        obtain ⟨m1, m2, mhw, mom⟩ := hmid
        obtain ⟨ihe, ihf⟩ := visitB_count e _ u hee
          ((bfState_congr _ _ mhw mom).trans iha) hor
        have hpost := adds_trans (adds_dec u) (adds_addline_close _)
        obtain ⟨q1, q2, qhw, qom⟩ := hpost
        exact ⟨(bfState_congr _ _ qhw qom).trans ihe, by omega⟩
  | whileStmt test b =>
      simp only [bfS, Bool.and_eq_true] at hbf
      obtain ⟨htest, hbb⟩ := hbf
      simp only [visit] at h
      rcases bindOk h with ⟨c, hc, h2⟩
      have hbc : bfStr c = true := bfE_render _ htest c hc
      rcases bindOk h2 with ⟨t, hb, h3⟩
      have h4 := pureOk h3
      subst h4
      have hpre := adds_trans
        (adds_addline_open s ("while (" ++ c ++ ") ")
          (by rw [bfStr_append, bfStr_append, hbc]; decide))
        (adds_inc _)
      obtain ⟨a1, a2, ahw, aom⟩ := hpre
      obtain ⟨iha, ihb⟩ := visitB_count b _ t hbb
        ((bfState_congr _ _ ahw aom).trans hst) hb
      have hpost := adds_trans (adds_dec t) (adds_addline_close _)
      obtain ⟨q1, q2, qhw, qom⟩ := hpost
      exact ⟨(bfState_congr _ _ qhw qom).trans iha, by omega⟩
  | passStmt =>
      simp only [visit] at h
      have h2 := pureOk h
      subst h2
      exact ⟨hst, by omega⟩

theorem visitB_count (b : PyBody) (s s' : TState) (hbf : bfB b = true)
    (hst : bfState s = true) (h : visitB b s = .ok s') :
    bfState s' = true ∧
    charCountL lbrace s'.java_code + charCountL rbrace s.java_code
      = charCountL rbrace s'.java_code + charCountL lbrace s.java_code := by
  cases b with
  | nil =>
      simp only [visitB] at h
      have h2 := pureOk h
      subst h2
      exact ⟨hst, by omega⟩
  | cons st rest =>
      simp only [bfB, Bool.and_eq_true] at hbf
      simp only [visitB] at h
      rcases bindOk h with ⟨t, h1, h2⟩
      obtain ⟨x1, x2⟩ := visit_count st s t hbf.1 hst h1
      obtain ⟨y1, y2⟩ := visitB_count rest t s' hbf.2 x1 h2
      exact ⟨y1, by omega⟩
end

theorem charCount_pyJoin (c : Char) (sep : String) (l : List String)
    (hsep : charCount c sep = 0) :
    charCount c (pyJoin sep l) = charCountL c l := by
  match l with
  | [] => simp [pyJoin, charCount, charCountL]
  | [x] => simp [pyJoin, charCountL]
  | x :: y :: rest =>
      rw [pyJoin, charCount_append, charCount_append, hsep,
          charCount_pyJoin c sep (y :: rest) hsep]
      simp [charCountL]

/-- C6 (amended): for every module whose identifiers and string/number
literals are brace-free, a successful run of the visitor yields output text
with equally many opening and closing braces, and the emitter's indentation
depth returns to zero at the end and — through the ghost `min_indent`
field, which records the least depth ever attained — was never negative. -/
theorem brace_balance_brace_free (m : PyBody) (st : TState)
    (hm : bfB m = true) (h : visitB m initTranspiler = .ok st) :
    charCount lbrace (generate_java_code st)
      = charCount rbrace (generate_java_code st) ∧
    st.indent_level = 0 ∧ st.min_indent = 0 := by
  obtain ⟨_, hbal⟩ := visitB_count m initTranspiler st hm (by decide) h
  obtain ⟨⟨Δ, hΔ⟩, hlvl, hub, hlb⟩ := visitB_shape m initTranspiler st h
  have h0l : charCountL lbrace initTranspiler.java_code = 0 := rfl
  have h0r : charCountL rbrace initTranspiler.java_code = 0 := rfl
  have hil : initTranspiler.indent_level = 0 := rfl
  have him : initTranspiler.min_indent = 0 := rfl
  have hnl : charCount lbrace ("\n\n") = 0 := by decide
  have hnr : charCount rbrace ("\n\n") = 0 := by decide
  have hal : charCount lbrace ("\n") = 0 := by decide
  have har : charCount rbrace ("\n") = 0 := by decide
  have hImpL : charCount lbrace (pyJoin ("\n")
      ((sortedStrings standard_imports).map (fun imp => "import " ++ imp ++ ";")))
      = 0 := by decide
  have hImpR : charCount rbrace (pyJoin ("\n")
      ((sortedStrings standard_imports).map (fun imp => "import " ++ imp ++ ";")))
      = 0 := by decide
  refine ⟨?_, ?_, ?_⟩
  · rw [generate_java_code, charCount_append, charCount_append,
        charCount_pyJoin lbrace ("\n") st.java_code hal,
        charCount_append, charCount_append,
        charCount_pyJoin rbrace ("\n") st.java_code har,
        hImpL, hImpR, hnl, hnr]
    omega
  · omega
  · omega


/-- C6 witness: the brace-balance theorem instantiated on a concrete
decorated class with an if/else conditional. -/
theorem brace_balance_brace_free_witness :
    bfB exBal = true ∧
    (charCount lbrace (generate_java_code exBalState)
        = charCount rbrace (generate_java_code exBalState) ∧
      exBalState.indent_level = 0 ∧ exBalState.min_indent = 0) :=
  ⟨by decide, brace_balance_brace_free exBal exBalState (by decide) (by rfl)⟩

theorem hwLines_nil (ind : String) : hwLines ind [] = [] := rfl

theorem classPrelude_empty (n : String) (d : List PyExpr) (b : PyBody) (s : TState)
    (he : s.hardware_components = []) :
    classPrelude n d b s =
      ⟨s.java_code ++ omLines s.indent (process_decorators n d s.opmode_info) ++
         hwLines (indentStr (s.indent_level + 1)) (classScan b []) ++
         [s.indent ++ headerLine n],
       classScan b [], process_decorators n d s.opmode_info, n, s.indent_level + 1,
       min s.min_indent s.indent_level⟩ := by
  obtain ⟨jc, hc, om, cn, il, mi⟩ := s
  simp only [TState.hardware_components] at he
  subst he
  simp only [classPrelude, setClassName, setOpMode, TState.opmode_info,
             TState.hardware_components, TState.java_code, TState.indent_level,
             TState.min_indent, TState.indent]
  rw [annBlock_shape]
  simp only [add_line, incIndent, TState.java_code, TState.indent, TState.indent_level,
             TState.opmode_info, TState.hardware_components, TState.class_name,
             TState.min_indent]
  have hmin1 : min (if (process_decorators n d om).isSome then min mi il else mi) il
      = min mi il := by split <;> omega
  have hmin2 : min (min mi il) (il + 1) = min mi il := by omega
  rw [hmin1, hmin2]
  rw [hwAppendBlock_shape]
  simp only [setComponents, TState.java_code, TState.indent, TState.indent_level,
             TState.opmode_info, TState.hardware_components, TState.class_name,
             TState.min_indent, hwLines_nil, List.append_nil]
  rw [hwInsertBlock_shape _ (jc ++ omLines (indentStr il) (process_decorators n d om))
     (indentStr il ++ headerLine n) (by simp [List.append_assoc])]
  simp only [TState.indent, TState.indent_level, TState.hardware_components,
             TState.opmode_info, TState.class_name, TState.min_indent,
             TState.java_code]
  rfl

theorem sublist_two {α : Type} (x y : α) (U V T : List α) :
    List.Sublist [x, y] (U ++ [x] ++ V ++ [y] ++ T) := by
  have h1 : List.Sublist [y] (V ++ ([y] ++ T)) :=
    (List.sublist_append_left [y] T).trans (List.sublist_append_right V ([y] ++ T))
  have h2 : List.Sublist ([x] ++ [y]) ([x] ++ (V ++ ([y] ++ T))) :=
    (List.Sublist.refl [x]).append h1
  have h3 := h2.trans (List.sublist_append_right U ([x] ++ (V ++ ([y] ++ T))))
  simpa [List.append_assoc] using h3

theorem sublist_three {α : Type} (x y z : α) (U V T : List α) :
    List.Sublist [x, y, z] (U ++ [x] ++ V ++ [y] ++ [z] ++ T) := by
  have h1 : List.Sublist ([y] ++ ([z] ++ [])) ([y] ++ ([z] ++ T)) :=
    (List.Sublist.refl [y]).append
      ((List.Sublist.refl [z]).append (List.nil_sublist T))
  have h2 : List.Sublist ([y] ++ [z]) (V ++ ([y] ++ ([z] ++ T))) := by
    have := h1.trans (List.sublist_append_right V ([y] ++ ([z] ++ T)))
    simpa using this
  have h3 : List.Sublist ([x] ++ ([y] ++ [z])) ([x] ++ (V ++ ([y] ++ ([z] ++ T)))) :=
    (List.Sublist.refl [x]).append h2
  have h4 := h3.trans
    (List.sublist_append_right U ([x] ++ (V ++ ([y] ++ ([z] ++ T)))))
  simpa [List.append_assoc] using h4


/-- C5 (amended): for a registering assignment `self.a = kind(args)` inside
an `init_hardware` routine of a class visited with an empty registry, IF
the assignment's own registration entry survives the class scan (the
no-redeclaration condition the original claim lacks), the output contains,
in order: the field declaration typed per the kind-mapping, the
hardware-lookup statement referencing the config name (defaulting to the
attribute name), and — for the `motor` kind with a truthy direction
argument — the direction-set statement. -/
theorem hardware_assign_lines (n : String) (dl : List PyExpr)
    (bpre bpost : PyBody) (fargs : List String) (ipre ipost : PyBody)
    (a kind ty : String) (args : PyArgs) (s s' : TState)
    (hty : hardware_types.lookup kind = some ty)
    (he : s.hardware_components = [])
    (hscan : (a, (⟨a, ty, get_string_arg args 0 (.pstr a),
        get_string_arg? args 1⟩ : HardwareComponent)) ∈
      classScan (bpre.append (.cons (.functionDef "init_hardware" fargs
          (ipre.append (.cons (hwAssign a kind args) ipost))) bpost)) [])
    (h : visit (.classDef n dl (bpre.append (.cons (.functionDef "init_hardware" fargs
          (ipre.append (.cons (hwAssign a kind args) ipost))) bpost))) s = .ok s') :
    [indentStr (s.indent_level + 1) ++
       ("private " ++ ty ++ " " ++ a ++ " = null;"),
     indentStr (s.indent_level + 2) ++ lookupLine a ty args].Sublist s'.java_code ∧
    (∀ d, get_string_arg? args 1 = some d →
      (d.pyTruthy && (kind == "motor")) = true →
      [indentStr (s.indent_level + 1) ++
         ("private " ++ ty ++ " " ++ a ++ " = null;"),
       indentStr (s.indent_level + 2) ++ lookupLine a ty args,
       indentStr (s.indent_level + 2) ++ directionLine a d].Sublist
        s'.java_code) := by
  simp only [visit] at h
  rcases bindOk h with ⟨t, hbody, h2⟩
  have h3 := pureOk h2
  subst h3
  rw [visitB_append] at hbody
  rcases bindOk hbody with ⟨t1, hbpre, hrest⟩
  simp only [visitB] at hrest
  rcases bindOk hrest with ⟨t2, hfdef, hbpost⟩
  simp only [visit] at hfdef
  rw [if_pos (by decide)] at hfdef
  rcases bindOk hfdef with ⟨u1, hib, hf2⟩
  have hf3 := pureOk hf2
  subst hf3
  rw [visitB_append] at hib
  rcases bindOk hib with ⟨Y, hipre, hstmt⟩
  simp only [visitB] at hstmt
  rcases bindOk hstmt with ⟨Y2, hassign, hipost⟩
  simp only [hwAssign, visit, visit_Assign, hty] at hassign
  -- the prelude in explicit form
  have hP := classPrelude_empty n dl (bpre.append (.cons (.functionDef
    "init_hardware" fargs (ipre.append (.cons (hwAssign a kind args) ipost)))
    bpost)) s he
  -- indentation bookkeeping down to the assignment site
  obtain ⟨⟨Δ0, hΔ0⟩, hil0, _, _⟩ := visitB_shape bpre _ t1 hbpre
  obtain ⟨⟨Δ1, hΔ1⟩, hil1, _, _⟩ := visitB_shape ipre _ Y hipre
  have hPil : (classPrelude n dl (bpre.append (.cons (.functionDef "init_hardware"
      fargs (ipre.append (.cons (hwAssign a kind args) ipost))) bpost)) s).indent_level
      = s.indent_level + 1 := by rw [hP]
  have hYil : Y.indent_level = s.indent_level + 2 := by
    rw [hil1]
    simp only [incIndent, add_line, TState.indent_level]
    omega
  -- code below the assignment site: everything later only appends
  obtain ⟨⟨Δ2, hΔ2⟩, _, _, _⟩ := visitB_shape ipost _ u1 hipost
  obtain ⟨⟨Δ3, hΔ3⟩, _, _, _⟩ := visitB_shape bpost _ t hbpost
  have htail2 : (add_line (add_line (decIndent u1) rb) ("")).java_code
      = u1.java_code ++ [(decIndent u1).indent ++ rb,
          (add_line (decIndent u1) rb).indent ++ ""] := by
    simp [add_line, decIndent, List.append_assoc]
  have hfinal : (add_line (decIndent t) rb).java_code
      = t.java_code ++ [(decIndent t).indent ++ rb] := by
    simp [add_line, decIndent]
  -- code above the assignment site
  have hYcode : Y.java_code =
      (classPrelude n dl (bpre.append (.cons (.functionDef "init_hardware"
        fargs (ipre.append (.cons (hwAssign a kind args) ipost))) bpost)) s).java_code
      ++ (Δ0 ++ [t1.indent ++ ("private void initHardware() " ++ lb)] ++ Δ1) := by
    rw [hΔ1]
    simp only [incIndent, add_line, TState.java_code]
    rw [hΔ0]
    simp [List.append_assoc]
  -- the declaration line sits inside the prelude
  rcases List.append_of_mem hscan with ⟨c1, c2, hcomps⟩
  have hhw : hwLines (indentStr (s.indent_level + 1))
      (classScan (bpre.append (.cons (.functionDef "init_hardware" fargs
        (ipre.append (.cons (hwAssign a kind args) ipost))) bpost)) []) =
      (indentStr (s.indent_level + 1) ++ "// Hardware components") ::
        ((c1.map (fun p => indentStr (s.indent_level + 1) ++ hwDecl p)) ++
          [indentStr (s.indent_level + 1) ++
            ("private " ++ ty ++ " " ++ a ++ " = null;")] ++
          (c2.map (fun p => indentStr (s.indent_level + 1) ++ hwDecl p)) ++
          [indentStr (s.indent_level + 1) ++ ""]) := by
    rw [hwLines, hcomps]
    rw [if_neg (by simp)]
    simp [hwDecl, List.map_append, List.append_assoc]
  have hPcode := congrArg TState.java_code hP
  simp only [TState.java_code] at hPcode
  have hYind : Y.indent = indentStr (s.indent_level + 2) := by
    rw [TState.indent, hYil]
  cases hdir : get_string_arg? args 1 with
  | none =>
      simp only [hdir] at hassign
      have hY2 := pureOk hassign
      subst hY2
      constructor
      · rw [lookupLine, hfinal, hΔ3, htail2, hΔ2, ← hYind]
        have hY2c : (add_line Y (a ++ " = hardwareMap.get(" ++ ty ++ ".class, \"" ++
            (get_string_arg args 0 (.pstr a)).pyStr ++ "\");")).java_code
            = Y.java_code ++ [Y.indent ++ (a ++ " = hardwareMap.get(" ++ ty ++
              ".class, \"" ++ (get_string_arg args 0 (.pstr a)).pyStr ++ "\");")] := rfl
        rw [hY2c, hYcode, hPcode, hhw]
        have hs := sublist_two
          (indentStr (s.indent_level + 1) ++
            ("private " ++ ty ++ " " ++ a ++ " = null;"))
          (Y.indent ++ (a ++ " = hardwareMap.get(" ++ ty ++ ".class, \"" ++
            (get_string_arg args 0 (.pstr a)).pyStr ++ "\");"))
          (s.java_code ++
            omLines s.indent (process_decorators n dl s.opmode_info) ++
            [indentStr (s.indent_level + 1) ++ "// Hardware components"] ++
            c1.map (fun p => indentStr (s.indent_level + 1) ++ hwDecl p))
          ((c2.map (fun p => indentStr (s.indent_level + 1) ++ hwDecl p)) ++
            [indentStr (s.indent_level + 1) ++ ""] ++
            [s.indent ++ headerLine n] ++
            (Δ0 ++ [t1.indent ++ ("private void initHardware() " ++ lb)] ++ Δ1))
          (Δ2 ++ [(decIndent u1).indent ++ rb,
            (add_line (decIndent u1) rb).indent ++ ""] ++ Δ3 ++
            [(decIndent t).indent ++ rb])
        simpa [List.append_assoc] using hs
      · intro d hd hcond
        cases hd
  | some d =>
      simp only [hdir] at hassign
      split at hassign
      · rename_i hcond
        have hY2 := pureOk hassign
        subst hY2
        have hkey : List.Sublist
            [indentStr (s.indent_level + 1) ++
               ("private " ++ ty ++ " " ++ a ++ " = null;"),
             indentStr (s.indent_level + 2) ++ lookupLine a ty args,
             indentStr (s.indent_level + 2) ++ directionLine a d]
            ((add_line (decIndent t) rb).java_code) := by
          rw [lookupLine, directionLine, hfinal, hΔ3, htail2, hΔ2, ← hYind]
          have hY2c : (add_line (add_line Y (a ++ " = hardwareMap.get(" ++ ty ++
              ".class, \"" ++ (get_string_arg args 0 (.pstr a)).pyStr ++ "\");"))
              (a ++ ".setDirection(" ++ motor_directions_get d ++ ");")).java_code
              = Y.java_code ++ [Y.indent ++ (a ++ " = hardwareMap.get(" ++ ty ++
                  ".class, \"" ++ (get_string_arg args 0 (.pstr a)).pyStr ++ "\");")]
                ++ [Y.indent ++ (a ++ ".setDirection(" ++
                  motor_directions_get d ++ ");")] := by
            simp [add_line, TState.indent, List.append_assoc]
          rw [hY2c, hYcode, hPcode, hhw]
          have hs := sublist_three
            (indentStr (s.indent_level + 1) ++
              ("private " ++ ty ++ " " ++ a ++ " = null;"))
            (Y.indent ++ (a ++ " = hardwareMap.get(" ++ ty ++ ".class, \"" ++
              (get_string_arg args 0 (.pstr a)).pyStr ++ "\");"))
            (Y.indent ++ (a ++ ".setDirection(" ++ motor_directions_get d ++ ");"))
            (s.java_code ++
              omLines s.indent (process_decorators n dl s.opmode_info) ++
              [indentStr (s.indent_level + 1) ++ "// Hardware components"] ++
              c1.map (fun p => indentStr (s.indent_level + 1) ++ hwDecl p))
            ((c2.map (fun p => indentStr (s.indent_level + 1) ++ hwDecl p)) ++
              [indentStr (s.indent_level + 1) ++ ""] ++
              [s.indent ++ headerLine n] ++
              (Δ0 ++ [t1.indent ++ ("private void initHardware() " ++ lb)] ++ Δ1))
            (Δ2 ++ [(decIndent u1).indent ++ rb,
              (add_line (decIndent u1) rb).indent ++ ""] ++ Δ3 ++
              [(decIndent t).indent ++ rb])
          simpa [List.append_assoc] using hs
        constructor
        · have hdrop : List.Sublist
              [indentStr (s.indent_level + 1) ++
                 ("private " ++ ty ++ " " ++ a ++ " = null;"),
               indentStr (s.indent_level + 2) ++ lookupLine a ty args]
              [indentStr (s.indent_level + 1) ++
                 ("private " ++ ty ++ " " ++ a ++ " = null;"),
               indentStr (s.indent_level + 2) ++ lookupLine a ty args,
               indentStr (s.indent_level + 2) ++ directionLine a d] := by
            simp
          exact hdrop.trans hkey
        · intro d2 hd2 hcond2
          cases hd2
          exact hkey
      · rename_i hcond
        have hY2 := pureOk hassign
        subst hY2
        constructor
        · rw [lookupLine, hfinal, hΔ3, htail2, hΔ2, ← hYind]
          have hY2c : (add_line Y (a ++ " = hardwareMap.get(" ++ ty ++ ".class, \"" ++
              (get_string_arg args 0 (.pstr a)).pyStr ++ "\");")).java_code
              = Y.java_code ++ [Y.indent ++ (a ++ " = hardwareMap.get(" ++ ty ++
                ".class, \"" ++ (get_string_arg args 0 (.pstr a)).pyStr ++ "\");")] := rfl
          rw [hY2c, hYcode, hPcode, hhw]
          have hs := sublist_two
            (indentStr (s.indent_level + 1) ++
              ("private " ++ ty ++ " " ++ a ++ " = null;"))
            (Y.indent ++ (a ++ " = hardwareMap.get(" ++ ty ++ ".class, \"" ++
              (get_string_arg args 0 (.pstr a)).pyStr ++ "\");"))
            (s.java_code ++
              omLines s.indent (process_decorators n dl s.opmode_info) ++
              [indentStr (s.indent_level + 1) ++ "// Hardware components"] ++
              c1.map (fun p => indentStr (s.indent_level + 1) ++ hwDecl p))
            ((c2.map (fun p => indentStr (s.indent_level + 1) ++ hwDecl p)) ++
              [indentStr (s.indent_level + 1) ++ ""] ++
              [s.indent ++ headerLine n] ++
              (Δ0 ++ [t1.indent ++ ("private void initHardware() " ++ lb)] ++ Δ1))
            (Δ2 ++ [(decIndent u1).indent ++ rb,
              (add_line (decIndent u1) rb).indent ++ ""] ++ Δ3 ++
              [(decIndent t).indent ++ rb])
          simpa [List.append_assoc] using hs
        · intro d2 hd2 hcond2
          cases hd2
          exact absurd hcond2 hcond


/-- C5 counterexample: when the initializer assigns `self.m` twice with
different hardware kinds, the dictionary registration overwrites the first
entry, so the output carries no `private DcMotor m = null;` declaration at
all even though the motor assignment's lookup statement is emitted. -/
theorem redeclared_component_loses_declaration :
    (visitB exRedecl initTranspiler).map (fun st =>
      st.java_code.all (fun l => !(strHas ("private DcMotor") l))) = .ok true ∧
    (visitB exRedecl initTranspiler).map (fun st =>
      st.java_code.any (fun l =>
        strHas ("m = hardwareMap.get(DcMotor.class") l)) = .ok true :=
  ⟨rfl, rfl⟩


/-- C5 witness: the declaration/lookup/direction ordering instantiated on
a concrete `self.m = motor("left", "forward")` initializer. -/
theorem hardware_assign_lines_witness :
    [indentStr (initTranspiler.indent_level + 1) ++
       ("private " ++ "DcMotor" ++ " " ++ "m" ++ " = null;"),
     indentStr (initTranspiler.indent_level + 2) ++
       lookupLine "m" "DcMotor" exMotorArgs].Sublist exHwState.java_code ∧
    (∀ d, get_string_arg? exMotorArgs 1 = some d →
      (d.pyTruthy && (("motor" : String) == "motor")) = true →
      [indentStr (initTranspiler.indent_level + 1) ++
         ("private " ++ "DcMotor" ++ " " ++ "m" ++ " = null;"),
       indentStr (initTranspiler.indent_level + 2) ++
         lookupLine "m" "DcMotor" exMotorArgs,
       indentStr (initTranspiler.indent_level + 2) ++
         directionLine "m" d].Sublist exHwState.java_code) :=
  hardware_assign_lines "Bot" [] PyBody.nil PyBody.nil ["self"] PyBody.nil
    PyBody.nil "m" "motor" "DcMotor" exMotorArgs initTranspiler exHwState
    (by decide) rfl (by decide) (by rfl)

theorem noKStr_append (a b : String) :
    noKStr (a ++ b) = (noKStr a && noKStr b) := by
  simp only [noKStr, String.data_append, List.any_append]
  cases (a.data.any fun c => c == 'K') <;>
    cases (b.data.any fun c => c == 'K') <;> rfl

theorem lookup_val_noK (tbl : List (String × String))
    (htbl : tbl.all (fun p => noKStr p.2) = true) (k v : String)
    (h : tbl.lookup k = some v) : noKStr v = true := by
  induction tbl with
  | nil => simp [List.lookup] at h
  | cons p ps ih =>
      simp only [List.all_cons, Bool.and_eq_true] at htbl
      rw [List.lookup] at h
      split at h
      · cases h; exact htbl.1
      · exact ih htbl.2 h

theorem convert_gamepad_attr_noK (a : String) (h : noKStr a = true) :
    noKStr (convert_gamepad_attr a) = true := by
  rw [convert_gamepad_attr]
  cases hl : gamepad_mappings.lookup a with
  | none => simpa using h
  | some v =>
      simp only [Option.getD_some]
      exact lookup_val_noK gamepad_mappings (by decide) a v hl

theorem convert_binary_op_noK (op : PyOp) :
    noKStr (convert_binary_op op) = true := by
  cases op <;> decide

theorem noK_indentStr (i : Int) : noKStr (indentStr i) = true := by
  rw [indentStr]
  generalize i.toNat = n
  induction n with
  | zero => rfl
  | succ k ih =>
      rw [repeatStr, noKStr_append, ih]
      rfl

theorem noK_pyStr (c : PyConst) (h : c.noK = true) : noKStr c.pyStr = true := by
  cases c <;> exact h

theorem noK_pyJoin (sep : String) (l : List String) (hsep : noKStr sep = true)
    (hl : l.all noKStr = true) : noKStr (pyJoin sep l) = true := by
  match l with
  | [] => rfl
  | [x] => simpa using hl
  | x :: y :: rest =>
      simp only [List.all_cons, Bool.and_eq_true] at hl
      rw [pyJoin, noKStr_append, noKStr_append, hl.1, hsep,
          noK_pyJoin sep (y :: rest) hsep (by simp [hl.2.1, hl.2.2])]
      rfl

theorem strHasL_nil_pat (b : List Char) : strHasL [] b = true := by
  cases b with
  | nil => rfl
  | cons c rest => simp [strHasL, List.isPrefixOf]

theorem strHasL_mem (pat cs : List Char) (c : Char) (h : strHasL pat cs = true)
    (hc : c ∈ pat) : c ∈ cs := by
  induction cs with
  | nil =>
      simp only [strHasL, List.isEmpty_iff] at h
      subst h
      cases hc
  | cons d ds ih =>
      simp only [strHasL, Bool.or_eq_true] at h
      rcases h with h | h
      · exact (List.isPrefixOf_iff_prefix.mp h).subset hc
      · exact List.mem_cons_of_mem d (ih h)

theorem noK_not_marker (l : String) (h : noKStr l = true) :
    isMarkerLine l = false := by
  rw [isMarkerLine, strHas]
  cases hm : strHasL ("UNKNOWN").data l.data with
  | false => rfl
  | true =>
      have hK : 'K' ∈ l.data := strHasL_mem _ _ 'K' hm (by decide)
      simp only [noKStr, Bool.not_eq_true', List.any_eq_false] at h
      have hcontr := h 'K' hK
      simp at hcontr

theorem strHasL_append_left (pat a b : List Char) (h : strHasL pat b = true) :
    strHasL pat (a ++ b) = true := by
  induction a with
  | nil => exact h
  | cons c rest ih =>
      simp only [List.cons_append, strHasL, Bool.or_eq_true]
      exact Or.inr ih

theorem strHasL_append_right (pat a b : List Char) (h : strHasL pat a = true) :
    strHasL pat (a ++ b) = true := by
  induction a with
  | nil =>
      simp only [strHasL, List.isEmpty_iff] at h
      subst h
      exact strHasL_nil_pat b
  | cons c rest ih =>
      simp only [strHasL, Bool.or_eq_true] at h
      simp only [List.cons_append, strHasL, Bool.or_eq_true]
      rcases h with h | h
      · exact Or.inl (List.isPrefixOf_iff_prefix.mpr
          ((List.isPrefixOf_iff_prefix.mp h).trans
            (List.prefix_append (c :: rest) b)))
      · exact Or.inr (ih h)

theorem strHas_append_left (pat a b : String) (h : strHas pat b = true) :
    strHas pat (a ++ b) = true := by
  rw [strHas, String.data_append]
  exact strHasL_append_left _ _ _ h

theorem strHas_append_right (pat a b : String) (h : strHas pat a = true) :
    strHas pat (a ++ b) = true := by
  rw [strHas, String.data_append]
  exact strHasL_append_right _ _ _ h

theorem markerLineCount_append (a b : List String) :
    markerLineCount (a ++ b) = markerLineCount a + markerLineCount b := by
  simp [markerLineCount, List.filter_append]

theorem markerLineCount_addline_noK (s : TState) (x : String)
    (hx : noKStr x = true) :
    markerLineCount (add_line s x).java_code = markerLineCount s.java_code := by
  show markerLineCount (s.java_code ++ [s.indent ++ x]) = _
  rw [markerLineCount_append]
  have hline : isMarkerLine (s.indent ++ x) = false := by
    refine noK_not_marker _ ?_
    rw [TState.indent, noKStr_append, noK_indentStr, hx]
    rfl
  simp [markerLineCount, hline]

theorem markerLineCount_addline_marker (s : TState) (x : String)
    (hx : isMarkerLine x = true) :
    markerLineCount (add_line s x).java_code = markerLineCount s.java_code + 1 := by
  show markerLineCount (s.java_code ++ [s.indent ++ x]) = _
  rw [markerLineCount_append]
  have hline : isMarkerLine (s.indent ++ x) = true := by
    rw [isMarkerLine] at hx ⊢
    exact strHas_append_left _ _ _ hx
  simp [markerLineCount, hline]

theorem cleanE_call_attr_nil (fval : PyExpr) (method : String) :
    cleanE (.callE (.attr fval method) .nil) =
      (cleanE fval &&
        (if method == "set_power" then false
        else if method == "set_position" then false
        else if method == "get_distance" then true
        else if method == "is_pressed" then true
        else if method == "get_current_position" then true
        else if method == "set_target_position" then false
        else if method == "set_mode" then false
        else false)) := rfl

theorem cleanE_call_attr_cons (fval : PyExpr) (method : String) (a : PyExpr)
    (rest : PyArgs) :
    cleanE (.callE (.attr fval method) (.cons a rest)) =
      (cleanE fval &&
        (if method == "set_power" then cleanE a
        else if method == "set_position" then cleanE a
        else if method == "get_distance" then true
        else if method == "is_pressed" then true
        else if method == "get_current_position" then true
        else if method == "set_target_position" then cleanE a
        else if method == "set_mode" then cleanE a && modeOk a
        else false)) := rfl

theorem cleanE_call_name_nil (fid : String) :
    cleanE (.callE (.nameE fid) .nil) =
      (if fid == "telemetry_add" then false
      else if fid == "sleep" then false
      else false) := rfl

theorem cleanE_call_name_one (fid : String) (k : PyExpr) :
    cleanE (.callE (.nameE fid) (.cons k .nil)) =
      (if fid == "telemetry_add" then false
      else if fid == "sleep" then cleanE k
      else false) := rfl

theorem cleanE_call_name_two (fid : String) (k v : PyExpr) (rest : PyArgs) :
    cleanE (.callE (.nameE fid) (.cons k (.cons v rest))) =
      (if fid == "telemetry_add" then cleanE k && cleanE v
      else if fid == "sleep" then cleanE k
      else false) := rfl

theorem noK_render (e : PyExpr) (hb : cleanE e = true) (r : String)
    (h : visit_expression e = .ok r) : noKStr r = true := by
  cases e with
  | constE c =>
      cases c with
      | pstr s =>
          rw [ve_const_str] at h
          cases okInj h
          simp only [cleanE] at hb
          rw [noKStr_append, noKStr_append, hb]
          decide
      | onum r0 t0 =>
          rw [ve_const_num] at h
          cases okInj h
          simpa only [cleanE] using hb
  | nameE id =>
      rw [ve_name] at h
      cases okInj h
      simpa only [cleanE] using hb
  | attr v a =>
      cases v with
      | nameE vid =>
          simp only [cleanE, Bool.and_eq_true] at hb
          rw [ve_attr_name] at h
          by_cases h1 : vid == "gamepad1"
          · rw [if_pos h1] at h
            cases okInj h
            rw [noKStr_append, convert_gamepad_attr_noK a hb.2]
            decide
          · rw [if_neg h1] at h
            by_cases h2 : vid == "gamepad2"
            · rw [if_pos h2] at h
              cases okInj h
              rw [noKStr_append, convert_gamepad_attr_noK a hb.2]
              decide
            · rw [if_neg h2] at h
              cases okInj h
              rw [noKStr_append, noKStr_append, hb.1, hb.2]
              decide
      | constE c => exact Bool.noConfusion hb
      | attr v2 a2 => exact Bool.noConfusion hb
      | usub o => exact Bool.noConfusion hb
      | unaryOther o => exact Bool.noConfusion hb
      | binOp l op rr => exact Bool.noConfusion hb
      | compare l op rr => exact Bool.noConfusion hb
      | callE f ar => exact Bool.noConfusion hb
      | otherExpr => exact Bool.noConfusion hb
  | usub operand =>
      simp only [cleanE] at hb
      rw [ve_usub] at h
      rcases bindOk h with ⟨o, ho, h2⟩
      cases okInj h2
      rw [noKStr_append, noK_render operand hb o ho]
      decide
  | unaryOther o => exact Bool.noConfusion hb
  | binOp l op rr =>
      simp only [cleanE, Bool.and_eq_true] at hb
      rw [ve_binOp] at h
      rcases bindOk h with ⟨ls, hl, h2⟩
      rcases bindOk h2 with ⟨rs, hr, h3⟩
      cases okInj h3
      simp only [noKStr_append]
      rw [noK_render l hb.1 ls hl, noK_render rr hb.2 rs hr,
          convert_binary_op_noK op]
      decide
  | compare l op rr => exact Bool.noConfusion hb
  | otherExpr => exact Bool.noConfusion hb
  | callE f args =>
      cases f with
      | attr fval method =>
          cases args with
          | nil =>
              rw [cleanE_call_attr_nil] at hb
              simp only [Bool.and_eq_true] at hb
              obtain ⟨hbf, hbif⟩ := hb
              rw [ve_call_attr_nil] at h
              rcases bindOk h with ⟨obj, hobj, h2⟩
              have hobjn : noKStr obj = true := noK_render fval hbf obj hobj
              by_cases hm1 : method == "set_power"
              · rw [if_pos hm1] at h2; exact Except.noConfusion h2
              · rw [if_neg hm1] at h2
                by_cases hm2 : method == "set_position"
                · rw [if_pos hm2] at h2; exact Except.noConfusion h2
                · rw [if_neg hm2] at h2
                  by_cases hm3 : method == "get_distance"
                  · rw [if_pos hm3] at h2
                    cases okInj h2
                    rw [noKStr_append, hobjn]
                    decide
                  · rw [if_neg hm3] at h2
                    by_cases hm4 : method == "is_pressed"
                    · rw [if_pos hm4] at h2
                      cases okInj h2
                      rw [noKStr_append, hobjn]
                      decide
                    · rw [if_neg hm4] at h2
                      by_cases hm5 : method == "get_current_position"
                      · rw [if_pos hm5] at h2
                        cases okInj h2
                        rw [noKStr_append, hobjn]
                        decide
                      · rw [if_neg hm5] at h2
                        by_cases hm6 : method == "set_target_position"
                        · rw [if_pos hm6] at h2; exact Except.noConfusion h2
                        · rw [if_neg hm6] at h2
                          by_cases hm7 : method == "set_mode"
                          · rw [if_neg hm1, if_neg hm2, if_neg hm3, if_neg hm4,
                                if_neg hm5, if_neg hm6, if_pos hm7] at hbif
                            exact Bool.noConfusion hbif
                          · rw [if_neg hm1, if_neg hm2, if_neg hm3, if_neg hm4,
                                if_neg hm5, if_neg hm6, if_neg hm7] at hbif
                            exact Bool.noConfusion hbif
          | cons a rest =>
              rw [cleanE_call_attr_cons] at hb
              simp only [Bool.and_eq_true] at hb
              obtain ⟨hbf, hbif⟩ := hb
              rw [ve_call_attr_cons] at h
              rcases bindOk h with ⟨obj, hobj, h2⟩
              have hobjn : noKStr obj = true := noK_render fval hbf obj hobj
              by_cases hm1 : method == "set_power"
              · rw [if_pos hm1] at h2 hbif
                rcases bindOk h2 with ⟨arg, harg, h3⟩
                cases okInj h3
                simp only [noKStr_append]
                rw [hobjn, noK_render a hbif arg harg]
                decide
              · rw [if_neg hm1] at h2 hbif
                by_cases hm2 : method == "set_position"
                · rw [if_pos hm2] at h2 hbif
                  rcases bindOk h2 with ⟨arg, harg, h3⟩
                  cases okInj h3
                  simp only [noKStr_append]
                  rw [hobjn, noK_render a hbif arg harg]
                  decide
                · rw [if_neg hm2] at h2 hbif
                  by_cases hm3 : method == "get_distance"
                  · rw [if_pos hm3] at h2
                    cases okInj h2
                    rw [noKStr_append, hobjn]
                    decide
                  · rw [if_neg hm3] at h2 hbif
                    by_cases hm4 : method == "is_pressed"
                    · rw [if_pos hm4] at h2
                      cases okInj h2
                      rw [noKStr_append, hobjn]
                      decide
                    · rw [if_neg hm4] at h2 hbif
                      by_cases hm5 : method == "get_current_position"
                      · rw [if_pos hm5] at h2
                        cases okInj h2
                        rw [noKStr_append, hobjn]
                        decide
                      · rw [if_neg hm5] at h2 hbif
                        by_cases hm6 : method == "set_target_position"
                        · rw [if_pos hm6] at h2 hbif
                          rcases bindOk h2 with ⟨arg, harg, h3⟩
                          cases okInj h3
                          simp only [noKStr_append]
                          rw [hobjn, noK_render a hbif arg harg]
                          decide
                        · rw [if_neg hm6] at h2 hbif
                          by_cases hm7 : method == "set_mode"
                          · rw [if_pos hm7] at h2 hbif
                            rcases bindOk h2 with ⟨marg, hmarg, h3⟩
                            simp only [Bool.and_eq_true, modeOk, hmarg] at hbif
                            cases hlook : motor_modes.lookup (stripQuotes marg) with
                            | some jm =>
                                rw [hlook] at h3
                                cases okInj h3
                                simp only [noKStr_append]
                                rw [hobjn,
                                    lookup_val_noK motor_modes (by decide) _ jm hlook]
                                decide
                            | none =>
                                rw [hlook] at hbif
                                simpa using hbif.2
                          · rw [if_neg hm7] at hbif
                            exact Bool.noConfusion hbif
      | nameE fid =>
          cases args with
          | nil =>
              rw [cleanE_call_name_nil] at hb
              by_cases hf1 : fid == "telemetry_add"
              · rw [if_pos hf1] at hb
                exact Bool.noConfusion hb
              · rw [if_neg hf1] at hb
                by_cases hf2 : fid == "sleep"
                · rw [if_pos hf2] at hb
                  exact Bool.noConfusion hb
                · rw [if_neg hf2] at hb
                  exact Bool.noConfusion hb
          | cons k krest =>
              cases krest with
              | nil =>
                  rw [cleanE_call_name_one] at hb
                  rw [ve_call_name_one] at h
                  by_cases hf1 : fid == "telemetry_add"
                  · rw [if_pos hf1] at hb
                    exact Bool.noConfusion hb
                  · rw [if_neg hf1] at h hb
                    by_cases hf2 : fid == "sleep"
                    · rw [if_pos hf2] at h hb
                      rcases bindOk h with ⟨ts, ht, h2⟩
                      cases okInj h2
                      simp only [noKStr_append]
                      rw [noK_render k hb ts ht]
                      decide
                    · rw [if_neg hf2] at hb
                      exact Bool.noConfusion hb
              | cons v rest =>
                  rw [cleanE_call_name_two] at hb
                  rw [ve_call_name_two] at h
                  by_cases hf1 : fid == "telemetry_add"
                  · rw [if_pos hf1] at h hb
                    simp only [Bool.and_eq_true] at hb
                    rcases bindOk h with ⟨ks, hk, h2⟩
                    rcases bindOk h2 with ⟨vs, hv, h3⟩
                    cases okInj h3
                    simp only [noKStr_append]
                    rw [noK_render k hb.1 ks hk, noK_render v hb.2 vs hv]
                    decide
                  · rw [if_neg hf1] at h hb
                    by_cases hf2 : fid == "sleep"
                    · rw [if_pos hf2] at h hb
                      rcases bindOk h with ⟨ts, ht, h2⟩
                      cases okInj h2
                      simp only [noKStr_append]
                      rw [noK_render k hb ts ht]
                      decide
                    · rw [if_neg hf2] at hb
                      exact Bool.noConfusion hb
      | constE c => exact Bool.noConfusion hb
      | usub o => exact Bool.noConfusion hb
      | unaryOther o => exact Bool.noConfusion hb
      | binOp l op rr => exact Bool.noConfusion hb
      | compare l op rr => exact Bool.noConfusion hb
      | callE f2 a2 => exact Bool.noConfusion hb
      | otherExpr => exact Bool.noConfusion hb

theorem motor_directions_get_noK (d : PyConst) (hd : d.noK = true) :
    noKStr (motor_directions_get d) = true := by
  cases d with
  | pstr s =>
      rw [motor_directions_get]
      cases hl : motor_directions.lookup s with
      | none => simpa using hd
      | some v =>
          simp only [Option.getD_some]
          exact lookup_val_noK motor_directions (by decide) s v hl
  | onum r t => exact hd

theorem cleanS_assign_default (a : String) (value : PyExpr)
    (hne : ∀ fn args, value = PyExpr.callE (PyExpr.nameE fn) args → False) :
    cleanS (.assign [.attr (.nameE "self") a] value)
      = (noKStr a && cleanE value) := by
  cases value with
  | callE f args =>
      cases f with
      | nameE fid => exact absurd rfl (hne fid args)
      | constE c => rfl
      | attr v m => rfl
      | usub o => rfl
      | unaryOther o => rfl
      | binOp l op r => rfl
      | compare l op r => rfl
      | callE f2 a2 => rfl
      | otherExpr => rfl
  | constE c => rfl
  | nameE id => rfl
  | attr v a2 => rfl
  | usub o => rfl
  | unaryOther o => rfl
  | binOp l op r => rfl
  | compare l op r => rfl
  | otherExpr => rfl


theorem meq_refl (s : TState) : MEq s s := rfl

theorem meq_trans {s t u : TState} (h1 : MEq s t) (h2 : MEq t u) : MEq s u :=
  h2.trans h1

theorem meq_inc (s : TState) : MEq s (incIndent s) := rfl

theorem meq_dec (s : TState) : MEq s (decIndent s) := rfl

theorem meq_addline_noK (s : TState) (x : String) (hx : noKStr x = true) :
    MEq s (add_line s x) :=
  markerLineCount_addline_noK s x hx

theorem visit_Assign_marker {targets : List PyExpr} {value : PyExpr}
    {st s' : TState} (hc : cleanS (.assign targets value) = true)
    (h : visit_Assign targets value st = .ok s') :
    markerLineCount s'.java_code = markerLineCount st.java_code := by
  simp only [visit_Assign] at h
  split at h
  · rename_i a
    split at h
    · rename_i fn args
      have hc2 : hwRegNoK a fn args = true := hc
      split at h
      · rename_i ty hty
        simp only [hwRegNoK, hty, Bool.and_eq_true] at hc2
        obtain ⟨⟨hna, hncfg⟩, hdirm⟩ := hc2
        have hline1 : noKStr (a ++ " = hardwareMap.get(" ++ ty ++ ".class, \"" ++
            (get_string_arg args 0 (.pstr a)).pyStr ++ "\");") = true := by
          rw [noKStr_append, noKStr_append, noKStr_append, noKStr_append,
              noKStr_append, hna, lookup_val_noK hardware_types (by decide) fn ty hty,
              noK_pyStr _ hncfg]
          decide
        split at h
        · rename_i d hdir
          simp only [hdir] at hdirm
          split at h
          · have h3 := pureOk h
            subst h3
            rw [markerLineCount_addline_noK _ _ (by
              rw [noKStr_append, noKStr_append, noKStr_append, hna,
                  motor_directions_get_noK d hdirm]
              decide)]
            exact markerLineCount_addline_noK _ _ hline1
          · have h3 := pureOk h
            subst h3
            exact markerLineCount_addline_noK _ _ hline1
        · have h3 := pureOk h
          subst h3
          exact markerLineCount_addline_noK _ _ hline1
      · have h3 := pureOk h
        subst h3
        rfl
    · rename_i hne
      rcases bindOk h with ⟨v, hvv, h2⟩
      have h3 := pureOk h2
      subst h3
      rw [cleanS_assign_default a value hne] at hc
      simp only [Bool.and_eq_true] at hc
      exact markerLineCount_addline_noK _ _ (by
        rw [noKStr_append, noKStr_append, noKStr_append, hc.1,
            noK_render value hc.2 v hvv]
        decide)
  · rename_i var
    rcases bindOk h with ⟨v, hvv, h2⟩
    have h3 := pureOk h2
    subst h3
    have hc2 : (noKStr var && cleanE value) = true := hc
    simp only [Bool.and_eq_true] at hc2
    exact markerLineCount_addline_noK _ _ (by
      rw [noKStr_append, noKStr_append, noKStr_append, noKStr_append, hc2.1,
          noK_render value hc2.2 v hvv]
      decide)
  · have h3 := pureOk h
    subst h3
    rfl

theorem visit_Expr_marker {value : PyExpr} {st s' : TState}
    (hc : cleanS (.exprStmt value) = true) (h : visit_Expr value st = .ok s') :
    markerLineCount s'.java_code = markerLineCount st.java_code := by
  simp only [visit_Expr] at h
  split at h
  · rename_i f args
    have hc2 : cleanE (.callE f args) = true := hc
    rcases bindOk h with ⟨c, hcall, h2⟩
    simp only [visit_call_expression] at hcall
    have hnc : noKStr c = true := noK_render _ hc2 c hcall
    split at h2
    · have h3 := pureOk h2
      subst h3
      rfl
    · have h3 := pureOk h2
      subst h3
      exact markerLineCount_addline_noK _ _ (by rw [noKStr_append, hnc]; decide)
  · have h3 := pureOk h
    subst h3
    rfl

mutual
theorem visit_marker (stmt : PyStmt) (s s' : TState) (hc : cleanS stmt = true)
    (h : visit stmt s = .ok s') :
    markerLineCount s'.java_code = markerLineCount s.java_code := by
  cases stmt with
  | classDef n d b => exact Bool.noConfusion hc
  | functionDef name args b =>
      have hc2 : (noKStr name && args.all noKStr && cleanB b) = true := hc
      simp only [Bool.and_eq_true] at hc2
      obtain ⟨⟨hn, hargs⟩, hcb⟩ := hc2
      simp only [visit] at h
      split at h
      · rcases bindOk h with ⟨t, hb, h2⟩
        have h3 := pureOk h2
        subst h3
        have hpre := meq_trans
          (meq_addline_noK s ("private void initHardware() " ++ lb) (by decide))
          (meq_inc _)
        have ih := visitB_marker b _ t hcb hb
        have hpost := meq_trans (meq_trans (meq_dec t) (meq_addline_noK _ rb
          (by decide))) (meq_addline_noK _ ("") (by decide))
        rw [MEq] at hpre hpost
        rw [hpost, ih, hpre]
      · split at h
        · rcases bindOk h with ⟨t, hb, h2⟩
          have h3 := pureOk h2
          subst h3
          have hpre := meq_trans (meq_addline_noK s ("@Override") (by decide))
            (meq_trans (meq_addline_noK _ ("public void runOpMode() " ++ lb)
              (by decide))
            (meq_trans (meq_inc _)
            (meq_trans (meq_addline_noK _ ("initHardware();") (by decide))
            (meq_trans (meq_addline_noK _ ("") (by decide))
            (meq_trans (meq_addline_noK _
              ("telemetry.addData(\"Status\", \"Initialized\");") (by decide))
            (meq_trans (meq_addline_noK _ ("telemetry.update();") (by decide))
            (meq_trans (meq_addline_noK _ ("") (by decide))
            (meq_trans (meq_addline_noK _ ("waitForStart();") (by decide))
              (meq_addline_noK _ ("") (by decide))))))))))
          have ih := visitB_marker b _ t hcb hb
          have hpost := meq_trans (meq_dec t) (meq_addline_noK _ rb (by decide))
          rw [MEq] at hpre hpost
          rw [hpost, ih, hpre]
        · split at h
          · rcases bindOk h with ⟨t, hb, h2⟩
            have h3 := pureOk h2
            subst h3
            have hpre := meq_trans
              (meq_addline_noK s ("while (opModeIsActive()) " ++ lb) (by decide))
              (meq_inc _)
            have ih := visitB_marker b _ t hcb hb
            have hpost := meq_trans (meq_trans
              (meq_addline_noK t ("telemetry.update();") (by decide)) (meq_dec _))
              (meq_addline_noK _ rb (by decide))
            rw [MEq] at hpre hpost
            rw [hpost, ih, hpre]
          · rcases bindOk h with ⟨t, hb, h2⟩
            have h3 := pureOk h2
            subst h3
            have hparams : noKStr (pyJoin (", ")
                ((args.filter (fun a => !(a == "self"))).map
                  (fun a => "double " ++ a))) = true := by
              refine noK_pyJoin _ _ (by decide) ?_
              simp only [List.all_eq_true] at hargs ⊢
              intro x hx
              rcases List.mem_map.mp hx with ⟨a, ha, rfl⟩
              rw [noKStr_append, hargs a (List.mem_of_mem_filter ha)]
              decide
            have hpre := meq_trans
              (meq_addline_noK s ("private void " ++ name ++ "(" ++
                (pyJoin (", ") ((args.filter (fun a => !(a == "self"))).map
                  (fun a => "double " ++ a))) ++ ") " ++ lb)
                (by rw [noKStr_append, noKStr_append, noKStr_append, noKStr_append,
                        noKStr_append, hn, hparams]
                    decide))
              (meq_inc _)
            have ih := visitB_marker b _ t hcb hb
            have hpost := meq_trans (meq_trans (meq_dec t)
              (meq_addline_noK _ rb (by decide)))
              (meq_addline_noK _ ("") (by decide))
            rw [MEq] at hpre hpost
            rw [hpost, ih, hpre]
  | assign targets value =>
      simp only [visit] at h
      exact visit_Assign_marker hc h
  | exprStmt value =>
      simp only [visit] at h
      exact visit_Expr_marker hc h
  | ifStmt test b e =>
      have hc2 : (cleanE test && cleanB b && cleanB e) = true := hc
      simp only [Bool.and_eq_true] at hc2
      obtain ⟨⟨htest, hcb⟩, hce⟩ := hc2
      simp only [visit] at h
      rcases bindOk h with ⟨c, hcond, h2⟩
      have hnc : noKStr c = true := noK_render _ htest c hcond
      rcases bindOk h2 with ⟨t, hb, h3⟩
      have hpre := meq_trans
        (meq_addline_noK s ("if (" ++ c ++ ") " ++ lb)
          (by rw [noKStr_append, noKStr_append, noKStr_append, hnc]; decide))
        (meq_inc _)
      have ih := visitB_marker b _ t hcb hb
      rw [MEq] at hpre
      split at h3
      · have h4 := pureOk h3
        subst h4
        have hpost := meq_trans (meq_dec t) (meq_addline_noK _ rb (by decide))
        rw [MEq] at hpost
        rw [hpost, ih, hpre]
      · rcases bindOk h3 with ⟨u, hor, h5⟩
        have h6 := pureOk h5
        subst h6
        have hmid := meq_trans (meq_trans (meq_dec t)
          (meq_addline_noK _ (rb ++ " else " ++ lb) (by decide))) (meq_inc _)
        have ih2 := visitB_marker e _ u hce hor
        have hpost := meq_trans (meq_dec u) (meq_addline_noK _ rb (by decide))
        rw [MEq] at hmid hpost
        rw [hpost, ih2, hmid, ih, hpre]
  | whileStmt test b =>
      have hc2 : (cleanE test && cleanB b) = true := hc
      simp only [Bool.and_eq_true] at hc2
      obtain ⟨htest, hcb⟩ := hc2
      simp only [visit] at h
      rcases bindOk h with ⟨c, hcond, h2⟩
      have hnc : noKStr c = true := noK_render _ htest c hcond
      rcases bindOk h2 with ⟨t, hb, h3⟩
      have h4 := pureOk h3
      subst h4
      have hpre := meq_trans
        (meq_addline_noK s ("while (" ++ c ++ ") " ++ lb)
          (by rw [noKStr_append, noKStr_append, noKStr_append, hnc]; decide))
        (meq_inc _)
      have ih := visitB_marker b _ t hcb hb
      have hpost := meq_trans (meq_dec t) (meq_addline_noK _ rb (by decide))
      rw [MEq] at hpre hpost
      rw [hpost, ih, hpre]
  | passStmt =>
      simp only [visit] at h
      have h2 := pureOk h
      subst h2
      rfl

theorem visitB_marker (b : PyBody) (s s' : TState) (hc : cleanB b = true)
    (h : visitB b s = .ok s') :
    markerLineCount s'.java_code = markerLineCount s.java_code := by
  cases b with
  | nil =>
      simp only [visitB] at h
      have h2 := pureOk h
      subst h2
      rfl
  | cons st rest =>
      simp only [cleanB, Bool.and_eq_true] at hc
      simp only [visitB] at h
      rcases bindOk h with ⟨t, h1, h2⟩
      rw [visitB_marker rest t s' hc.2 h2, visit_marker st s t hc.1 h1]
end

/-- C3 (amended): for a unit made of supported (clean) statements except a
single assignment whose right-hand side renders to an inline `UNKNOWN`
marker, the translation of every other statement is preserved verbatim
around the one marker-carrying line, and the output carries exactly one
marker line. -/
theorem single_unsupported_assignment_one_marker
    (mpre mpost : PyBody) (v : String) (uexpr : PyExpr) (r : String)
    (s st : TState)
    (hpre : cleanB mpre = true) (hpost : cleanB mpost = true)
    (hu : visit_expression uexpr = .ok r)
    (hmark : strHas ("UNKNOWN") r = true)
    (h : visitB (mpre.append (.cons (.assign [.nameE v] uexpr) mpost)) s = .ok st)
    (hs : markerLineCount s.java_code = 0) :
    (∃ t, visitB mpre s = .ok t ∧
      visitB mpost (add_line t ("double " ++ v ++ " = " ++ r ++ ";")) = .ok st) ∧
    markerLineCount st.java_code = 1 := by
  rw [visitB_append] at h
  rcases bindOk h with ⟨t, hpre2, hrest⟩
  simp only [visitB] at hrest
  rcases bindOk hrest with ⟨t2, hassign, hpost2⟩
  simp only [visit, visit_Assign] at hassign
  rcases bindOk hassign with ⟨v2, hvv, h2⟩
  have h3 := pureOk h2
  have hrv : r = v2 := okInj (hu.symm.trans hvv)
  subst hrv
  subst h3
  have hmt : markerLineCount t.java_code = 0 :=
    (visitB_marker mpre s t hpre hpre2).trans hs
  have hmline : isMarkerLine ("double " ++ v ++ " = " ++ r ++ ";") = true := by
    rw [isMarkerLine]
    exact strHas_append_right _ _ _ (strHas_append_left _ _ _ hmark)
  have hm2 : markerLineCount (add_line t
      ("double " ++ v ++ " = " ++ r ++ ";")).java_code = 1 := by
    rw [markerLineCount_addline_marker t _ hmline, hmt]
  refine ⟨⟨t, hpre2, hpost2⟩, ?_⟩
  rw [visitB_marker mpost _ st hpost hpost2, hm2]


/-- C3 counterexample: a unit whose single unsupported site is a
statement-level call (`foo()`) produces zero marker lines — the statement
vanishes silently instead of leaving the claimed inline marker — while the
neighbouring supported telemetry statement is translated. -/
theorem unsupported_call_dropped_without_marker :
    (visitB exDropCall initTranspiler).map
      (fun st => markerLineCount st.java_code) = .ok 0 ∧
    (visitB exDropCall initTranspiler).map
      (fun st => st.java_code.any (fun l => strHas ("foo") l)) = .ok false ∧
    (visitB exDropCall initTranspiler).map
      (fun st => st.java_code.any (fun l => strHas ("telemetry.addData") l))
      = .ok true :=
  ⟨rfl, rfl, rfl⟩


/-- C3 witness: the one-marker theorem instantiated on a concrete body
with one supported `sleep` call followed by `x = a < b`. -/
theorem single_unsupported_assignment_one_marker_witness :
    (∃ t, visitB exCleanPre initTranspiler = .ok t ∧
      visitB PyBody.nil (add_line t ("double " ++ "x" ++ " = " ++
        "/* UNKNOWN EXPRESSION */" ++ ";")) = .ok
        (⟨["sleep(100);", "double x = /* UNKNOWN EXPRESSION */;"],
          [], none, "", 0, 0⟩ : TState)) ∧
    markerLineCount (⟨["sleep(100);", "double x = /* UNKNOWN EXPRESSION */;"],
      [], none, "", 0, 0⟩ : TState).java_code = 1 :=
  single_unsupported_assignment_one_marker exCleanPre PyBody.nil "x"
    (.compare (.nameE "a") .lt (.nameE "b")) ("/* UNKNOWN EXPRESSION */")
    initTranspiler
    (⟨["sleep(100);", "double x = /* UNKNOWN EXPRESSION */;"],
      [], none, "", 0, 0⟩ : TState)
    (by decide) rfl rfl (by decide) (by rfl) rfl
